import Mathlib

/-! # PFFDTD 3-D CPU engine: shallow embedding

Embedding of `run` and `process_bnl_pts_fd` from `src/cpp/main_3d/engine_cpu.cpp`, with the
data model of `src/native/fdtd_data.h`, the macros of `src/cpp/pffdtd/utility.hpp` and
`qsort_keys` from `src/native/helper_funcs.c`.

Modelling conventions:

* `Real` and `double` are modelled by exact rationals `ℚ`; casts between them are the
  identity. Rounding and overflow are not modelled.
* The two divisions of the engine (`/ (1 + l * Q_bna[nb])` in the ABC loss pass and
  `/ (1 + lo2 * ssaf_bnl[nb] * mat_beta[k])` in the FD integrator) are embedded twice. The
  definitions of the first part divide in `ℚ`, where a zero divisor yields `0`. The section
  `Ieee` repeats every phase over `Ieee.Val = Option ℚ`: a finite value is `some q`, and
  `none` stands for a non-finite IEEE value (NaN or an infinity), which a division by zero
  produces and every operation propagates. The two embeddings agree on every scene whose
  divisors are nonzero (`divisorsOk`, `ieee_run_exact`); statements that depend on the
  value of a division by zero are made about `Ieee.run`.
* C arrays are total maps `Int → _`; an assignment `a[i] = v` is `Function.update a i v`.
  An access outside the allocated range (undefined behaviour in C) is an access to a cell
  of the total map that no in-range access sees.
* `int64_t` indices are unbounded `Int` (no scene of realistic size overflows 64 bits);
  `int8_t` entries are `Int`; `uint16_t`/`uint8_t` words are `Nat` reduced modulo
  `2^16`/`2^8` when they are read.
* `for (i = lo; i < hi; i++)` loops are `forRange lo hi`, a left fold over `lo, …, hi-1`.
  The OpenMP loops are executed in index order.
* Timing, progress printing and the returned wall time are not modelled; `run` returns the
  working buffers and the output array `u_out`.
* The C library is not part of the sources: `qsort` is a parameter of `qsort_keys`, constrained
  by its contract `QsortSpec`, and the result of `malloc` is a parameter as well.
-/

namespace Pffdtd

/-! ## Data model (`fdtd_data.h`) -/

/-- Maximum number of RLC branches per material (`#define MMb 12`). -/
def MMb : Int := 12

/-- RLC coefficients of one branch (`struct MatQuad`). -/
structure MatQuad where
  b : ℚ
  bd : ℚ
  bDh : ℚ
  bFh : ℚ

/-- Scene data (`struct SimData` / `Simulation3D`), restricted to the fields `run` reads. -/
structure Scene where
  Ns : Int
  Nr : Int
  Nt : Int
  Npts : Int
  Nx : Int
  Ny : Int
  Nz : Int
  Nb : Int
  Nbl : Int
  Nba : Int
  Mb : Int → Int
  bn_ixyz : Int → Int
  bnl_ixyz : Int → Int
  bna_ixyz : Int → Int
  in_ixyz : Int → Int
  out_ixyz : Int → Int
  adj_bn : Int → Nat
  bn_mask : Int → Nat
  mat_bnl : Int → Int
  Q_bna : Int → Int
  in_sigs : Int → ℚ
  u_out : Int → ℚ
  fcc_flag : Int
  ssaf_bnl : Int → ℚ
  mat_beta : Int → ℚ
  mat_quads : Int → MatQuad
  lo2 : ℚ
  sl2 : ℚ
  l : ℚ
  a1 : ℚ
  a2 : ℚ

/-- Working buffers allocated by `run`: the two pressure fields, the lossy shadows,
the ABC shadow and the two auxiliary RLC state arrays. Each field is the buffer the
C pointer of the same name currently points to. -/
structure State where
  u0 : Int → ℚ
  u1 : Int → ℚ
  u0b : Int → ℚ
  u1b : Int → ℚ
  u2b : Int → ℚ
  u2ba : Int → ℚ
  vh1 : Int → ℚ
  gh1 : Int → ℚ

/-- All buffers zero-initialised (`std::vector<Real>(n)`). -/
def State.init : State :=
  { u0 := fun _ => 0, u1 := fun _ => 0, u0b := fun _ => 0, u1b := fun _ => 0,
    u2b := fun _ => 0, u2ba := fun _ => 0, vh1 := fun _ => 0, gh1 := fun _ => 0 }

/-! ## Utilities (`utility.hpp`) -/

/-- The macro `GET_BIT(var, pos) = (((var) >> (pos)) & 1)`. -/
def GET_BIT (var pos : Nat) : Nat := (var >>> pos) &&& 1

/-- A counted loop `for (i = lo; i < hi; i++) s = body(i, s)`. -/
def forRange {σ : Type} (lo hi : Int) (body : Int → σ → σ) (s : σ) : σ :=
  (List.range (hi - lo).toNat).foldl (fun acc (i : Nat) => body (lo + (i : Int)) acc) s

/-- The loop `while (iz < hi) { s = body(iz, s); iz += step; }`, unrolled at most
`fuel` times; for `step ≥ 1` the fuel `hi - iz` is enough (`whileLt_fuel_enough`). -/
def whileLt {σ : Type} (fuel : Nat) (iz step hi : Int) (body : Int → σ → σ) (s : σ) : σ :=
  match fuel with
  | 0 => s
  | f + 1 => if iz < hi then whileLt f (iz + step) step hi body (body iz s) else s

/-- Kernighan's loop `for (Kint = 0; v; Kint++) v &= v - 1;` started with counter `Kint`. -/
def popcountLoop (v Kint : Nat) : Nat :=
  if h : v = 0 then Kint else popcountLoop (v &&& (v - 1)) (Kint + 1)
termination_by v
decreasing_by
  exact lt_of_le_of_lt Nat.and_le_right (Nat.sub_lt (Nat.pos_of_ne_zero h) Nat.one_pos)

/-! ## Phases of one sample of `run` -/

/-- Copy last state ABCs: `u2ba[nb] = u0[bna_ixyz[nb]]`. -/
def copyABC (sc : Scene) (u0 u2ba : Int → ℚ) : Int → ℚ :=
  forRange 0 sc.Nba (fun nb u2ba => Function.update u2ba nb (u0 (sc.bna_ixyz nb))) u2ba

/-- Copy of the y-z face for the FCC folded grid (executed when `fcc_flag == 2`). -/
def foldedCopy (sc : Scene) (u1 : Int → ℚ) : Int → ℚ :=
  let NzNy := sc.Nz * sc.Ny
  forRange 0 sc.Nx (fun ix u1 =>
    forRange 0 sc.Nz (fun iz u1 =>
      Function.update u1 (ix * NzNy + (sc.Ny - 1) * sc.Nz + iz)
        (u1 (ix * NzNy + (sc.Ny - 2) * sc.Nz + iz))) u1) u1

/-- Halo flip of the two `iz` faces. -/
def haloZ (sc : Scene) (u1 : Int → ℚ) : Int → ℚ :=
  let NzNy := sc.Nz * sc.Ny
  forRange 0 sc.Nx (fun ix u1 =>
    forRange 0 sc.Ny (fun iy u1 =>
      let u1 := Function.update u1 (ix * NzNy + iy * sc.Nz + 0) (u1 (ix * NzNy + iy * sc.Nz + 2))
      Function.update u1 (ix * NzNy + iy * sc.Nz + sc.Nz - 1)
        (u1 (ix * NzNy + iy * sc.Nz + sc.Nz - 3))) u1) u1

/-- Halo flip of the `iy = 0` face. -/
def haloYlo (sc : Scene) (u1 : Int → ℚ) : Int → ℚ :=
  let NzNy := sc.Nz * sc.Ny
  forRange 0 sc.Nx (fun ix u1 =>
    forRange 0 sc.Nz (fun iz u1 =>
      Function.update u1 (ix * NzNy + 0 * sc.Nz + iz) (u1 (ix * NzNy + 2 * sc.Nz + iz))) u1) u1

/-- Halo flip of the `iy = Ny-1` face (executed when `fcc_flag != 2`). -/
def haloYhi (sc : Scene) (u1 : Int → ℚ) : Int → ℚ :=
  let NzNy := sc.Nz * sc.Ny
  forRange 0 sc.Nx (fun ix u1 =>
    forRange 0 sc.Nz (fun iz u1 =>
      Function.update u1 (ix * NzNy + (sc.Ny - 1) * sc.Nz + iz)
        (u1 (ix * NzNy + (sc.Ny - 3) * sc.Nz + iz))) u1) u1

/-- Halo flip of the two `ix` faces. -/
def haloX (sc : Scene) (u1 : Int → ℚ) : Int → ℚ :=
  let NzNy := sc.Nz * sc.Ny
  forRange 0 sc.Ny (fun iy u1 =>
    forRange 0 sc.Nz (fun iz u1 =>
      let u1 := Function.update u1 (0 * NzNy + iy * sc.Nz + iz) (u1 (2 * NzNy + iy * sc.Nz + iz))
      Function.update u1 ((sc.Nx - 1) * NzNy + iy * sc.Nz + iz)
        (u1 ((sc.Nx - 3) * NzNy + iy * sc.Nz + iz))) u1) u1

/-- The halo flips in program order: `iz` faces, `iy = 0`, `iy = Ny-1` unless folded,
`ix` faces. -/
def haloFlips (sc : Scene) (u1 : Int → ℚ) : Int → ℚ :=
  let u1 := haloZ sc u1
  let u1 := haloYlo sc u1
  let u1 := if sc.fcc_flag ≠ 2 then haloYhi sc u1 else u1
  haloX sc u1

/-- The whole halo patch of a sample: folded pre-copy (if `fcc_flag == 2`), then the flips. -/
def haloPatch (sc : Scene) (u1 : Int → ℚ) : Int → ℚ :=
  haloFlips sc (if sc.fcc_flag = 2 then foldedCopy sc u1 else u1)

/-- The test `!(GET_BIT(bn_mask[ii >> 3], ii % 8))` of the air loops. -/
def maskClear (sc : Scene) (ii : Int) : Bool :=
  GET_BIT (sc.bn_mask (ii >>> 3) % 256) (ii % 8).toNat == 0

/-- Body of the cartesian air loop at cell `ii`. -/
def airCartCell (sc : Scene) (u1 : Int → ℚ) (ii : Int) (u0 : Int → ℚ) : Int → ℚ :=
  let NzNy := sc.Nz * sc.Ny
  if maskClear sc ii then
    let psum := sc.a1 * u1 ii - u0 ii
    let psum := psum + sc.a2 * u1 (ii + NzNy)
    let psum := psum + sc.a2 * u1 (ii - NzNy)
    let psum := psum + sc.a2 * u1 (ii + sc.Nz)
    let psum := psum + sc.a2 * u1 (ii - sc.Nz)
    let psum := psum + sc.a2 * u1 (ii + 1)
    let psum := psum + sc.a2 * u1 (ii - 1)
    Function.update u0 ii psum
  else u0

/-- Air update, cartesian scheme (`fcc_flag == 0`). -/
def airCart (sc : Scene) (u1 u0 : Int → ℚ) : Int → ℚ :=
  let NzNy := sc.Nz * sc.Ny
  forRange 1 (sc.Nx - 1) (fun ix u0 =>
    forRange 1 (sc.Ny - 1) (fun iy u0 =>
      forRange 1 (sc.Nz - 1) (fun iz u0 =>
        airCartCell sc u1 (ix * NzNy + iy * sc.Nz + iz) u0) u0) u0) u0

/-- Body of the FCC air loop at cell `ii`. -/
def airFccCell (sc : Scene) (u1 : Int → ℚ) (ii : Int) (u0 : Int → ℚ) : Int → ℚ :=
  let NzNy := sc.Nz * sc.Ny
  if maskClear sc ii then
    let psum := sc.a1 * u1 ii - u0 ii
    let psum := psum + sc.a2 * u1 (ii + NzNy + sc.Nz)
    let psum := psum + sc.a2 * u1 (ii - NzNy - sc.Nz)
    let psum := psum + sc.a2 * u1 (ii + sc.Nz + 1)
    let psum := psum + sc.a2 * u1 (ii - sc.Nz - 1)
    let psum := psum + sc.a2 * u1 (ii + NzNy + 1)
    let psum := psum + sc.a2 * u1 (ii - NzNy - 1)
    let psum := psum + sc.a2 * u1 (ii + NzNy - sc.Nz)
    let psum := psum + sc.a2 * u1 (ii - NzNy + sc.Nz)
    let psum := psum + sc.a2 * u1 (ii + sc.Nz - 1)
    let psum := psum + sc.a2 * u1 (ii - sc.Nz + 1)
    let psum := psum + sc.a2 * u1 (ii + NzNy - 1)
    let psum := psum + sc.a2 * u1 (ii - NzNy + 1)
    Function.update u0 ii psum
  else u0

/-- Air update, FCC schemes (`fcc_flag > 0`): `iz` starts at `2 - (ix+iy) % 2` with
stride 2 for the checkerboard grid (`fcc_flag == 1`), at 1 with stride 1 otherwise. -/
def airFcc (sc : Scene) (u1 u0 : Int → ℚ) : Int → ℚ :=
  let NzNy := sc.Nz * sc.Ny
  forRange 1 (sc.Nx - 1) (fun ix u0 =>
    forRange 1 (sc.Ny - 1) (fun iy u0 =>
      let iz0 : Int := if sc.fcc_flag = 1 then 2 - (ix + iy) % 2 else 1
      whileLt (sc.Nz - 1 - iz0).toNat iz0 (if sc.fcc_flag = 1 then 2 else 1) (sc.Nz - 1)
        (fun iz u0 => airFccCell sc u1 (ix * NzNy + iy * sc.Nz + iz) u0) u0) u0) u0

/-- Air update for schemes: dispatch on `fcc_flag`. -/
def airUpdate (sc : Scene) (u1 u0 : Int → ℚ) : Int → ℚ :=
  if sc.fcc_flag = 0 then airCart sc u1 u0
  else if sc.fcc_flag > 0 then airFcc sc u1 u0
  else u0

/-- ABC loss: `u0[ib] = (u0[ib] + lQ * u2ba[nb]) / (1.0 + lQ)`. -/
def abcLoss (sc : Scene) (u2ba u0 : Int → ℚ) : Int → ℚ :=
  forRange 0 sc.Nba (fun nb u0 =>
    let lQ : ℚ := sc.l * (sc.Q_bna nb : ℚ)
    let ib := sc.bna_ixyz nb
    Function.update u0 ib ((u0 ib + lQ * u2ba nb) / (1 + lQ))) u0

/-- Rigid boundary nodes, cartesian scheme. -/
def rigidCart (sc : Scene) (u1 u0 : Int → ℚ) : Int → ℚ :=
  let NzNy := sc.Nz * sc.Ny
  forRange 0 sc.Nb (fun nb u0 =>
    let ii := sc.bn_ixyz nb
    let Kint := popcountLoop (sc.adj_bn nb % 65536) 0
    let K : ℚ := (Kint : ℚ)
    let b2 := sc.a2
    let b1 := 2 - sc.sl2 * K
    let psum := b1 * u1 ii - u0 ii
    let adj := sc.adj_bn nb % 65536
    let psum := psum + b2 * (GET_BIT adj 0 : ℚ) * u1 (ii + NzNy)
    let psum := psum + b2 * (GET_BIT adj 1 : ℚ) * u1 (ii - NzNy)
    let psum := psum + b2 * (GET_BIT adj 2 : ℚ) * u1 (ii + sc.Nz)
    let psum := psum + b2 * (GET_BIT adj 3 : ℚ) * u1 (ii - sc.Nz)
    let psum := psum + b2 * (GET_BIT adj 4 : ℚ) * u1 (ii + 1)
    let psum := psum + b2 * (GET_BIT adj 5 : ℚ) * u1 (ii - 1)
    Function.update u0 ii psum) u0

/-- Rigid boundary nodes, FCC schemes. -/
def rigidFcc (sc : Scene) (u1 u0 : Int → ℚ) : Int → ℚ :=
  let NzNy := sc.Nz * sc.Ny
  forRange 0 sc.Nb (fun nb u0 =>
    let ii := sc.bn_ixyz nb
    let Kint := popcountLoop (sc.adj_bn nb % 65536) 0
    let K : ℚ := (Kint : ℚ)
    let b2 := sc.a2
    let b1 := 2 - sc.sl2 * K
    let psum := b1 * u1 ii - u0 ii
    let adj := sc.adj_bn nb % 65536
    let psum := psum + b2 * (GET_BIT adj 0 : ℚ) * u1 (ii + NzNy + sc.Nz)
    let psum := psum + b2 * (GET_BIT adj 1 : ℚ) * u1 (ii - NzNy - sc.Nz)
    let psum := psum + b2 * (GET_BIT adj 2 : ℚ) * u1 (ii + sc.Nz + 1)
    let psum := psum + b2 * (GET_BIT adj 3 : ℚ) * u1 (ii - sc.Nz - 1)
    let psum := psum + b2 * (GET_BIT adj 4 : ℚ) * u1 (ii + NzNy + 1)
    let psum := psum + b2 * (GET_BIT adj 5 : ℚ) * u1 (ii - NzNy - 1)
    let psum := psum + b2 * (GET_BIT adj 6 : ℚ) * u1 (ii + NzNy - sc.Nz)
    let psum := psum + b2 * (GET_BIT adj 7 : ℚ) * u1 (ii - NzNy + sc.Nz)
    let psum := psum + b2 * (GET_BIT adj 8 : ℚ) * u1 (ii + sc.Nz - 1)
    let psum := psum + b2 * (GET_BIT adj 9 : ℚ) * u1 (ii - sc.Nz + 1)
    let psum := psum + b2 * (GET_BIT adj 10 : ℚ) * u1 (ii + NzNy - 1)
    let psum := psum + b2 * (GET_BIT adj 11 : ℚ) * u1 (ii - NzNy + 1)
    Function.update u0 ii psum) u0

/-- Rigid boundary pass: dispatch on `fcc_flag`. -/
def rigidUpdate (sc : Scene) (u1 u0 : Int → ℚ) : Int → ℚ :=
  if sc.fcc_flag = 0 then rigidCart sc u1 u0
  else if sc.fcc_flag > 0 then rigidFcc sc u1 u0
  else u0

/-- Read bn points: `u0b[nb] = u0[bnl_ixyz[nb]]`. -/
def readBnl (sc : Scene) (u0 u0b : Int → ℚ) : Int → ℚ :=
  forRange 0 sc.Nbl (fun nb u0b => Function.update u0b nb (u0 (sc.bnl_ixyz nb))) u0b

/-- Write back: `u0[bnl_ixyz[nb]] = u0b[nb]`. -/
def writeBnl (sc : Scene) (u0b u0 : Int → ℚ) : Int → ℚ :=
  forRange 0 sc.Nbl (fun nb u0 => Function.update u0 (sc.bnl_ixyz nb) (u0b nb)) u0

/-! ## Frequency-dependent boundary integrator -/

/-- First branch loop of `process_bnl_pts_fd` for node `nb` with material `k`: caches
`vh1[nbm]` in the local array `vh1nb` and subtracts the branch terms from `u0bint`.
The loop state is the pair `(u0bint, vh1nb)`. -/
def fdBranchCorrect (sc : Scene) (vh1 gh1 : Int → ℚ) (nb k : Int) (fac : ℚ)
    (s : ℚ × (Int → ℚ)) : ℚ × (Int → ℚ) :=
  forRange 0 (sc.Mb k) (fun m s =>
    let nbm := nb * MMb + m
    let mbk := k * MMb + m
    let tm := sc.mat_quads mbk
    let vh1nb := Function.update s.2 m (vh1 nbm)
    (s.1 - fac * (2 * tm.bDh * vh1nb m - tm.bFh * gh1 nbm), vh1nb)) s

/-- Second branch loop of `process_bnl_pts_fd` for node `nb` with material `k`: advances
`vh1[nbm]` and `gh1[nbm]`. The loop state is the pair `(vh1, gh1)`. -/
def fdStateAdvance (sc : Scene) (vh1nb : Int → ℚ) (nb k : Int) (du : ℚ)
    (s : (Int → ℚ) × (Int → ℚ)) : (Int → ℚ) × (Int → ℚ) :=
  forRange 0 (sc.Mb k) (fun m s =>
    let nbm := nb * MMb + m
    let mbk := k * MMb + m
    let tm := sc.mat_quads mbk
    let vh0nbm := tm.b * du + tm.bd * vh1nb m - 2 * tm.bFh * s.2 nbm
    let gh1 := Function.update s.2 nbm (s.2 nbm + (vh0nbm + vh1nb m) / 2)
    (Function.update s.1 nbm vh0nbm, gh1)) s

/-- The buffers `process_bnl_pts_fd` writes. -/
structure FdBufs where
  u0b : Int → ℚ
  vh1 : Int → ℚ
  gh1 : Int → ℚ

/-- Body of the node loop of `process_bnl_pts_fd`. -/
def fdNode (sc : Scene) (u2b : Int → ℚ) (nb : Int) (s : FdBufs) : FdBufs :=
  let k := sc.mat_bnl nb
  let lo2Kbg := sc.lo2 * sc.ssaf_bnl nb * sc.mat_beta k
  let fac := 2 * sc.lo2 * sc.ssaf_bnl nb / (1 + lo2Kbg)
  let u0bint := s.u0b nb
  let u2bint := u2b nb
  let u0bint := (u0bint + lo2Kbg * u2bint) / (1 + lo2Kbg)
  let r := fdBranchCorrect sc s.vh1 s.gh1 nb k fac (u0bint, fun _ => 0)
  let u0bint := r.1
  let vh1nb := r.2
  let du := u0bint - u2bint
  let w := fdStateAdvance sc vh1nb nb k du (s.vh1, s.gh1)
  { u0b := Function.update s.u0b nb u0bint, vh1 := w.1, gh1 := w.2 }

/-- The function `process_bnl_pts_fd` (freq-dep RLC boundaries); the scene supplies
`ssaf_bnl`, `mat_bnl`, `Nbl`, `Mb`, `lo2`, `mat_quads` and `mat_beta`. -/
def process_bnl_pts_fd (sc : Scene) (u2b : Int → ℚ) (s : FdBufs) : FdBufs :=
  forRange 0 sc.Nbl (fdNode sc u2b) s

/-! ## The sample loop of `run` -/

/-- The field updates of one sample, from the ABC snapshot to the FD write-back. -/
def samplePasses (sc : Scene) (st : State) : State :=
  let u2ba := copyABC sc st.u0 st.u2ba
  let u1 := haloPatch sc st.u1
  let u0 := airUpdate sc u1 st.u0
  let u0 := abcLoss sc u2ba u0
  let u0 := rigidUpdate sc u1 u0
  let u0b := readBnl sc u0 st.u0b
  let fd := process_bnl_pts_fd sc st.u2b { u0b := u0b, vh1 := st.vh1, gh1 := st.gh1 }
  let u0 := writeBnl sc fd.u0b u0
  { u0 := u0, u1 := u1, u0b := fd.u0b, u1b := st.u1b, u2b := st.u2b, u2ba := u2ba,
    vh1 := fd.vh1, gh1 := fd.gh1 }

/-- Read output at current sample: `u_out[nr * Nt + n] = (double)u1[out_ixyz[nr]]`. -/
def readOutput (sc : Scene) (n : Int) (u1 u_out : Int → ℚ) : Int → ℚ :=
  forRange 0 sc.Nr (fun nr u_out =>
    let ii := sc.out_ixyz nr
    Function.update u_out (nr * sc.Nt + n) (u1 ii)) u_out

/-- Add current sample to next: `u0[in_ixyz[ns]] += (Real)in_sigs[ns * Nt + n]`. -/
def addInput (sc : Scene) (in_sigs : Int → ℚ) (n : Int) (u0 : Int → ℚ) : Int → ℚ :=
  forRange 0 sc.Ns (fun ns u0 =>
    let ii := sc.in_ixyz ns
    Function.update u0 ii (u0 ii + in_sigs (ns * sc.Nt + n))) u0

/-- Swap pointers: `u0 ↔ u1` and the rotation `u2b ← u1b ← u0b ← u2b`. -/
def swapPointers (st : State) : State :=
  { st with u0 := st.u1, u1 := st.u0, u2b := st.u1b, u1b := st.u0b, u0b := st.u2b }

/-- State of the sample loop: the working buffers and the output array `u_out`. -/
structure Sim where
  st : State
  u_out : Int → ℚ

/-- The state part of one sample for input signals `in_sigs`. -/
def stepState (sc : Scene) (in_sigs : Int → ℚ) (n : Int) (st : State) : State :=
  let st := samplePasses sc st
  swapPointers { st with u0 := addInput sc in_sigs n st.u0 }

/-- Body of the sample loop `for (n = 0; n < Nt; n++)`. -/
def sampleStep (sc : Scene) (n : Int) (s : Sim) : Sim :=
  let st := samplePasses sc s.st
  let u_out := readOutput sc n st.u1 s.u_out
  let st := { st with u0 := addInput sc sc.in_sigs n st.u0 }
  { st := swapPointers st, u_out := u_out }

/-- The function `run`: the sample loop started from zero-initialised buffers and the
scene's `u_out` array. -/
def run (sc : Scene) : Sim :=
  forRange 0 sc.Nt (sampleStep sc) { st := State.init, u_out := sc.u_out }

/-- Working buffers at the start of sample `n` (after `n` iterations of the loop). -/
def stateAt (sc : Scene) : Nat → State
  | 0 => State.init
  | n + 1 => stepState sc sc.in_sigs (n : Int) (stateAt sc n)

/-- The scene `sc` with no samples (`Nt = 0`). -/
def withNt0 (sc : Scene) : Scene := { sc with Nt := 0 }

/-- The scene `sc` with its input signals replaced by `g` (same geometry, index lists,
materials and coefficients). -/
def withSigs (sc : Scene) (g : Int → ℚ) : Scene := { sc with in_sigs := g }

/-- Linear index `ix * NzNy + iy * Nz + iz` of the cell `(ix, iy, iz)`. -/
def lin (sc : Scene) (ix iy iz : Int) : Int := ix * (sc.Nz * sc.Ny) + iy * sc.Nz + iz

/-- Pointwise linear combination `a * f + b * g` of two buffers. -/
def comb (a b : ℚ) (f g : Int → ℚ) : Int → ℚ := fun i => a * f i + b * g i

/-- Componentwise linear combination of two sets of working buffers. -/
def State.comb (a b : ℚ) (s t : State) : State :=
  { u0 := Pffdtd.comb a b s.u0 t.u0, u1 := Pffdtd.comb a b s.u1 t.u1,
    u0b := Pffdtd.comb a b s.u0b t.u0b, u1b := Pffdtd.comb a b s.u1b t.u1b,
    u2b := Pffdtd.comb a b s.u2b t.u2b, u2ba := Pffdtd.comb a b s.u2ba t.u2ba,
    vh1 := Pffdtd.comb a b s.vh1 t.vh1, gh1 := Pffdtd.comb a b s.gh1 t.gh1 }

/-- Componentwise linear combination of the buffers of the FD integrator. -/
def FdBufs.comb (a b : ℚ) (s t : FdBufs) : FdBufs :=
  { u0b := Pffdtd.comb a b s.u0b t.u0b, vh1 := Pffdtd.comb a b s.vh1 t.vh1,
    gh1 := Pffdtd.comb a b s.gh1 t.gh1 }

/-! ## Proof-side descriptions of the halo copies -/

/-- The integers `lo, …, hi-1` in increasing order (the iterations of `forRange lo hi`). -/
def rangeInt (lo hi : Int) : List Int :=
  (List.range (hi - lo).toNat).map (fun (k : Nat) => lo + (k : Int))

/-- Sequential execution of the assignments `u[p.1] = u[p.2]` for `p` in `L`. -/
def applyCopies (L : List (Int × Int)) (u : Int → ℚ) : Int → ℚ :=
  L.foldl (fun u p => Function.update u p.1 (u p.2)) u

/-- Linear index of a cell given as a coordinate triple. -/
def linc (sc : Scene) (c : Int × Int × Int) : Int := lin sc c.1 c.2.1 c.2.2

/-- The cell `(ix, iy, iz)` lies in the grid `[0,Nx) × [0,Ny) × [0,Nz)`. -/
def inGrid (sc : Scene) (c : Int × Int × Int) : Prop :=
  (0 ≤ c.1 ∧ c.1 < sc.Nx) ∧ (0 ≤ c.2.1 ∧ c.2.1 < sc.Ny) ∧ (0 ≤ c.2.2 ∧ c.2.2 < sc.Nz)

/-- Mirror map of one coordinate: the face cells `0` and `N-1` are sent to the cells at
distance 2, every other coordinate to itself. -/
def mirror (N c : Int) : Int := if c = 0 then 2 else if c = N - 1 then N - 3 else c

/-- The assignments of `haloZ` in program order, as (target, source) pairs. -/
def copiesZ (sc : Scene) : List (Int × Int) :=
  (rangeInt 0 sc.Nx).flatMap fun ix => (rangeInt 0 sc.Ny).flatMap fun iy =>
    [(lin sc ix iy 0, lin sc ix iy 2),
      (ix * (sc.Nz * sc.Ny) + iy * sc.Nz + sc.Nz - 1,
        ix * (sc.Nz * sc.Ny) + iy * sc.Nz + sc.Nz - 3)]

/-- The assignments of `haloYlo`. -/
def copiesYlo (sc : Scene) : List (Int × Int) :=
  (rangeInt 0 sc.Nx).flatMap fun ix => (rangeInt 0 sc.Nz).flatMap fun iz =>
    [(lin sc ix 0 iz, lin sc ix 2 iz)]

/-- The assignments of `haloYhi`. -/
def copiesYhi (sc : Scene) : List (Int × Int) :=
  (rangeInt 0 sc.Nx).flatMap fun ix => (rangeInt 0 sc.Nz).flatMap fun iz =>
    [(lin sc ix (sc.Ny - 1) iz, lin sc ix (sc.Ny - 3) iz)]

/-- The assignments of `haloX`. -/
def copiesX (sc : Scene) : List (Int × Int) :=
  (rangeInt 0 sc.Ny).flatMap fun iy => (rangeInt 0 sc.Nz).flatMap fun iz =>
    [(lin sc 0 iy iz, lin sc 2 iy iz), (lin sc (sc.Nx - 1) iy iz, lin sc (sc.Nx - 3) iy iz)]

/-- The assignments of `foldedCopy`. -/
def copiesFold (sc : Scene) : List (Int × Int) :=
  (rangeInt 0 sc.Nx).flatMap fun ix => (rangeInt 0 sc.Nz).flatMap fun iz =>
    [(lin sc ix (sc.Ny - 1) iz, lin sc ix (sc.Ny - 2) iz)]

/-! ## Proof-side descriptions of the interior cells and the ports -/

/-- The cells visited by the air loops, in program order. -/
def interiorCells (sc : Scene) : List (Int × Int × Int) :=
  (rangeInt 1 (sc.Nx - 1)).product ((rangeInt 1 (sc.Ny - 1)).product (rangeInt 1 (sc.Nz - 1)))

/-- The cell `c` is off the outermost cell ring. -/
def interior (sc : Scene) (c : Int × Int × Int) : Prop :=
  (1 ≤ c.1 ∧ c.1 < sc.Nx - 1) ∧ (1 ≤ c.2.1 ∧ c.2.1 < sc.Ny - 1) ∧ (1 ≤ c.2.2 ∧ c.2.2 < sc.Nz - 1)

/-- Value stored by the cartesian air stencil at linear index `ii`. -/
def airCartVal (sc : Scene) (u1 u0 : Int → ℚ) (ii : Int) : ℚ :=
  sc.a1 * u1 ii - u0 ii + sc.a2 * u1 (ii + sc.Nz * sc.Ny) + sc.a2 * u1 (ii - sc.Nz * sc.Ny)
    + sc.a2 * u1 (ii + sc.Nz) + sc.a2 * u1 (ii - sc.Nz) + sc.a2 * u1 (ii + 1)
    + sc.a2 * u1 (ii - 1)

instance interiorDecidable (sc : Scene) (c : Int × Int × Int) : Decidable (interior sc c) := by
  unfold interior
  infer_instance

/-- Value stored by the FCC air stencil at linear index `ii`. -/
def airFccVal (sc : Scene) (u1 u0 : Int → ℚ) (ii : Int) : ℚ :=
  sc.a1 * u1 ii - u0 ii
    + sc.a2 * (u1 (ii + sc.Nz * sc.Ny + sc.Nz) + u1 (ii - sc.Nz * sc.Ny - sc.Nz)
      + u1 (ii + sc.Nz + 1) + u1 (ii - sc.Nz - 1)
      + u1 (ii + sc.Nz * sc.Ny + 1) + u1 (ii - sc.Nz * sc.Ny - 1)
      + u1 (ii + sc.Nz * sc.Ny - sc.Nz) + u1 (ii - sc.Nz * sc.Ny + sc.Nz)
      + u1 (ii + sc.Nz - 1) + u1 (ii - sc.Nz + 1)
      + u1 (ii + sc.Nz * sc.Ny - 1) + u1 (ii - sc.Nz * sc.Ny + 1))

/-- The buffer `u0` (`U_curr`) after the air pass of a sample started in state `st`. -/
def afterAir (sc : Scene) (st : State) : Int → ℚ :=
  airUpdate sc (haloPatch sc st.u1) st.u0

/-- The buffer `u0` (`U_curr`) after the ABC loss of a sample started in state `st`. -/
def afterABC (sc : Scene) (st : State) : Int → ℚ :=
  abcLoss sc (copyABC sc st.u0 st.u2ba) (afterAir sc st)

/-- The buffer `u0` (`U_curr`) after the rigid boundary pass of a sample started in
state `st`. -/
def afterRigid (sc : Scene) (st : State) : Int → ℚ :=
  rigidUpdate sc (haloPatch sc st.u1) (afterABC sc st)

/-- The buffers handed to `process_bnl_pts_fd` in a sample started in state `st`. -/
def fdEntry (sc : Scene) (st : State) : FdBufs :=
  { u0b := readBnl sc (afterRigid sc st) st.u0b, vh1 := st.vh1, gh1 := st.gh1 }

/-- Cells visited by the FCC air loop: all interior cells for the folded grid, the cells
with `ix + iy + iz` even for the checkerboard grid (`fcc_flag == 1`). -/
def fccActive (sc : Scene) (c : Int × Int × Int) : Prop :=
  sc.fcc_flag = 1 → (c.1 + c.2.1 + c.2.2) % 2 = 0

instance fccActiveDecidable (sc : Scene) (c : Int × Int × Int) : Decidable (fccActive sc c) := by
  unfold fccActive
  infer_instance

/-! ## Proof-side names for the popcount loop -/

/-- One pass through the body of Kernighan's loop on the pair `(v, Kint)`:
`v &= v - 1; Kint++`. -/
def kernighanStep (s : Nat × Nat) : Nat × Nat := (s.1 &&& (s.1 - 1), s.2 + 1)

/-- Number of set bits among the bits `0 .. n-1` of `v`, read with `GET_BIT`. -/
def bitCount (n v : Nat) : Nat := ((List.range n).map (fun j => GET_BIT v j)).sum

/-- Value stored by the FCC rigid pass at node `nb` when the coefficient `b1` is built
from the neighbour count `K`. -/
def rigidFccVal (sc : Scene) (u1 u0 : Int → ℚ) (nb : Int) (K : ℚ) : ℚ :=
  (2 - sc.sl2 * K) * u1 (sc.bn_ixyz nb) - u0 (sc.bn_ixyz nb)
    + sc.a2 * (
      (GET_BIT (sc.adj_bn nb % 65536) 0 : ℚ) * u1 (sc.bn_ixyz nb + sc.Nz * sc.Ny + sc.Nz)
      + (GET_BIT (sc.adj_bn nb % 65536) 1 : ℚ) * u1 (sc.bn_ixyz nb - sc.Nz * sc.Ny - sc.Nz)
      + (GET_BIT (sc.adj_bn nb % 65536) 2 : ℚ) * u1 (sc.bn_ixyz nb + sc.Nz + 1)
      + (GET_BIT (sc.adj_bn nb % 65536) 3 : ℚ) * u1 (sc.bn_ixyz nb - sc.Nz - 1)
      + (GET_BIT (sc.adj_bn nb % 65536) 4 : ℚ) * u1 (sc.bn_ixyz nb + sc.Nz * sc.Ny + 1)
      + (GET_BIT (sc.adj_bn nb % 65536) 5 : ℚ) * u1 (sc.bn_ixyz nb - sc.Nz * sc.Ny - 1)
      + (GET_BIT (sc.adj_bn nb % 65536) 6 : ℚ) * u1 (sc.bn_ixyz nb + sc.Nz * sc.Ny - sc.Nz)
      + (GET_BIT (sc.adj_bn nb % 65536) 7 : ℚ) * u1 (sc.bn_ixyz nb - sc.Nz * sc.Ny + sc.Nz)
      + (GET_BIT (sc.adj_bn nb % 65536) 8 : ℚ) * u1 (sc.bn_ixyz nb + sc.Nz - 1)
      + (GET_BIT (sc.adj_bn nb % 65536) 9 : ℚ) * u1 (sc.bn_ixyz nb - sc.Nz + 1)
      + (GET_BIT (sc.adj_bn nb % 65536) 10 : ℚ) * u1 (sc.bn_ixyz nb + sc.Nz * sc.Ny - 1)
      + (GET_BIT (sc.adj_bn nb % 65536) 11 : ℚ) * u1 (sc.bn_ixyz nb - sc.Nz * sc.Ny + 1))

/-! ## The unfused three-step form of the FD integrator -/

/-- Sum over the branches `m < Mb[k]` of node `nb` of `2 * bDh_m * vh_m - bFh_m * gh_m`,
read from the buffers `vh1`, `gh1`. -/
def fdBranchSum (sc : Scene) (vh1 gh1 : Int → ℚ) (nb : Int) : ℚ :=
  (Finset.range (sc.Mb (sc.mat_bnl nb)).toNat).sum (fun (m : Nat) =>
    2 * (sc.mat_quads (sc.mat_bnl nb * MMb + (m : Int))).bDh * vh1 (nb * MMb + (m : Int))
      - (sc.mat_quads (sc.mat_bnl nb * MMb + (m : Int))).bFh * gh1 (nb * MMb + (m : Int)))

/-- New pressure of lossy node `nb`: `(u0b[nb] + c * u2) / (1 + c) - fac * (branch sum)`
with `c = lo2 * ssaf_bnl[nb] * mat_beta[k]` and `fac = 2 * lo2 * ssaf_bnl[nb] / (1 + c)`,
all buffers read on entry. -/
def fdU0 (sc : Scene) (u2b : Int → ℚ) (s : FdBufs) (nb : Int) : ℚ :=
  (s.u0b nb + sc.lo2 * sc.ssaf_bnl nb * sc.mat_beta (sc.mat_bnl nb) * u2b nb)
      / (1 + sc.lo2 * sc.ssaf_bnl nb * sc.mat_beta (sc.mat_bnl nb))
    - 2 * sc.lo2 * sc.ssaf_bnl nb / (1 + sc.lo2 * sc.ssaf_bnl nb * sc.mat_beta (sc.mat_bnl nb))
      * fdBranchSum sc s.vh1 s.gh1 nb

/-- New velocity state of branch `m` of node `nb`: `b_m * du + bd_m * vh_m - 2 * bFh_m * gh_m`
with `du = u0b_new[nb] - u2b[nb]`. -/
def fdVh (sc : Scene) (u2b : Int → ℚ) (s : FdBufs) (nb m : Int) : ℚ :=
  (sc.mat_quads (sc.mat_bnl nb * MMb + m)).b * (fdU0 sc u2b s nb - u2b nb)
    + (sc.mat_quads (sc.mat_bnl nb * MMb + m)).bd * s.vh1 (nb * MMb + m)
    - 2 * (sc.mat_quads (sc.mat_bnl nb * MMb + m)).bFh * s.gh1 (nb * MMb + m)

/-- New integrated state of branch `m` of node `nb`: `gh_m + (vh_new + vh_m) / 2`. -/
def fdGh (sc : Scene) (u2b : Int → ℚ) (s : FdBufs) (nb m : Int) : ℚ :=
  s.gh1 (nb * MMb + m) + (fdVh sc u2b s nb m + s.vh1 (nb * MMb + m)) / 2

/-! ## Proof-side names for the stencil neighbourhoods -/

/-- The macro `DIV_CEIL(x, y)`, `(((x) + (y) - 1) / (y))`, with C's truncating division. -/
def DIV_CEIL (x y : Int) : Int := Int.tdiv (x + y - 1) y

/-- The index offsets added to `ii` by the cartesian air and rigid stencils, in source
order. -/
def cartOffsets (sc : Scene) : List Int :=
  [sc.Nz * sc.Ny, -(sc.Nz * sc.Ny), sc.Nz, -sc.Nz, 1, -1]

/-- The index offsets added to `ii` by the FCC air and rigid stencils, in source order. -/
def fccOffsets (sc : Scene) : List Int :=
  [sc.Nz * sc.Ny + sc.Nz, -(sc.Nz * sc.Ny) - sc.Nz, sc.Nz + 1, -sc.Nz - 1,
    sc.Nz * sc.Ny + 1, -(sc.Nz * sc.Ny) - 1, sc.Nz * sc.Ny - sc.Nz, -(sc.Nz * sc.Ny) + sc.Nz,
    sc.Nz - 1, -sc.Nz + 1, sc.Nz * sc.Ny - 1, -(sc.Nz * sc.Ny) + 1]

/-- The coordinate steps `(dx, dy, dz)` of the six cartesian neighbours, in the order of
`cartOffsets`. -/
def cartSteps : List (Int × Int × Int) :=
  [(1, 0, 0), (-1, 0, 0), (0, 1, 0), (0, -1, 0), (0, 0, 1), (0, 0, -1)]

/-- The coordinate steps `(dx, dy, dz)` of the twelve FCC neighbours, in the order of
`fccOffsets`. -/
def fccSteps : List (Int × Int × Int) :=
  [(1, 1, 0), (-1, -1, 0), (0, 1, 1), (0, -1, -1), (1, 0, 1), (-1, 0, -1),
    (1, -1, 0), (-1, 1, 0), (0, 1, -1), (0, -1, 1), (1, 0, -1), (-1, 0, 1)]

/-! ## Sorting with keys (`helper_funcs.c`) -/

/-- The record `struct sort_int64_struct`: a value and its original index. -/
structure sort_int64_struct where
  val : Int
  idx : Int

/-- The comparator `cmpfunc_int64_keys`: compares the `val` fields. -/
def cmpfunc_int64_keys (a b : sort_int64_struct) : Int :=
  if a.val < b.val then -1
  else if a.val > b.val then 1
  else 0

/-- The first `N` elements of an array, as a list. -/
def prefixList {α : Type} (N : Int) (a : Int → α) : List α := (rangeInt 0 N).map a

/-- The contract of the C library function `qsort(base, nmemb, size, compar)` for the
comparison function `cmp`: the first `N` elements of the array are rearranged into
ascending order according to `cmp`. The order among elements that compare equal is left
open. -/
def QsortSpec {α : Type} (qsort : (Int → α) → Int → (α → α → Int) → (Int → α))
    (cmp : α → α → Int) : Prop :=
  ∀ (a : Int → α) (N : Int), 0 ≤ N →
    (prefixList N (qsort a N cmp)).Perm (prefixList N a)
      ∧ (prefixList N (qsort a N cmp)).Chain' (fun x y => cmp x y ≤ 0)

/-- The function `qsort_keys` (sort and return indices). The library function `qsort` is a
parameter, and so is the result `struct_mem` of the call of `malloc`: `none` for `NULL`,
where the function prints a message and stops at `assert(true==false)`, otherwise the
fresh array with its arbitrary content. Returns the pair `(val_arr, key_arr)`. -/
def qsort_keys
    (qsort : (Int → sort_int64_struct) → Int → (sort_int64_struct → sort_int64_struct → Int)
      → (Int → sort_int64_struct))
    (struct_mem : Option (Int → sort_int64_struct)) (val_arr key_arr : Int → Int) (N : Int) :
    Option ((Int → Int) × (Int → Int)) :=
  match struct_mem with
  | none => none
  | some struct_arr =>
    let struct_arr := forRange 0 N (fun i sa =>
      Function.update sa i { val := val_arr i, idx := i }) struct_arr
    let struct_arr := qsort struct_arr N cmpfunc_int64_keys
    some (forRange 0 N (fun i s =>
      (Function.update s.1 i (struct_arr i).val, Function.update s.2 i (struct_arr i).idx))
      (val_arr, key_arr))

/-! ## The same program with IEEE division

The definitions of this section repeat the phases of `run` for values that may fail to be
numbers. A `Real` is `Val.fin q` for a finite number `q` (still exact) or `Val.nan` for the
results `NaN` and `±Inf` of a division by zero; a non-number operand makes the result of
`+`, `-`, `*` and `/` a non-number. The scene (coefficients and input signals) is finite.
`ieee_run_exact` shows that both embeddings agree when no divisor is zero. -/

namespace Ieee

/-- A value of type `Real`: a finite number or a non-number (`NaN`, `+Inf`, `-Inf`). -/
def Val : Type := Option ℚ

instance : DecidableEq Val := inferInstanceAs (DecidableEq (Option ℚ))

/-- The finite value `q`. -/
def Val.fin (q : ℚ) : Val := some q

/-- A non-number. -/
def Val.nan : Val := none

instance : Coe ℚ Val := ⟨Val.fin⟩

instance (n : Nat) : OfNat Val n := ⟨Val.fin n⟩

/-- Addition of values. -/
def Val.add (x y : Val) : Val :=
  match x, y with
  | some a, some b => some (a + b)
  | _, _ => none

/-- Subtraction of values. -/
def Val.sub (x y : Val) : Val :=
  match x, y with
  | some a, some b => some (a - b)
  | _, _ => none

/-- Multiplication of values. -/
def Val.mul (x y : Val) : Val :=
  match x, y with
  | some a, some b => some (a * b)
  | _, _ => none

/-- Division of values: a zero divisor yields a non-number. -/
def Val.div (x y : Val) : Val :=
  match x, y with
  | some a, some b => if b = 0 then none else some (a / b)
  | _, _ => none

instance : Add Val := ⟨Val.add⟩

instance : Sub Val := ⟨Val.sub⟩

instance : Mul Val := ⟨Val.mul⟩

instance : Div Val := ⟨Val.div⟩

/-- Working buffers allocated by `run`. -/
structure State where
  u0 : Int → Val
  u1 : Int → Val
  u0b : Int → Val
  u1b : Int → Val
  u2b : Int → Val
  u2ba : Int → Val
  vh1 : Int → Val
  gh1 : Int → Val

/-- All buffers zero-initialised (`std::vector<Real>(n)`). -/
def State.init : State :=
  { u0 := fun _ => 0, u1 := fun _ => 0, u0b := fun _ => 0, u1b := fun _ => 0,
    u2b := fun _ => 0, u2ba := fun _ => 0, vh1 := fun _ => 0, gh1 := fun _ => 0 }

/-- Copy last state ABCs: `u2ba[nb] = u0[bna_ixyz[nb]]`. -/
def copyABC (sc : Scene) (u0 u2ba : Int → Val) : Int → Val :=
  forRange 0 sc.Nba (fun nb u2ba => Function.update u2ba nb (u0 (sc.bna_ixyz nb))) u2ba

/-- Copy of the y-z face for the FCC folded grid (executed when `fcc_flag == 2`). -/
def foldedCopy (sc : Scene) (u1 : Int → Val) : Int → Val :=
  let NzNy := sc.Nz * sc.Ny
  forRange 0 sc.Nx (fun ix u1 =>
    forRange 0 sc.Nz (fun iz u1 =>
      Function.update u1 (ix * NzNy + (sc.Ny - 1) * sc.Nz + iz)
        (u1 (ix * NzNy + (sc.Ny - 2) * sc.Nz + iz))) u1) u1

/-- Halo flip of the two `iz` faces. -/
def haloZ (sc : Scene) (u1 : Int → Val) : Int → Val :=
  let NzNy := sc.Nz * sc.Ny
  forRange 0 sc.Nx (fun ix u1 =>
    forRange 0 sc.Ny (fun iy u1 =>
      let u1 := Function.update u1 (ix * NzNy + iy * sc.Nz + 0) (u1 (ix * NzNy + iy * sc.Nz + 2))
      Function.update u1 (ix * NzNy + iy * sc.Nz + sc.Nz - 1)
        (u1 (ix * NzNy + iy * sc.Nz + sc.Nz - 3))) u1) u1

/-- Halo flip of the `iy = 0` face. -/
def haloYlo (sc : Scene) (u1 : Int → Val) : Int → Val :=
  let NzNy := sc.Nz * sc.Ny
  forRange 0 sc.Nx (fun ix u1 =>
    forRange 0 sc.Nz (fun iz u1 =>
      Function.update u1 (ix * NzNy + 0 * sc.Nz + iz) (u1 (ix * NzNy + 2 * sc.Nz + iz))) u1) u1

/-- Halo flip of the `iy = Ny-1` face (executed when `fcc_flag != 2`). -/
def haloYhi (sc : Scene) (u1 : Int → Val) : Int → Val :=
  let NzNy := sc.Nz * sc.Ny
  forRange 0 sc.Nx (fun ix u1 =>
    forRange 0 sc.Nz (fun iz u1 =>
      Function.update u1 (ix * NzNy + (sc.Ny - 1) * sc.Nz + iz)
        (u1 (ix * NzNy + (sc.Ny - 3) * sc.Nz + iz))) u1) u1

/-- Halo flip of the two `ix` faces. -/
def haloX (sc : Scene) (u1 : Int → Val) : Int → Val :=
  let NzNy := sc.Nz * sc.Ny
  forRange 0 sc.Ny (fun iy u1 =>
    forRange 0 sc.Nz (fun iz u1 =>
      let u1 := Function.update u1 (0 * NzNy + iy * sc.Nz + iz) (u1 (2 * NzNy + iy * sc.Nz + iz))
      Function.update u1 ((sc.Nx - 1) * NzNy + iy * sc.Nz + iz)
        (u1 ((sc.Nx - 3) * NzNy + iy * sc.Nz + iz))) u1) u1

/-- The halo flips in program order: `iz` faces, `iy = 0`, `iy = Ny-1` unless folded,
`ix` faces. -/
def haloFlips (sc : Scene) (u1 : Int → Val) : Int → Val :=
  let u1 := haloZ sc u1
  let u1 := haloYlo sc u1
  let u1 := if sc.fcc_flag ≠ 2 then haloYhi sc u1 else u1
  haloX sc u1

/-- The whole halo patch of a sample: folded pre-copy (if `fcc_flag == 2`), then the flips. -/
def haloPatch (sc : Scene) (u1 : Int → Val) : Int → Val :=
  haloFlips sc (if sc.fcc_flag = 2 then foldedCopy sc u1 else u1)

/-- Body of the cartesian air loop at cell `ii`. -/
def airCartCell (sc : Scene) (u1 : Int → Val) (ii : Int) (u0 : Int → Val) : Int → Val :=
  let NzNy := sc.Nz * sc.Ny
  if maskClear sc ii then
    let psum := sc.a1 * u1 ii - u0 ii
    let psum := psum + sc.a2 * u1 (ii + NzNy)
    let psum := psum + sc.a2 * u1 (ii - NzNy)
    let psum := psum + sc.a2 * u1 (ii + sc.Nz)
    let psum := psum + sc.a2 * u1 (ii - sc.Nz)
    let psum := psum + sc.a2 * u1 (ii + 1)
    let psum := psum + sc.a2 * u1 (ii - 1)
    Function.update u0 ii psum
  else u0

/-- Air update, cartesian scheme (`fcc_flag == 0`). -/
def airCart (sc : Scene) (u1 u0 : Int → Val) : Int → Val :=
  let NzNy := sc.Nz * sc.Ny
  forRange 1 (sc.Nx - 1) (fun ix u0 =>
    forRange 1 (sc.Ny - 1) (fun iy u0 =>
      forRange 1 (sc.Nz - 1) (fun iz u0 =>
        airCartCell sc u1 (ix * NzNy + iy * sc.Nz + iz) u0) u0) u0) u0

/-- Body of the FCC air loop at cell `ii`. -/
def airFccCell (sc : Scene) (u1 : Int → Val) (ii : Int) (u0 : Int → Val) : Int → Val :=
  let NzNy := sc.Nz * sc.Ny
  if maskClear sc ii then
    let psum := sc.a1 * u1 ii - u0 ii
    let psum := psum + sc.a2 * u1 (ii + NzNy + sc.Nz)
    let psum := psum + sc.a2 * u1 (ii - NzNy - sc.Nz)
    let psum := psum + sc.a2 * u1 (ii + sc.Nz + 1)
    let psum := psum + sc.a2 * u1 (ii - sc.Nz - 1)
    let psum := psum + sc.a2 * u1 (ii + NzNy + 1)
    let psum := psum + sc.a2 * u1 (ii - NzNy - 1)
    let psum := psum + sc.a2 * u1 (ii + NzNy - sc.Nz)
    let psum := psum + sc.a2 * u1 (ii - NzNy + sc.Nz)
    let psum := psum + sc.a2 * u1 (ii + sc.Nz - 1)
    let psum := psum + sc.a2 * u1 (ii - sc.Nz + 1)
    let psum := psum + sc.a2 * u1 (ii + NzNy - 1)
    let psum := psum + sc.a2 * u1 (ii - NzNy + 1)
    Function.update u0 ii psum
  else u0

/-- Air update, FCC schemes (`fcc_flag > 0`): `iz` starts at `2 - (ix+iy) % 2` with
stride 2 for the checkerboard grid (`fcc_flag == 1`), at 1 with stride 1 otherwise. -/
def airFcc (sc : Scene) (u1 u0 : Int → Val) : Int → Val :=
  let NzNy := sc.Nz * sc.Ny
  forRange 1 (sc.Nx - 1) (fun ix u0 =>
    forRange 1 (sc.Ny - 1) (fun iy u0 =>
      let iz0 : Int := if sc.fcc_flag = 1 then 2 - (ix + iy) % 2 else 1
      whileLt (sc.Nz - 1 - iz0).toNat iz0 (if sc.fcc_flag = 1 then 2 else 1) (sc.Nz - 1)
        (fun iz u0 => airFccCell sc u1 (ix * NzNy + iy * sc.Nz + iz) u0) u0) u0) u0

/-- Air update for schemes: dispatch on `fcc_flag`. -/
def airUpdate (sc : Scene) (u1 u0 : Int → Val) : Int → Val :=
  if sc.fcc_flag = 0 then airCart sc u1 u0
  else if sc.fcc_flag > 0 then airFcc sc u1 u0
  else u0

/-- ABC loss: `u0[ib] = (u0[ib] + lQ * u2ba[nb]) / (1.0 + lQ)`. -/
def abcLoss (sc : Scene) (u2ba u0 : Int → Val) : Int → Val :=
  forRange 0 sc.Nba (fun nb u0 =>
    let lQ : ℚ := sc.l * (sc.Q_bna nb : ℚ)
    let ib := sc.bna_ixyz nb
    Function.update u0 ib ((u0 ib + lQ * u2ba nb) / (1 + lQ))) u0

/-- Rigid boundary nodes, cartesian scheme. -/
def rigidCart (sc : Scene) (u1 u0 : Int → Val) : Int → Val :=
  let NzNy := sc.Nz * sc.Ny
  forRange 0 sc.Nb (fun nb u0 =>
    let ii := sc.bn_ixyz nb
    let Kint := popcountLoop (sc.adj_bn nb % 65536) 0
    let K : ℚ := (Kint : ℚ)
    let b2 := sc.a2
    let b1 := 2 - sc.sl2 * K
    let psum := b1 * u1 ii - u0 ii
    let adj := sc.adj_bn nb % 65536
    let psum := psum + b2 * (GET_BIT adj 0 : ℚ) * u1 (ii + NzNy)
    let psum := psum + b2 * (GET_BIT adj 1 : ℚ) * u1 (ii - NzNy)
    let psum := psum + b2 * (GET_BIT adj 2 : ℚ) * u1 (ii + sc.Nz)
    let psum := psum + b2 * (GET_BIT adj 3 : ℚ) * u1 (ii - sc.Nz)
    let psum := psum + b2 * (GET_BIT adj 4 : ℚ) * u1 (ii + 1)
    let psum := psum + b2 * (GET_BIT adj 5 : ℚ) * u1 (ii - 1)
    Function.update u0 ii psum) u0

/-- Rigid boundary nodes, FCC schemes. -/
def rigidFcc (sc : Scene) (u1 u0 : Int → Val) : Int → Val :=
  let NzNy := sc.Nz * sc.Ny
  forRange 0 sc.Nb (fun nb u0 =>
    let ii := sc.bn_ixyz nb
    let Kint := popcountLoop (sc.adj_bn nb % 65536) 0
    let K : ℚ := (Kint : ℚ)
    let b2 := sc.a2
    let b1 := 2 - sc.sl2 * K
    let psum := b1 * u1 ii - u0 ii
    let adj := sc.adj_bn nb % 65536
    let psum := psum + b2 * (GET_BIT adj 0 : ℚ) * u1 (ii + NzNy + sc.Nz)
    let psum := psum + b2 * (GET_BIT adj 1 : ℚ) * u1 (ii - NzNy - sc.Nz)
    let psum := psum + b2 * (GET_BIT adj 2 : ℚ) * u1 (ii + sc.Nz + 1)
    let psum := psum + b2 * (GET_BIT adj 3 : ℚ) * u1 (ii - sc.Nz - 1)
    let psum := psum + b2 * (GET_BIT adj 4 : ℚ) * u1 (ii + NzNy + 1)
    let psum := psum + b2 * (GET_BIT adj 5 : ℚ) * u1 (ii - NzNy - 1)
    let psum := psum + b2 * (GET_BIT adj 6 : ℚ) * u1 (ii + NzNy - sc.Nz)
    let psum := psum + b2 * (GET_BIT adj 7 : ℚ) * u1 (ii - NzNy + sc.Nz)
    let psum := psum + b2 * (GET_BIT adj 8 : ℚ) * u1 (ii + sc.Nz - 1)
    let psum := psum + b2 * (GET_BIT adj 9 : ℚ) * u1 (ii - sc.Nz + 1)
    let psum := psum + b2 * (GET_BIT adj 10 : ℚ) * u1 (ii + NzNy - 1)
    let psum := psum + b2 * (GET_BIT adj 11 : ℚ) * u1 (ii - NzNy + 1)
    Function.update u0 ii psum) u0

/-- Rigid boundary pass: dispatch on `fcc_flag`. -/
def rigidUpdate (sc : Scene) (u1 u0 : Int → Val) : Int → Val :=
  if sc.fcc_flag = 0 then rigidCart sc u1 u0
  else if sc.fcc_flag > 0 then rigidFcc sc u1 u0
  else u0

/-- Read bn points: `u0b[nb] = u0[bnl_ixyz[nb]]`. -/
def readBnl (sc : Scene) (u0 u0b : Int → Val) : Int → Val :=
  forRange 0 sc.Nbl (fun nb u0b => Function.update u0b nb (u0 (sc.bnl_ixyz nb))) u0b

/-- Write back: `u0[bnl_ixyz[nb]] = u0b[nb]`. -/
def writeBnl (sc : Scene) (u0b u0 : Int → Val) : Int → Val :=
  forRange 0 sc.Nbl (fun nb u0 => Function.update u0 (sc.bnl_ixyz nb) (u0b nb)) u0

/-- First branch loop of `process_bnl_pts_fd` for node `nb` with material `k`: caches
`vh1[nbm]` in the local array `vh1nb` and subtracts the branch terms from `u0bint`.
The loop state is the pair `(u0bint, vh1nb)`. -/
def fdBranchCorrect (sc : Scene) (vh1 gh1 : Int → Val) (nb k : Int) (fac : Val)
    (s : Val × (Int → Val)) : Val × (Int → Val) :=
  forRange 0 (sc.Mb k) (fun m s =>
    let nbm := nb * MMb + m
    let mbk := k * MMb + m
    let tm := sc.mat_quads mbk
    let vh1nb := Function.update s.2 m (vh1 nbm)
    (s.1 - fac * (2 * tm.bDh * vh1nb m - tm.bFh * gh1 nbm), vh1nb)) s

/-- Second branch loop of `process_bnl_pts_fd` for node `nb` with material `k`: advances
`vh1[nbm]` and `gh1[nbm]`. The loop state is the pair `(vh1, gh1)`. -/
def fdStateAdvance (sc : Scene) (vh1nb : Int → Val) (nb k : Int) (du : Val)
    (s : (Int → Val) × (Int → Val)) : (Int → Val) × (Int → Val) :=
  forRange 0 (sc.Mb k) (fun m s =>
    let nbm := nb * MMb + m
    let mbk := k * MMb + m
    let tm := sc.mat_quads mbk
    let vh0nbm := tm.b * du + tm.bd * vh1nb m - 2 * tm.bFh * s.2 nbm
    let gh1 := Function.update s.2 nbm (s.2 nbm + (vh0nbm + vh1nb m) / 2)
    (Function.update s.1 nbm vh0nbm, gh1)) s

/-- The buffers `process_bnl_pts_fd` writes. -/
structure FdBufs where
  u0b : Int → Val
  vh1 : Int → Val
  gh1 : Int → Val

/-- Body of the node loop of `process_bnl_pts_fd`. -/
def fdNode (sc : Scene) (u2b : Int → Val) (nb : Int) (s : FdBufs) : FdBufs :=
  let k := sc.mat_bnl nb
  let lo2Kbg := sc.lo2 * sc.ssaf_bnl nb * sc.mat_beta k
  let fac : Val := 2 * sc.lo2 * sc.ssaf_bnl nb / (1 + lo2Kbg)
  let u0bint := s.u0b nb
  let u2bint := u2b nb
  let u0bint := (u0bint + lo2Kbg * u2bint) / (1 + lo2Kbg)
  let r := fdBranchCorrect sc s.vh1 s.gh1 nb k fac (u0bint, fun _ => 0)
  let u0bint := r.1
  let vh1nb := r.2
  let du := u0bint - u2bint
  let w := fdStateAdvance sc vh1nb nb k du (s.vh1, s.gh1)
  { u0b := Function.update s.u0b nb u0bint, vh1 := w.1, gh1 := w.2 }

/-- The function `process_bnl_pts_fd` (freq-dep RLC boundaries); the scene supplies
`ssaf_bnl`, `mat_bnl`, `Nbl`, `Mb`, `lo2`, `mat_quads` and `mat_beta`. -/
def process_bnl_pts_fd (sc : Scene) (u2b : Int → Val) (s : FdBufs) : FdBufs :=
  forRange 0 sc.Nbl (fdNode sc u2b) s

/-- The field updates of one sample, from the ABC snapshot to the FD write-back. -/
def samplePasses (sc : Scene) (st : State) : State :=
  let u2ba := copyABC sc st.u0 st.u2ba
  let u1 := haloPatch sc st.u1
  let u0 := airUpdate sc u1 st.u0
  let u0 := abcLoss sc u2ba u0
  let u0 := rigidUpdate sc u1 u0
  let u0b := readBnl sc u0 st.u0b
  let fd := process_bnl_pts_fd sc st.u2b { u0b := u0b, vh1 := st.vh1, gh1 := st.gh1 }
  let u0 := writeBnl sc fd.u0b u0
  { u0 := u0, u1 := u1, u0b := fd.u0b, u1b := st.u1b, u2b := st.u2b, u2ba := u2ba,
    vh1 := fd.vh1, gh1 := fd.gh1 }

/-- Read output at current sample: `u_out[nr * Nt + n] = (double)u1[out_ixyz[nr]]`. -/
def readOutput (sc : Scene) (n : Int) (u1 u_out : Int → Val) : Int → Val :=
  forRange 0 sc.Nr (fun nr u_out =>
    let ii := sc.out_ixyz nr
    Function.update u_out (nr * sc.Nt + n) (u1 ii)) u_out

/-- Add current sample to next: `u0[in_ixyz[ns]] += (Real)in_sigs[ns * Nt + n]`. -/
def addInput (sc : Scene) (in_sigs : Int → ℚ) (n : Int) (u0 : Int → Val) : Int → Val :=
  forRange 0 sc.Ns (fun ns u0 =>
    let ii := sc.in_ixyz ns
    Function.update u0 ii (u0 ii + in_sigs (ns * sc.Nt + n))) u0

/-- Swap pointers: `u0 ↔ u1` and the rotation `u2b ← u1b ← u0b ← u2b`. -/
def swapPointers (st : State) : State :=
  { st with u0 := st.u1, u1 := st.u0, u2b := st.u1b, u1b := st.u0b, u0b := st.u2b }

/-- State of the sample loop: the working buffers and the output array `u_out`. -/
structure Sim where
  st : State
  u_out : Int → Val

/-- The state part of one sample for input signals `in_sigs`. -/
def stepState (sc : Scene) (in_sigs : Int → ℚ) (n : Int) (st : State) : State :=
  let st := samplePasses sc st
  swapPointers { st with u0 := addInput sc in_sigs n st.u0 }

/-- Body of the sample loop `for (n = 0; n < Nt; n++)`. -/
def sampleStep (sc : Scene) (n : Int) (s : Sim) : Sim :=
  let st := samplePasses sc s.st
  let u_out := readOutput sc n st.u1 s.u_out
  let st := { st with u0 := addInput sc sc.in_sigs n st.u0 }
  { st := swapPointers st, u_out := u_out }

/-- The function `run`: the sample loop started from zero-initialised buffers and the
scene's `u_out` array. -/
def run (sc : Scene) : Sim :=
  forRange 0 sc.Nt (sampleStep sc)
    { st := State.init, u_out := fun i => sc.u_out i }

end Ieee

/-- Mirror map of the `iy` coordinate under the halo patch: the folded grid
(`fcc_flag == 2`) fills the face `Ny-1` from `Ny-2`, every other scheme mirrors it. -/
def mirrorY (sc : Scene) (y : Int) : Int :=
  if sc.fcc_flag = 2 then (if y = 0 then 2 else if y = sc.Ny - 1 then sc.Ny - 2 else y)
  else mirror sc.Ny y

/-- The cell whose value the halo patch presents at the grid position `c + d`. -/
def neighbour (sc : Scene) (c d : Int × Int × Int) : Int × Int × Int :=
  (mirror sc.Nx (c.1 + d.1), mirrorY sc (c.2.1 + d.2.1), mirror sc.Nz (c.2.2 + d.2.2))

/-- The buffer holding `i` in cell `i`. -/
def rampBuf : Int → ℚ := fun i => (i : ℚ)

/-- Zero buffer. -/
def zeroBuf : Int → ℚ := fun _ => 0

/-- Unit impulse at index 0. -/
def impulse0 : Int → ℚ := fun i => if i = 0 then 1 else 0

/-- Unit impulse at index 1. -/
def impulse1 : Int → ℚ := fun i => if i = 1 then 1 else 0

/-- An air-only cartesian `3×3×3` grid with one source and one receiver at the centre
cell 13, two samples, input signal `1, 0`,
`l = 1/2`, `a1 = 2 - 6 l² = 1/2`, `a2 = l² = 1/4`. -/
def exScene : Scene :=
  { Ns := 1, Nr := 1, Nt := 2, Npts := 27, Nx := 3, Ny := 3, Nz := 3,
    Nb := 0, Nbl := 0, Nba := 0,
    Mb := fun _ => 0, bn_ixyz := fun _ => 0, bnl_ixyz := fun _ => 0, bna_ixyz := fun _ => 0,
    in_ixyz := fun _ => 13, out_ixyz := fun _ => 13,
    adj_bn := fun _ => 0, bn_mask := fun _ => 0, mat_bnl := fun _ => 0, Q_bna := fun _ => 1,
    in_sigs := fun i => if i = 0 then 1 else 0, u_out := fun _ => 0,
    fcc_flag := 0, ssaf_bnl := fun _ => 0, mat_beta := fun _ => 0,
    mat_quads := fun _ => { b := 0, bd := 0, bDh := 0, bFh := 0 },
    lo2 := 1 / 4, sl2 := 1 / 4, l := 1 / 2, a1 := 1 / 2, a2 := 1 / 4 }

/-- An air-only cartesian `4×4×4` grid. -/
def ex4 : Scene :=
  { exScene with
    Npts := 64, Nx := 4, Ny := 4, Nz := 4,
    in_ixyz := fun _ => 21, out_ixyz := fun _ => 21 }

/-- The grid `ex4` run with the folded FCC scheme (`fcc_flag = 2`). -/
def ex4f : Scene := { ex4 with fcc_flag := 2 }

/-- An air-only cartesian `5×4×4` grid, three samples, unit impulse input,
`l = 1/2`, `a1 = 2 - 6 l² = 1/2`, `a2 = l² = 1/4`. -/
def ex5 : Scene :=
  { exScene with
    Npts := 80, Nx := 5, Ny := 4, Nz := 4, Nt := 3,
    in_ixyz := fun _ => 21, out_ixyz := fun _ => 37 }

/-- A scene with two lossy nodes: node 0 of material 0 (no branch), node 1 of material 1
(one branch). -/
def exFd : Scene :=
  { exScene with
    Nbl := 2, Mb := fun k => if k = 1 then 1 else 0,
    bnl_ixyz := fun _ => 13, mat_bnl := fun nb => if nb = 1 then 1 else 0,
    ssaf_bnl := fun _ => 1, mat_beta := fun _ => 1,
    mat_quads := fun _ => { b := 1, bd := 1, bDh := 1, bFh := 1 } }

/-- The FD buffers holding `i` in every cell `i`. -/
def rampFd : FdBufs := { u0b := rampBuf, vh1 := rampBuf, gh1 := rampBuf }

/-- The grid `ex4` run with the checkerboard FCC scheme (`fcc_flag = 1`). -/
def ex4c : Scene := { ex4 with fcc_flag := 1 }

/-- A state holding `i` in every cell `i` of every buffer. -/
def rampState : State :=
  { u0 := rampBuf, u1 := rampBuf, u0b := rampBuf, u1b := rampBuf, u2b := rampBuf,
    u2ba := rampBuf, vh1 := rampBuf, gh1 := rampBuf }

/-- The grid `ex4` with one rigid node at the interior cell 21 (mask bit 5 of byte 2 set)
whose adjacency word has the bits 0, 1, 2, 3 and 5 set. -/
def exRigid : Scene :=
  { ex4 with
    Nb := 1, bn_ixyz := fun _ => 21, adj_bn := fun _ => 47,
    bn_mask := fun i => if i = 2 then 32 else 0 }

/-- The folded FCC grid `ex4f` with one rigid node at cell 21 whose adjacency word has
only bit 12 set. -/
def exRigidF : Scene :=
  { ex4f with
    Nb := 1, bn_ixyz := fun _ => 21, adj_bn := fun _ => 4096,
    bn_mask := fun i => if i = 2 then 32 else 0 }

/-- The grid `ex4` with one ABC node at cell 21, `Q_bna = 1`. -/
def exAbc : Scene :=
  { ex4 with
    Nba := 1, bna_ixyz := fun _ => 21, Q_bna := fun _ => 1 }

/-- A `4×4×4` cartesian grid with a source and receiver at cell 21 and one lossy node with
one branch at the interior cell 22. -/
def exShadow : Scene :=
  { exFd with
    Npts := 64, Nx := 4, Ny := 4, Nz := 4,
    in_ixyz := fun _ => 21, out_ixyz := fun _ => 21,
    Nbl := 1, bnl_ixyz := fun _ => 22, Mb := fun _ => 1, mat_bnl := fun _ => 0 }

/-- The signal `1, 7, 7, ...`: it shares sample 0 with `impulse0`. -/
def impulse0Tail : Int → ℚ := fun i => if i = 0 then 1 else 7

/-- An implementation of `qsort`: insertion sort of the first `N` elements. -/
def insertionQsort {α : Type} (a : Int → α) (N : Int) (cmp : α → α → Int) : Int → α :=
  fun i =>
    if 0 ≤ i ∧ i < N then
      ((prefixList N a).insertionSort (fun x y => cmp x y ≤ 0)).getD i.toNat (a i)
    else a i

/-- The array `3, 1, 2, 1, 0, 0, ...`. -/
def exVals : Int → Int := fun i =>
  if i = 0 then 3 else if i = 1 then 1 else if i = 2 then 2 else if i = 3 then 1 else 0

/-- An array of records with value and index 0. -/
def zeroStructs : Int → sort_int64_struct := fun _ => { val := 0, idx := 0 }

theorem foldl_rel3 {α β γ ι : Type} (R : α → β → γ → Prop) (f1 : α → ι → α)
    (f2 : β → ι → β) (f3 : γ → ι → γ) (l : List ι)
    (h : ∀ i ∈ l, ∀ x y z, R x y z → R (f1 x i) (f2 y i) (f3 z i)) :
    ∀ x y z, R x y z → R (l.foldl f1 x) (l.foldl f2 y) (l.foldl f3 z) := by
  induction l with
  | nil => intro x y z hR; simpa using hR
  | cons a l ih =>
    intro x y z hR
    simp only [List.foldl_cons]
    exact ih (fun i hi => h i (List.mem_cons_of_mem _ hi)) _ _ _
      (h a (List.mem_cons_self _ _) _ _ _ hR)

theorem foldl_inv {α ι : Type} (P : α → Prop) (f : α → ι → α) (l : List ι)
    (h : ∀ i ∈ l, ∀ x, P x → P (f x i)) : ∀ x, P x → P (l.foldl f x) := by
  induction l with
  | nil => intro x hP; simpa using hP
  | cons a l ih =>
    intro x hP
    simp only [List.foldl_cons]
    exact ih (fun i hi => h i (List.mem_cons_of_mem _ hi)) _ (h a (List.mem_cons_self _ _) _ hP)

theorem forRange_rel3 {α β γ : Type} (R : α → β → γ → Prop) (lo hi : Int)
    (B1 : Int → α → α) (B2 : Int → β → β) (B3 : Int → γ → γ)
    (h : ∀ i, lo ≤ i → i < hi → ∀ x y z, R x y z → R (B1 i x) (B2 i y) (B3 i z))
    (x : α) (y : β) (z : γ) (hR : R x y z) :
    R (forRange lo hi B1 x) (forRange lo hi B2 y) (forRange lo hi B3 z) := by
  unfold forRange
  refine foldl_rel3 R _ _ _ _ ?_ x y z hR
  intro i hi x y z hR
  have hi2 := List.mem_range.mp hi
  exact h _ (by omega) (by omega) x y z hR

theorem forRange_inv {α : Type} (P : α → Prop) (lo hi : Int) (B : Int → α → α)
    (h : ∀ i, lo ≤ i → i < hi → ∀ x, P x → P (B i x)) (x : α) (hP : P x) :
    P (forRange lo hi B x) := by
  unfold forRange
  refine foldl_inv P _ _ ?_ x hP
  intro i hi x hP
  have hi2 := List.mem_range.mp hi
  exact h _ (by omega) (by omega) x hP

theorem forRange_congr {α : Type} (lo hi : Int) (B1 B2 : Int → α → α)
    (h : ∀ i, lo ≤ i → i < hi → ∀ x, B1 i x = B2 i x) (x : α) :
    forRange lo hi B1 x = forRange lo hi B2 x := by
  have := forRange_rel3 (fun (a b : α) (_ : Unit) => a = b) lo hi B1 B2 (fun _ u => u)
    (fun i h1 h2 a b _ hab => by subst hab; exact h i h1 h2 a) x x () rfl
  exact this

theorem forRange_empty {α : Type} (lo hi : Int) (B : Int → α → α) (x : α) (h : hi ≤ lo) :
    forRange lo hi B x = x := by
  unfold forRange
  have : (hi - lo).toNat = 0 := by omega
  rw [this]; rfl

theorem forRange_succ {α : Type} (lo hi : Int) (B : Int → α → α) (x : α) (h : lo ≤ hi) :
    forRange lo (hi + 1) B x = B hi (forRange lo hi B x) := by
  unfold forRange
  have h1 : (hi + 1 - lo).toNat = (hi - lo).toNat + 1 := by omega
  have h2 : lo + ((hi - lo).toNat : Int) = hi := by omega
  rw [h1, List.range_succ, List.foldl_append]
  simp only [List.foldl_cons, List.foldl_nil, h2]

theorem forRange_toNat {α : Type} (hi : Int) (B : Int → α → α) (x : α) :
    forRange 0 hi B x = forRange 0 (hi.toNat : Int) B x := by
  unfold forRange
  have : (hi - 0).toNat = (((hi.toNat : Int)) - 0).toNat := by omega
  rw [this]

/-- A loop of assignments `u[idx i] = val i u` leaves every cell that is no `idx i` as it
was. -/
theorem forRange_update_frame (lo hi : Int) (idx : Int → Int) (val : Int → (Int → ℚ) → ℚ)
    (u : Int → ℚ) (j : Int) (h : ∀ i, lo ≤ i → i < hi → idx i ≠ j) :
    forRange lo hi (fun i u => Function.update u (idx i) (val i u)) u j = u j := by
  refine forRange_inv (fun w => w j = u j) lo hi _ ?_ u rfl
  intro i h1 h2 w hw
  show Function.update w (idx i) (val i w) j = u j
  rw [Function.update_noteq (Ne.symm (h i h1 h2))]
  exact hw

/-- A loop of assignments `u[idx i] = val i` with state-independent values and pairwise
distinct targets stores `val i` at `idx i`. -/
theorem forRange_update_hit (lo hi : Int) (idx : Int → Int) (val : Int → ℚ)
    (u : Int → ℚ) (hinj : ∀ i i', lo ≤ i → i < hi → lo ≤ i' → i' < hi → idx i = idx i' → i = i')
    (i : Int) (h1 : lo ≤ i) (h2 : i < hi) :
    forRange lo hi (fun i u => Function.update u (idx i) (val i)) u (idx i) = val i := by
  have key : ∀ k : Nat, lo + k ≤ hi → ∀ i, lo ≤ i → i < lo + k →
      forRange lo (lo + k) (fun i u => Function.update u (idx i) (val i)) u (idx i) = val i := by
    intro k
    induction k with
    | zero => intro _ i h1 h2; simp at h2; omega
    | succ k ih =>
      intro hk i h1 h2
      have e : lo + ((k + 1 : Nat) : Int) = (lo + k) + 1 := by push_cast; ring
      rw [e, forRange_succ _ _ _ _ (by omega)]
      by_cases hi : i = lo + k
      · subst hi; simp
      · have hne : idx i ≠ idx (lo + k) := by
          intro he
          exact hi (hinj i (lo + k) h1 (by omega) (by omega) (by omega) he)
        rw [Function.update_noteq hne]
        exact ih (by omega) i h1 (by omega)
  have := key (hi - lo).toNat (by omega) i h1 (by omega)
  have e : lo + (((hi - lo).toNat : Nat) : Int) = hi := by omega
  rwa [e] at this

theorem whileLt_rel3 {α β γ : Type} (R : α → β → γ → Prop) (step hi : Int)
    (B1 : Int → α → α) (B2 : Int → β → β) (B3 : Int → γ → γ)
    (h : ∀ i x y z, R x y z → R (B1 i x) (B2 i y) (B3 i z)) :
    ∀ (fuel : Nat) (iz : Int) (x : α) (y : β) (z : γ), R x y z →
      R (whileLt fuel iz step hi B1 x) (whileLt fuel iz step hi B2 y)
        (whileLt fuel iz step hi B3 z) := by
  intro fuel
  induction fuel with
  | zero => intro iz x y z hR; simpa [whileLt] using hR
  | succ f ih =>
    intro iz x y z hR
    simp only [whileLt]
    by_cases hlt : iz < hi
    · simp only [hlt, if_true]
      exact ih _ _ _ _ (h iz x y z hR)
    · simp only [hlt, if_false]
      exact hR

/-- With a stride of at least one, `hi - iz` unrollings exhaust the loop: further fuel
does not change the result. -/
theorem whileLt_fuel_succ {σ : Type} (step hi : Int) (hstep : 1 ≤ step) (body : Int → σ → σ) :
    ∀ (fuel : Nat) (iz : Int) (s : σ), (hi - iz).toNat ≤ fuel →
      whileLt (fuel + 1) iz step hi body s = whileLt fuel iz step hi body s := by
  intro fuel
  induction fuel with
  | zero =>
    intro iz s h
    have hlt : ¬ iz < hi := by omega
    simp only [whileLt, hlt, if_false]
  | succ f ih =>
    intro iz s h
    by_cases hlt : iz < hi
    · have e1 : whileLt (f + 1 + 1) iz step hi body s
          = whileLt (f + 1) (iz + step) step hi body (body iz s) := by
        simp only [whileLt, hlt, if_true]
      have e2 : whileLt (f + 1) iz step hi body s
          = whileLt f (iz + step) step hi body (body iz s) := by
        simp only [whileLt, hlt, if_true]
      rw [e1, e2]
      exact ih (iz + step) (body iz s) (by omega)
    · simp only [whileLt, hlt, if_false]

theorem whileLt_fuel_enough {σ : Type} (step hi : Int) (hstep : 1 ≤ step) (body : Int → σ → σ)
    (iz : Int) (s : σ) (k : Nat) :
    whileLt ((hi - iz).toNat + k) iz step hi body s
      = whileLt (hi - iz).toNat iz step hi body s := by
  induction k with
  | zero => rfl
  | succ k ih =>
    rw [← ih]
    exact whileLt_fuel_succ step hi hstep body _ iz s (Nat.le_add_right _ _)

/-! ## Linearity of the phases -/

theorem copyABC_lin (sc : Scene) (a b : ℚ) (r r' w w' : Int → ℚ) :
    copyABC sc (comb a b r r') (comb a b w w')
      = comb a b (copyABC sc r w) (copyABC sc r' w') := by
  unfold copyABC
  refine forRange_rel3 (fun x y z => x = comb a b y z) _ _ _ _ _ ?_ _ _ _ rfl
  intro i _ _ x y z h
  subst h; funext j
  simp only [Function.update_apply, comb]
  split_ifs <;> ring

theorem foldedCopy_lin (sc : Scene) (a b : ℚ) (w w' : Int → ℚ) :
    foldedCopy sc (comb a b w w') = comb a b (foldedCopy sc w) (foldedCopy sc w') := by
  unfold foldedCopy
  refine forRange_rel3 (fun x y z => x = comb a b y z) _ _ _ _ _ ?_ _ _ _ rfl
  intro ix _ _ x y z h
  refine forRange_rel3 (fun x y z => x = comb a b y z) _ _ _ _ _ ?_ _ _ _ h
  intro iz _ _ x y z h
  subst h; funext j
  simp only [Function.update_apply, comb]
  split_ifs <;> ring

theorem haloZ_lin (sc : Scene) (a b : ℚ) (w w' : Int → ℚ) :
    haloZ sc (comb a b w w') = comb a b (haloZ sc w) (haloZ sc w') := by
  unfold haloZ
  refine forRange_rel3 (fun x y z => x = comb a b y z) _ _ _ _ _ ?_ _ _ _ rfl
  intro ix _ _ x y z h
  refine forRange_rel3 (fun x y z => x = comb a b y z) _ _ _ _ _ ?_ _ _ _ h
  intro iz _ _ x y z h
  subst h; funext j
  simp only [Function.update_apply, comb]
  split_ifs <;> ring

theorem haloYlo_lin (sc : Scene) (a b : ℚ) (w w' : Int → ℚ) :
    haloYlo sc (comb a b w w') = comb a b (haloYlo sc w) (haloYlo sc w') := by
  unfold haloYlo
  refine forRange_rel3 (fun x y z => x = comb a b y z) _ _ _ _ _ ?_ _ _ _ rfl
  intro ix _ _ x y z h
  refine forRange_rel3 (fun x y z => x = comb a b y z) _ _ _ _ _ ?_ _ _ _ h
  intro iz _ _ x y z h
  subst h; funext j
  simp only [Function.update_apply, comb]
  split_ifs <;> ring

theorem haloYhi_lin (sc : Scene) (a b : ℚ) (w w' : Int → ℚ) :
    haloYhi sc (comb a b w w') = comb a b (haloYhi sc w) (haloYhi sc w') := by
  unfold haloYhi
  refine forRange_rel3 (fun x y z => x = comb a b y z) _ _ _ _ _ ?_ _ _ _ rfl
  intro ix _ _ x y z h
  refine forRange_rel3 (fun x y z => x = comb a b y z) _ _ _ _ _ ?_ _ _ _ h
  intro iz _ _ x y z h
  subst h; funext j
  simp only [Function.update_apply, comb]
  split_ifs <;> ring

theorem haloX_lin (sc : Scene) (a b : ℚ) (w w' : Int → ℚ) :
    haloX sc (comb a b w w') = comb a b (haloX sc w) (haloX sc w') := by
  unfold haloX
  refine forRange_rel3 (fun x y z => x = comb a b y z) _ _ _ _ _ ?_ _ _ _ rfl
  intro ix _ _ x y z h
  refine forRange_rel3 (fun x y z => x = comb a b y z) _ _ _ _ _ ?_ _ _ _ h
  intro iz _ _ x y z h
  subst h; funext j
  simp only [Function.update_apply, comb]
  split_ifs <;> ring

theorem haloPatch_lin (sc : Scene) (a b : ℚ) (w w' : Int → ℚ) :
    haloPatch sc (comb a b w w') = comb a b (haloPatch sc w) (haloPatch sc w') := by
  unfold haloPatch haloFlips
  by_cases hf : sc.fcc_flag = 2
  · simp only [hf, if_true, ne_eq, not_true_eq_false, if_false,
      foldedCopy_lin, haloZ_lin, haloYlo_lin, haloX_lin]
  · simp only [hf, if_false, ne_eq, not_false_eq_true, if_true,
      haloZ_lin, haloYlo_lin, haloYhi_lin, haloX_lin]

theorem airCartCell_lin (sc : Scene) (a b : ℚ) (ii : Int) (r r' w w' : Int → ℚ) :
    airCartCell sc (comb a b r r') ii (comb a b w w')
      = comb a b (airCartCell sc r ii w) (airCartCell sc r' ii w') := by
  unfold airCartCell
  by_cases hm : maskClear sc ii = true
  · simp only [hm, if_true]
    funext j
    simp only [Function.update_apply, comb]
    split_ifs <;> ring
  · simp only [hm]
    rfl

theorem airFccCell_lin (sc : Scene) (a b : ℚ) (ii : Int) (r r' w w' : Int → ℚ) :
    airFccCell sc (comb a b r r') ii (comb a b w w')
      = comb a b (airFccCell sc r ii w) (airFccCell sc r' ii w') := by
  unfold airFccCell
  by_cases hm : maskClear sc ii = true
  · simp only [hm, if_true]
    funext j
    simp only [Function.update_apply, comb]
    split_ifs <;> ring
  · simp only [hm]
    rfl

theorem airCart_lin (sc : Scene) (a b : ℚ) (r r' w w' : Int → ℚ) :
    airCart sc (comb a b r r') (comb a b w w')
      = comb a b (airCart sc r w) (airCart sc r' w') := by
  unfold airCart
  refine forRange_rel3 (fun x y z => x = comb a b y z) _ _ _ _ _ ?_ _ _ _ rfl
  intro ix _ _ x y z h
  refine forRange_rel3 (fun x y z => x = comb a b y z) _ _ _ _ _ ?_ _ _ _ h
  intro iy _ _ x y z h
  refine forRange_rel3 (fun x y z => x = comb a b y z) _ _ _ _ _ ?_ _ _ _ h
  intro iz _ _ x y z h
  subst h
  exact airCartCell_lin sc a b _ r r' y z

theorem airFcc_lin (sc : Scene) (a b : ℚ) (r r' w w' : Int → ℚ) :
    airFcc sc (comb a b r r') (comb a b w w')
      = comb a b (airFcc sc r w) (airFcc sc r' w') := by
  unfold airFcc
  refine forRange_rel3 (fun x y z => x = comb a b y z) _ _ _ _ _ ?_ _ _ _ rfl
  intro ix _ _ x y z h
  refine forRange_rel3 (fun x y z => x = comb a b y z) _ _ _ _ _ ?_ _ _ _ h
  intro iy _ _ x y z h
  refine whileLt_rel3 (fun x y z => x = comb a b y z) _ _ _ _ _ ?_ _ _ _ _ _ h
  intro iz x y z h
  subst h
  exact airFccCell_lin sc a b _ r r' y z

theorem airUpdate_lin (sc : Scene) (a b : ℚ) (r r' w w' : Int → ℚ) :
    airUpdate sc (comb a b r r') (comb a b w w')
      = comb a b (airUpdate sc r w) (airUpdate sc r' w') := by
  unfold airUpdate
  split_ifs
  · exact airCart_lin sc a b r r' w w'
  · exact airFcc_lin sc a b r r' w w'
  · rfl

theorem abcLoss_lin (sc : Scene) (a b : ℚ) (r r' w w' : Int → ℚ) :
    abcLoss sc (comb a b r r') (comb a b w w')
      = comb a b (abcLoss sc r w) (abcLoss sc r' w') := by
  unfold abcLoss
  refine forRange_rel3 (fun x y z => x = comb a b y z) _ _ _ _ _ ?_ _ _ _ rfl
  intro i _ _ x y z h
  subst h; funext j
  simp only [Function.update_apply, comb]
  split_ifs <;> ring

theorem rigidCart_lin (sc : Scene) (a b : ℚ) (r r' w w' : Int → ℚ) :
    rigidCart sc (comb a b r r') (comb a b w w')
      = comb a b (rigidCart sc r w) (rigidCart sc r' w') := by
  unfold rigidCart
  refine forRange_rel3 (fun x y z => x = comb a b y z) _ _ _ _ _ ?_ _ _ _ rfl
  intro i _ _ x y z h
  subst h; funext j
  simp only [Function.update_apply, comb]
  split_ifs <;> ring

theorem rigidFcc_lin (sc : Scene) (a b : ℚ) (r r' w w' : Int → ℚ) :
    rigidFcc sc (comb a b r r') (comb a b w w')
      = comb a b (rigidFcc sc r w) (rigidFcc sc r' w') := by
  unfold rigidFcc
  refine forRange_rel3 (fun x y z => x = comb a b y z) _ _ _ _ _ ?_ _ _ _ rfl
  intro i _ _ x y z h
  subst h; funext j
  simp only [Function.update_apply, comb]
  split_ifs <;> ring

theorem rigidUpdate_lin (sc : Scene) (a b : ℚ) (r r' w w' : Int → ℚ) :
    rigidUpdate sc (comb a b r r') (comb a b w w')
      = comb a b (rigidUpdate sc r w) (rigidUpdate sc r' w') := by
  unfold rigidUpdate
  split_ifs
  · exact rigidCart_lin sc a b r r' w w'
  · exact rigidFcc_lin sc a b r r' w w'
  · rfl

theorem readBnl_lin (sc : Scene) (a b : ℚ) (r r' w w' : Int → ℚ) :
    readBnl sc (comb a b r r') (comb a b w w')
      = comb a b (readBnl sc r w) (readBnl sc r' w') := by
  unfold readBnl
  refine forRange_rel3 (fun x y z => x = comb a b y z) _ _ _ _ _ ?_ _ _ _ rfl
  intro i _ _ x y z h
  subst h; funext j
  simp only [Function.update_apply, comb]
  split_ifs <;> ring

theorem writeBnl_lin (sc : Scene) (a b : ℚ) (r r' w w' : Int → ℚ) :
    writeBnl sc (comb a b r r') (comb a b w w')
      = comb a b (writeBnl sc r w) (writeBnl sc r' w') := by
  unfold writeBnl
  refine forRange_rel3 (fun x y z => x = comb a b y z) _ _ _ _ _ ?_ _ _ _ rfl
  intro i _ _ x y z h
  subst h; funext j
  simp only [Function.update_apply, comb]
  split_ifs <;> ring

theorem fdBranchCorrect_lin (sc : Scene) (a b : ℚ) (v v' g g' : Int → ℚ) (nb k : Int)
    (fac : ℚ) (x y z : ℚ × (Int → ℚ)) (h1 : x.1 = a * y.1 + b * z.1)
    (h2 : x.2 = comb a b y.2 z.2) :
    (fdBranchCorrect sc (comb a b v v') (comb a b g g') nb k fac x).1
        = a * (fdBranchCorrect sc v g nb k fac y).1 + b * (fdBranchCorrect sc v' g' nb k fac z).1
      ∧ (fdBranchCorrect sc (comb a b v v') (comb a b g g') nb k fac x).2
        = comb a b (fdBranchCorrect sc v g nb k fac y).2 (fdBranchCorrect sc v' g' nb k fac z).2 := by
  unfold fdBranchCorrect
  refine forRange_rel3
    (fun (x y z : ℚ × (Int → ℚ)) => x.1 = a * y.1 + b * z.1 ∧ x.2 = comb a b y.2 z.2)
    _ _ _ _ _ ?_ _ _ _ ⟨h1, h2⟩
  intro m _ _ x y z h
  obtain ⟨h1, h2⟩ := h
  constructor
  · simp only [Function.update_same, comb, h1]
    ring
  · simp only [h2]
    funext j
    simp only [Function.update_apply, comb]
    split_ifs <;> ring

theorem fdStateAdvance_lin (sc : Scene) (a b : ℚ) (n n' : Int → ℚ) (nb k : Int)
    (d d' : ℚ) (x y z : (Int → ℚ) × (Int → ℚ)) (h1 : x.1 = comb a b y.1 z.1)
    (h2 : x.2 = comb a b y.2 z.2) :
    (fdStateAdvance sc (comb a b n n') nb k (a * d + b * d') x).1
        = comb a b (fdStateAdvance sc n nb k d y).1 (fdStateAdvance sc n' nb k d' z).1
      ∧ (fdStateAdvance sc (comb a b n n') nb k (a * d + b * d') x).2
        = comb a b (fdStateAdvance sc n nb k d y).2 (fdStateAdvance sc n' nb k d' z).2 := by
  unfold fdStateAdvance
  refine forRange_rel3
    (fun (x y z : (Int → ℚ) × (Int → ℚ)) => x.1 = comb a b y.1 z.1 ∧ x.2 = comb a b y.2 z.2)
    _ _ _ _ _ ?_ _ _ _ ⟨h1, h2⟩
  intro m _ _ x y z h
  obtain ⟨h1, h2⟩ := h
  constructor
  · simp only [h1, h2]
    funext j
    simp only [Function.update_apply, comb]
    split_ifs <;> ring
  · simp only [h2]
    funext j
    simp only [Function.update_apply, comb]
    split_ifs <;> ring

theorem fdNode_lin (sc : Scene) (a b : ℚ) (u2b u2b' : Int → ℚ) (nb : Int) (s t : FdBufs) :
    fdNode sc (comb a b u2b u2b') nb (FdBufs.comb a b s t)
      = FdBufs.comb a b (fdNode sc u2b nb s) (fdNode sc u2b' nb t) := by
  have hz : (fun _ : Int => (0 : ℚ)) = comb a b (fun _ => 0) (fun _ => 0) := by
    funext j; simp [comb]
  have hB := fdBranchCorrect_lin sc a b s.vh1 t.vh1 s.gh1 t.gh1 nb (sc.mat_bnl nb)
    (2 * sc.lo2 * sc.ssaf_bnl nb / (1 + sc.lo2 * sc.ssaf_bnl nb * sc.mat_beta (sc.mat_bnl nb)))
    ((comb a b s.u0b t.u0b nb + sc.lo2 * sc.ssaf_bnl nb * sc.mat_beta (sc.mat_bnl nb)
        * comb a b u2b u2b' nb)
      / (1 + sc.lo2 * sc.ssaf_bnl nb * sc.mat_beta (sc.mat_bnl nb)), fun _ => 0)
    ((s.u0b nb + sc.lo2 * sc.ssaf_bnl nb * sc.mat_beta (sc.mat_bnl nb) * u2b nb)
      / (1 + sc.lo2 * sc.ssaf_bnl nb * sc.mat_beta (sc.mat_bnl nb)), fun _ => 0)
    ((t.u0b nb + sc.lo2 * sc.ssaf_bnl nb * sc.mat_beta (sc.mat_bnl nb) * u2b' nb)
      / (1 + sc.lo2 * sc.ssaf_bnl nb * sc.mat_beta (sc.mat_bnl nb)), fun _ => 0)
    (by simp only [comb]; ring) hz
  obtain ⟨hB1, hB2⟩ := hB
  unfold fdNode
  simp only [FdBufs.comb]
  rw [hB2, hB1]
  have hdu : ∀ p q : ℚ, a * p + b * q - comb a b u2b u2b' nb
      = a * (p - u2b nb) + b * (q - u2b' nb) := by
    intro p q; simp only [comb]; ring
  rw [hdu]
  have hS := fdStateAdvance_lin sc a b
    (fdBranchCorrect sc s.vh1 s.gh1 nb (sc.mat_bnl nb)
      (2 * sc.lo2 * sc.ssaf_bnl nb / (1 + sc.lo2 * sc.ssaf_bnl nb * sc.mat_beta (sc.mat_bnl nb)))
      ((s.u0b nb + sc.lo2 * sc.ssaf_bnl nb * sc.mat_beta (sc.mat_bnl nb) * u2b nb)
        / (1 + sc.lo2 * sc.ssaf_bnl nb * sc.mat_beta (sc.mat_bnl nb)), fun _ => 0)).2
    (fdBranchCorrect sc t.vh1 t.gh1 nb (sc.mat_bnl nb)
      (2 * sc.lo2 * sc.ssaf_bnl nb / (1 + sc.lo2 * sc.ssaf_bnl nb * sc.mat_beta (sc.mat_bnl nb)))
      ((t.u0b nb + sc.lo2 * sc.ssaf_bnl nb * sc.mat_beta (sc.mat_bnl nb) * u2b' nb)
        / (1 + sc.lo2 * sc.ssaf_bnl nb * sc.mat_beta (sc.mat_bnl nb)), fun _ => 0)).2
    nb (sc.mat_bnl nb)
    ((fdBranchCorrect sc s.vh1 s.gh1 nb (sc.mat_bnl nb)
      (2 * sc.lo2 * sc.ssaf_bnl nb / (1 + sc.lo2 * sc.ssaf_bnl nb * sc.mat_beta (sc.mat_bnl nb)))
      ((s.u0b nb + sc.lo2 * sc.ssaf_bnl nb * sc.mat_beta (sc.mat_bnl nb) * u2b nb)
        / (1 + sc.lo2 * sc.ssaf_bnl nb * sc.mat_beta (sc.mat_bnl nb)), fun _ => 0)).1 - u2b nb)
    ((fdBranchCorrect sc t.vh1 t.gh1 nb (sc.mat_bnl nb)
      (2 * sc.lo2 * sc.ssaf_bnl nb / (1 + sc.lo2 * sc.ssaf_bnl nb * sc.mat_beta (sc.mat_bnl nb)))
      ((t.u0b nb + sc.lo2 * sc.ssaf_bnl nb * sc.mat_beta (sc.mat_bnl nb) * u2b' nb)
        / (1 + sc.lo2 * sc.ssaf_bnl nb * sc.mat_beta (sc.mat_bnl nb)), fun _ => 0)).1 - u2b' nb)
    (comb a b s.vh1 t.vh1, comb a b s.gh1 t.gh1) (s.vh1, s.gh1) (t.vh1, t.gh1) rfl rfl
  obtain ⟨hS1, hS2⟩ := hS
  rw [hS1, hS2]
  congr 1
  funext j
  simp only [Function.update_apply, comb]
  split_ifs <;> ring

theorem process_bnl_pts_fd_lin (sc : Scene) (a b : ℚ) (u2b u2b' : Int → ℚ) (s t : FdBufs) :
    process_bnl_pts_fd sc (comb a b u2b u2b') (FdBufs.comb a b s t)
      = FdBufs.comb a b (process_bnl_pts_fd sc u2b s) (process_bnl_pts_fd sc u2b' t) := by
  unfold process_bnl_pts_fd
  refine forRange_rel3 (fun x y z => x = FdBufs.comb a b y z) _ _ _ _ _ ?_ _ _ _ rfl
  intro nb _ _ x y z h
  subst h
  exact fdNode_lin sc a b u2b u2b' nb y z

theorem samplePasses_lin (sc : Scene) (a b : ℚ) (s t : State) :
    samplePasses sc (State.comb a b s t)
      = State.comb a b (samplePasses sc s) (samplePasses sc t) := by
  have hfd : ∀ (p q r p' q' r' : Int → ℚ),
      ({ u0b := comb a b p p', vh1 := comb a b q q', gh1 := comb a b r r' } : FdBufs)
        = FdBufs.comb a b { u0b := p, vh1 := q, gh1 := r } { u0b := p', vh1 := q', gh1 := r' } :=
    fun _ _ _ _ _ _ => rfl
  unfold samplePasses
  simp only [State.comb, copyABC_lin, haloPatch_lin, airUpdate_lin, abcLoss_lin, rigidUpdate_lin,
    readBnl_lin]
  simp only [hfd, process_bnl_pts_fd_lin]
  simp only [FdBufs.comb, writeBnl_lin]

theorem addInput_lin (sc : Scene) (a b : ℚ) (g g' : Int → ℚ) (n : Int) (w w' : Int → ℚ) :
    addInput sc (comb a b g g') n (comb a b w w')
      = comb a b (addInput sc g n w) (addInput sc g' n w') := by
  unfold addInput
  refine forRange_rel3 (fun x y z => x = comb a b y z) _ _ _ _ _ ?_ _ _ _ rfl
  intro i _ _ x y z h
  subst h; funext j
  simp only [Function.update_apply, comb]
  split_ifs <;> ring

theorem addInput_congr (sc : Scene) (g g' : Int → ℚ) (n n' : Int) (w : Int → ℚ)
    (h : ∀ ns, 0 ≤ ns → ns < sc.Ns → g (ns * sc.Nt + n) = g' (ns * sc.Nt + n')) :
    addInput sc g n w = addInput sc g' n' w := by
  unfold addInput
  refine forRange_congr _ _ _ _ ?_ w
  intro ns h1 h2 x
  simp only [h ns h1 h2]

theorem stepState_lin (sc : Scene) (a b : ℚ) (g g' : Int → ℚ) (n : Int) (s t : State) :
    stepState sc (comb a b g g') n (State.comb a b s t)
      = State.comb a b (stepState sc g n s) (stepState sc g' n t) := by
  unfold stepState
  rw [samplePasses_lin]
  simp only [swapPointers, State.comb, addInput_lin]

theorem stepState_congr (sc : Scene) (g g' : Int → ℚ) (n n' : Int) (s : State)
    (h : ∀ ns, 0 ≤ ns → ns < sc.Ns → g (ns * sc.Nt + n) = g' (ns * sc.Nt + n')) :
    stepState sc g n s = stepState sc g' n' s := by
  unfold stepState
  simp only [addInput_congr sc g g' n n' _ h]

/-! ## Index arithmetic -/

theorem mixed_radix_inj (a a' r r' N : Int) (hr : 0 ≤ r) (hrN : r < N) (hr' : 0 ≤ r')
    (hrN' : r' < N) (h : a * N + r = a' * N + r') : a = a' ∧ r = r' := by
  have hN : 0 ≤ N := by omega
  rcases lt_trichotomy a a' with hlt | heq | hgt
  · exfalso
    have := mul_le_mul_of_nonneg_right (show a + 1 ≤ a' by omega) hN
    nlinarith
  · subst heq
    exact ⟨rfl, by omega⟩
  · exfalso
    have := mul_le_mul_of_nonneg_right (show a' + 1 ≤ a by omega) hN
    nlinarith

/-! ## The sample loop: state and output after `m` iterations -/

theorem samplePasses_withSigs (sc : Scene) (g : Int → ℚ) (s : State) :
    samplePasses (withSigs sc g) s = samplePasses sc s := by
  simp only [samplePasses, copyABC, haloPatch, haloFlips, foldedCopy, haloZ, haloYlo, haloYhi,
    haloX, airUpdate, airCart, airFcc, airCartCell, airFccCell, maskClear, abcLoss, rigidUpdate,
    rigidCart, rigidFcc, readBnl, writeBnl, process_bnl_pts_fd, fdNode, fdBranchCorrect,
    fdStateAdvance, withSigs]
  rfl

theorem addInput_withSigs (sc : Scene) (g h : Int → ℚ) (n : Int) (u : Int → ℚ) :
    addInput (withSigs sc g) h n u = addInput sc h n u := by
  simp only [addInput, withSigs]

theorem stepState_withSigs (sc : Scene) (g h : Int → ℚ) (n : Int) (s : State) :
    stepState (withSigs sc g) h n s = stepState sc h n s := by
  unfold stepState
  simp only [samplePasses_withSigs, addInput_withSigs]

theorem haloPatch_withSigs (sc : Scene) (g : Int → ℚ) (u : Int → ℚ) :
    haloPatch (withSigs sc g) u = haloPatch sc u := by
  simp only [haloPatch, haloFlips, foldedCopy, haloZ, haloYlo, haloYhi, haloX, withSigs]

theorem sampleStep_st (sc : Scene) (n : Int) (s : Sim) :
    (sampleStep sc n s).st = stepState sc sc.in_sigs n s.st := rfl

theorem sampleStep_u_out (sc : Scene) (n : Int) (s : Sim) :
    (sampleStep sc n s).u_out = readOutput sc n (haloPatch sc s.st.u1) s.u_out := rfl

theorem loop_st (sc : Scene) (m : Nat) :
    (forRange 0 (m : Int) (sampleStep sc) { st := State.init, u_out := sc.u_out }).st
      = stateAt sc m := by
  induction m with
  | zero => rfl
  | succ m ih =>
    have e : ((m + 1 : Nat) : Int) = (m : Int) + 1 := by push_cast; ring
    rw [e, forRange_succ _ _ _ _ (by omega), sampleStep_st, ih]
    rfl

theorem readOutput_hit (sc : Scene) (n : Int) (u1 u_out : Int → ℚ) (nr : Int)
    (h1 : 0 ≤ nr) (h2 : nr < sc.Nr) (hn : 0 ≤ n) (hnt : n < sc.Nt) :
    readOutput sc n u1 u_out (nr * sc.Nt + n) = u1 (sc.out_ixyz nr) := by
  unfold readOutput
  refine forRange_update_hit 0 sc.Nr (fun nr => nr * sc.Nt + n) (fun nr => u1 (sc.out_ixyz nr))
    u_out ?_ nr h1 h2
  intro i i' _ _ _ _ he
  exact (mixed_radix_inj i i' n n sc.Nt hn hnt hn hnt he).1

theorem readOutput_frame (sc : Scene) (m : Int) (u1 u_out : Int → ℚ) (nr n : Int)
    (hm : 0 ≤ m) (hmt : m < sc.Nt) (hn : 0 ≤ n) (hnt : n < sc.Nt) (hne : n ≠ m) :
    readOutput sc m u1 u_out (nr * sc.Nt + n) = u_out (nr * sc.Nt + n) := by
  unfold readOutput
  refine forRange_update_frame 0 sc.Nr (fun nr => nr * sc.Nt + m)
    (fun nr _ => u1 (sc.out_ixyz nr)) u_out _ ?_
  intro i _ _ he
  exact hne (mixed_radix_inj i nr m n sc.Nt hm hmt hn hnt he).2.symm

theorem loop_u_out (sc : Scene) (m : Nat) (hm : (m : Int) ≤ sc.Nt) (nr n : Int)
    (h1 : 0 ≤ nr) (h2 : nr < sc.Nr) (hn : 0 ≤ n) (hnt : n < sc.Nt) :
    (forRange 0 (m : Int) (sampleStep sc) { st := State.init, u_out := sc.u_out }).u_out
        (nr * sc.Nt + n)
      = if n < m then haloPatch sc (stateAt sc n.toNat).u1 (sc.out_ixyz nr)
        else sc.u_out (nr * sc.Nt + n) := by
  induction m with
  | zero =>
    have : ¬ n < ((0 : Nat) : Int) := by simp; omega
    rw [if_neg this]
    rfl
  | succ m ih =>
    have e : ((m + 1 : Nat) : Int) = (m : Int) + 1 := by push_cast; ring
    have ih := ih (by omega)
    rw [e, forRange_succ _ _ _ _ (by omega), sampleStep_u_out, loop_st]
    by_cases hnm : n = (m : Int)
    · subst hnm
      rw [readOutput_hit sc _ _ _ nr h1 h2 hn hnt, if_pos (by omega)]
      simp
    · rw [readOutput_frame sc _ _ _ nr n (by omega) (by omega) hn hnt hnm, ih]
      by_cases hlt : n < (m : Int)
      · rw [if_pos hlt, if_pos (by omega)]
      · rw [if_neg hlt, if_neg (by omega)]

/-- The buffers after the sample loop are those after `Nt` samples. -/
theorem run_st (sc : Scene) : (run sc).st = stateAt sc sc.Nt.toNat := by
  unfold run
  rw [forRange_toNat, loop_st]

/-- The entry `u_out[nr * Nt + n]` left by `run` is the halo-patched `u1` of sample `n`
at the receiver cell. -/
theorem run_u_out (sc : Scene) (nr n : Int) (h1 : 0 ≤ nr) (h2 : nr < sc.Nr) (hn : 0 ≤ n)
    (hnt : n < sc.Nt) :
    (run sc).u_out (nr * sc.Nt + n) = haloPatch sc (stateAt sc n.toNat).u1 (sc.out_ixyz nr) := by
  unfold run
  rw [forRange_toNat, loop_u_out sc sc.Nt.toNat (by omega) nr n h1 h2 hn hnt, if_pos (by omega)]

/-! ## Zero state, linearity and time shift of the state sequence -/

theorem comb_zero (g h : Int → ℚ) : comb 0 0 g h = fun _ => 0 := by
  funext j; simp [comb]

theorem haloPatch_zero (sc : Scene) : haloPatch sc (fun _ => 0) = fun _ => 0 := by
  have h := haloPatch_lin sc 0 0 (fun _ => 0) (fun _ => 0)
  rwa [comb_zero, comb_zero] at h

theorem stateAt_lin (sc : Scene) (a b : ℚ) (g g' : Int → ℚ) (m : Nat) :
    stateAt (withSigs sc (comb a b g g')) m
      = State.comb a b (stateAt (withSigs sc g) m) (stateAt (withSigs sc g') m) := by
  induction m with
  | zero =>
    show State.init = State.comb a b State.init State.init
    have hz : comb a b (fun _ => 0) (fun _ => 0) = fun _ => 0 := by
      funext j; simp [comb]
    simp only [State.comb, State.init, hz]
  | succ m ih =>
    show stepState (withSigs sc (comb a b g g')) (comb a b g g') (m : Int) _
      = State.comb a b (stepState (withSigs sc g) g (m : Int) _)
          (stepState (withSigs sc g') g' (m : Int) _)
    rw [ih, stepState_withSigs, stepState_withSigs, stepState_withSigs, stepState_lin]

theorem mem_rangeInt (lo hi i : Int) : i ∈ rangeInt lo hi ↔ lo ≤ i ∧ i < hi := by
  unfold rangeInt
  simp only [List.mem_map, List.mem_range]
  constructor
  · rintro ⟨k, hk, rfl⟩
    omega
  · rintro ⟨h1, h2⟩
    exact ⟨(i - lo).toNat, by omega, by omega⟩

theorem forRange_eq_foldl {α : Type} (lo hi : Int) (B : Int → α → α) (x : α) :
    forRange lo hi B x = (rangeInt lo hi).foldl (fun acc i => B i acc) x := by
  unfold forRange rangeInt
  rw [List.foldl_map]

theorem foldl_applyCopies (P : Int → List (Int × Int)) (l : List Int) (u : Int → ℚ) :
    l.foldl (fun acc i => applyCopies (P i) acc) u = applyCopies (l.flatMap P) u := by
  induction l generalizing u with
  | nil => rfl
  | cons a l ih =>
    simp only [List.foldl_cons, List.flatMap_cons, ih]
    unfold applyCopies
    rw [List.foldl_append]

theorem forRange2_copies (lo1 hi1 lo2 hi2 : Int) (P : Int → Int → List (Int × Int))
    (u : Int → ℚ) :
    forRange lo1 hi1 (fun i u => forRange lo2 hi2 (fun j u => applyCopies (P i j) u) u) u
      = applyCopies
          ((rangeInt lo1 hi1).flatMap fun i => (rangeInt lo2 hi2).flatMap fun j => P i j) u := by
  rw [forRange_eq_foldl, ← foldl_applyCopies]
  congr 1
  funext acc i
  rw [forRange_eq_foldl, ← foldl_applyCopies]

theorem applyCopies_frame (L : List (Int × Int)) (u : Int → ℚ) (c : Int)
    (h : ∀ p ∈ L, p.1 ≠ c) : applyCopies L u c = u c := by
  unfold applyCopies
  refine foldl_inv (fun w => w c = u c) _ L ?_ u rfl
  intro p hp w hw
  show Function.update w p.1 (w p.2) c = u c
  rw [Function.update_noteq (Ne.symm (h p hp))]
  exact hw

theorem applyCopies_hit (L : List (Int × Int)) :
    ∀ (u : Int → ℚ), (∀ p ∈ L, ∀ q ∈ L, q.1 ≠ p.2) →
      ∀ p ∈ L, (∀ q ∈ L, q.1 = p.1 → q.2 = p.2) → applyCopies L u p.1 = u p.2 := by
  induction L with
  | nil => intro u _ p hp; exact absurd hp (List.not_mem_nil _)
  | cons q0 L ih =>
    intro u hsrc p hp hfun
    have hstep : applyCopies (q0 :: L) u = applyCopies L (Function.update u q0.1 (u q0.2)) := rfl
    rw [hstep]
    have hsrc' : ∀ p ∈ L, ∀ q ∈ L, q.1 ≠ p.2 := fun a ha b hb =>
      hsrc a (List.mem_cons_of_mem _ ha) b (List.mem_cons_of_mem _ hb)
    by_cases hex : ∃ q ∈ L, q.1 = p.1
    · obtain ⟨q, hq, hq1⟩ := hex
      have hq2 : q.2 = p.2 := hfun q (List.mem_cons_of_mem _ hq) hq1
      have := ih (Function.update u q0.1 (u q0.2)) hsrc' q hq
        (fun r hr hr1 => by
          rw [hq2]
          exact hfun r (List.mem_cons_of_mem _ hr) (hr1.trans hq1))
      rw [← hq1, this, hq2]
      exact Function.update_noteq (Ne.symm (hsrc p hp q0 (List.mem_cons_self _ _))) _ _
    · have hp0 : p = q0 := by
        rcases List.mem_cons.mp hp with h | h
        · exact h
        · exact absurd ⟨p, h, rfl⟩ hex
      rw [applyCopies_frame L _ p.1 (fun q hq hq1 => hex ⟨q, hq, hq1⟩), hp0]
      exact Function.update_same _ _ _

theorem lin_inj (sc : Scene) (x y z x' y' z' : Int) (hy : 0 ≤ y ∧ y < sc.Ny)
    (hz : 0 ≤ z ∧ z < sc.Nz) (hy' : 0 ≤ y' ∧ y' < sc.Ny) (hz' : 0 ≤ z' ∧ z' < sc.Nz)
    (h : lin sc x y z = lin sc x' y' z') : x = x' ∧ y = y' ∧ z = z' := by
  unfold lin at h
  have h1 : (x * sc.Ny + y) * sc.Nz + z = (x' * sc.Ny + y') * sc.Nz + z' := by linarith
  obtain ⟨h2, h3⟩ := mixed_radix_inj _ _ z z' sc.Nz hz.1 hz.2 hz'.1 hz'.2 h1
  obtain ⟨h4, h5⟩ := mixed_radix_inj _ _ y y' sc.Ny hy.1 hy.2 hy'.1 hy'.2 h2
  exact ⟨h4, h5, h3⟩

theorem linc_inj (sc : Scene) (c c' : Int × Int × Int) (hc : inGrid sc c) (hc' : inGrid sc c')
    (h : linc sc c = linc sc c') : c = c' := by
  obtain ⟨x, y, z⟩ := c
  obtain ⟨x', y', z'⟩ := c'
  obtain ⟨h1, h2, h3⟩ := lin_inj sc x y z x' y' z' hc.2.1 hc.2.2 hc'.2.1 hc'.2.2 h
  simp only [h1, h2, h3]

/-- A list of copies described by a coordinate map `ρ` (targets are the in-grid cells
moved by `ρ`, each reading its `ρ`-image, and no image is itself moved) leaves in every
grid cell `c` the original value of cell `ρ c`. -/
theorem gridCopies_apply (sc : Scene) (L : List (Int × Int))
    (ρ : Int × Int × Int → Int × Int × Int) (u : Int → ℚ)
    (hL1 : ∀ p ∈ L, ∃ c, inGrid sc c ∧ ρ c ≠ c ∧ p = (linc sc c, linc sc (ρ c)))
    (hL2 : ∀ c, inGrid sc c → ρ c ≠ c → (linc sc c, linc sc (ρ c)) ∈ L)
    (hρ1 : ∀ c, inGrid sc c → inGrid sc (ρ c))
    (hρ2 : ∀ c, inGrid sc c → ρ (ρ c) = ρ c)
    (c : Int × Int × Int) (hc : inGrid sc c) :
    applyCopies L u (linc sc c) = u (linc sc (ρ c)) := by
  by_cases hm : ρ c = c
  · rw [hm]
    refine applyCopies_frame L u _ ?_
    intro p hp he
    obtain ⟨c', hc', hne, rfl⟩ := hL1 p hp
    have := linc_inj sc c' c hc' hc he
    subst this
    exact hne hm
  · have hp := hL2 c hc hm
    refine applyCopies_hit L u ?_ (linc sc c, linc sc (ρ c)) hp ?_
    · intro p hp q hq he
      obtain ⟨c1, hc1, _, rfl⟩ := hL1 p hp
      obtain ⟨c2, hc2, hne2, rfl⟩ := hL1 q hq
      have := linc_inj sc c2 (ρ c1) hc2 (hρ1 c1 hc1) he
      subst this
      exact hne2 (hρ2 c1 hc1)
    · intro q hq he
      obtain ⟨c2, hc2, _, rfl⟩ := hL1 q hq
      have := linc_inj sc c2 c hc2 hc he
      subst this
      rfl

theorem haloYlo_eq (sc : Scene) (u : Int → ℚ) : haloYlo sc u = applyCopies (copiesYlo sc) u :=
  forRange2_copies 0 sc.Nx 0 sc.Nz (fun ix iz => [(lin sc ix 0 iz, lin sc ix 2 iz)]) u

theorem haloYhi_eq (sc : Scene) (u : Int → ℚ) : haloYhi sc u = applyCopies (copiesYhi sc) u :=
  forRange2_copies 0 sc.Nx 0 sc.Nz
    (fun ix iz => [(lin sc ix (sc.Ny - 1) iz, lin sc ix (sc.Ny - 3) iz)]) u

theorem foldedCopy_eq (sc : Scene) (u : Int → ℚ) :
    foldedCopy sc u = applyCopies (copiesFold sc) u :=
  forRange2_copies 0 sc.Nx 0 sc.Nz
    (fun ix iz => [(lin sc ix (sc.Ny - 1) iz, lin sc ix (sc.Ny - 2) iz)]) u

theorem haloX_eq (sc : Scene) (u : Int → ℚ) : haloX sc u = applyCopies (copiesX sc) u :=
  forRange2_copies 0 sc.Ny 0 sc.Nz (fun iy iz =>
    [(lin sc 0 iy iz, lin sc 2 iy iz), (lin sc (sc.Nx - 1) iy iz, lin sc (sc.Nx - 3) iy iz)]) u

theorem haloZ_eq (sc : Scene) (u : Int → ℚ) : haloZ sc u = applyCopies (copiesZ sc) u :=
  forRange2_copies 0 sc.Nx 0 sc.Ny (fun ix iy =>
    [(lin sc ix iy 0, lin sc ix iy 2),
      (ix * (sc.Nz * sc.Ny) + iy * sc.Nz + sc.Nz - 1,
        ix * (sc.Nz * sc.Ny) + iy * sc.Nz + sc.Nz - 3)]) u

theorem mem_copiesZ (sc : Scene) (p : Int × Int) :
    p ∈ copiesZ sc ↔ ∃ ix, (0 ≤ ix ∧ ix < sc.Nx) ∧ ∃ iy, (0 ≤ iy ∧ iy < sc.Ny) ∧
      (p = (lin sc ix iy 0, lin sc ix iy 2)
        ∨ p = (lin sc ix iy (sc.Nz - 1), lin sc ix iy (sc.Nz - 3))) := by
  simp only [copiesZ, List.mem_flatMap, mem_rangeInt, List.mem_cons, List.mem_singleton,
    List.not_mem_nil, or_false, lin, add_sub_assoc]

theorem mirror_mem (N c : Int) (hN : 3 ≤ N) (h : 0 ≤ c ∧ c < N) :
    0 ≤ mirror N c ∧ mirror N c < N := by
  unfold mirror
  split_ifs <;> omega

theorem mirror_idem (N c : Int) (hN : 4 ≤ N) : mirror N (mirror N c) = mirror N c := by
  unfold mirror
  split_ifs <;> omega

theorem mirror_ne (N c : Int) (h : mirror N c ≠ c) : c = 0 ∨ c = N - 1 := by
  unfold mirror at h
  split_ifs at h <;> omega

theorem haloZ_apply (sc : Scene) (u : Int → ℚ) (hNz : 4 ≤ sc.Nz) (c : Int × Int × Int)
    (hc : inGrid sc c) :
    haloZ sc u (linc sc c) = u (linc sc (c.1, c.2.1, mirror sc.Nz c.2.2)) := by
  rw [haloZ_eq]
  refine gridCopies_apply sc (copiesZ sc) (fun c => (c.1, c.2.1, mirror sc.Nz c.2.2)) u
    ?_ ?_ ?_ ?_ c hc
  · intro p hp
    obtain ⟨ix, hx, iy, hy, h | h⟩ := (mem_copiesZ sc p).mp hp
    · refine ⟨(ix, iy, 0), ⟨hx, hy, by simp; omega⟩, by simp [mirror], ?_⟩
      simp [h, linc, mirror]
    · have h0 : sc.Nz - 1 ≠ 0 := by omega
      have h3 : sc.Nz - 3 ≠ sc.Nz - 1 := by omega
      refine ⟨(ix, iy, sc.Nz - 1), ⟨hx, hy, by simp; omega⟩, by simp [mirror, h0, h3], ?_⟩
      simp [h, linc, mirror, h0]
  · intro c hc hne
    obtain ⟨x, y, z⟩ := c
    have hz : mirror sc.Nz z ≠ z := by
      intro he; apply hne; simp [he]
    rcases mirror_ne _ _ hz with h | h
    · subst h
      exact (mem_copiesZ sc _).mpr ⟨x, hc.1, y, hc.2.1, Or.inl (by simp [linc, mirror])⟩
    · subst h
      have h0 : sc.Nz - 1 ≠ 0 := by omega
      exact (mem_copiesZ sc _).mpr ⟨x, hc.1, y, hc.2.1, Or.inr (by simp [linc, mirror, h0])⟩
  · intro c hc
    exact ⟨hc.1, hc.2.1, mirror_mem _ _ (by omega) hc.2.2⟩
  · intro c _
    simp [mirror_idem _ _ hNz]

theorem mem_copiesX (sc : Scene) (p : Int × Int) :
    p ∈ copiesX sc ↔ ∃ iy, (0 ≤ iy ∧ iy < sc.Ny) ∧ ∃ iz, (0 ≤ iz ∧ iz < sc.Nz) ∧
      (p = (lin sc 0 iy iz, lin sc 2 iy iz)
        ∨ p = (lin sc (sc.Nx - 1) iy iz, lin sc (sc.Nx - 3) iy iz)) := by
  simp only [copiesX, List.mem_flatMap, mem_rangeInt, List.mem_cons, List.mem_singleton,
    List.not_mem_nil, or_false]

theorem mem_copiesYlo (sc : Scene) (p : Int × Int) :
    p ∈ copiesYlo sc ↔ ∃ ix, (0 ≤ ix ∧ ix < sc.Nx) ∧ ∃ iz, (0 ≤ iz ∧ iz < sc.Nz) ∧
      p = (lin sc ix 0 iz, lin sc ix 2 iz) := by
  simp only [copiesYlo, List.mem_flatMap, mem_rangeInt, List.mem_cons, List.mem_singleton,
    List.not_mem_nil, or_false]

theorem mem_copiesYhi (sc : Scene) (p : Int × Int) :
    p ∈ copiesYhi sc ↔ ∃ ix, (0 ≤ ix ∧ ix < sc.Nx) ∧ ∃ iz, (0 ≤ iz ∧ iz < sc.Nz) ∧
      p = (lin sc ix (sc.Ny - 1) iz, lin sc ix (sc.Ny - 3) iz) := by
  simp only [copiesYhi, List.mem_flatMap, mem_rangeInt, List.mem_cons, List.mem_singleton,
    List.not_mem_nil, or_false]

theorem mem_copiesFold (sc : Scene) (p : Int × Int) :
    p ∈ copiesFold sc ↔ ∃ ix, (0 ≤ ix ∧ ix < sc.Nx) ∧ ∃ iz, (0 ≤ iz ∧ iz < sc.Nz) ∧
      p = (lin sc ix (sc.Ny - 1) iz, lin sc ix (sc.Ny - 2) iz) := by
  simp only [copiesFold, List.mem_flatMap, mem_rangeInt, List.mem_cons, List.mem_singleton,
    List.not_mem_nil, or_false]

theorem haloX_apply (sc : Scene) (u : Int → ℚ) (hNx : 4 ≤ sc.Nx) (c : Int × Int × Int)
    (hc : inGrid sc c) :
    haloX sc u (linc sc c) = u (linc sc (mirror sc.Nx c.1, c.2.1, c.2.2)) := by
  rw [haloX_eq]
  refine gridCopies_apply sc (copiesX sc) (fun c => (mirror sc.Nx c.1, c.2.1, c.2.2)) u
    ?_ ?_ ?_ ?_ c hc
  · intro p hp
    obtain ⟨iy, hy, iz, hz, h | h⟩ := (mem_copiesX sc p).mp hp
    · refine ⟨(0, iy, iz), ⟨by simp; omega, hy, hz⟩, by simp [mirror], ?_⟩
      simp [h, linc, mirror]
    · have h0 : sc.Nx - 1 ≠ 0 := by omega
      have h3 : sc.Nx - 3 ≠ sc.Nx - 1 := by omega
      refine ⟨(sc.Nx - 1, iy, iz), ⟨by simp; omega, hy, hz⟩, by simp [mirror, h0, h3], ?_⟩
      simp [h, linc, mirror, h0]
  · intro c hc hne
    obtain ⟨x, y, z⟩ := c
    have hx : mirror sc.Nx x ≠ x := by
      intro he; apply hne; simp [he]
    rcases mirror_ne _ _ hx with h | h
    · subst h
      exact (mem_copiesX sc _).mpr ⟨y, hc.2.1, z, hc.2.2, Or.inl (by simp [linc, mirror])⟩
    · subst h
      have h0 : sc.Nx - 1 ≠ 0 := by omega
      exact (mem_copiesX sc _).mpr ⟨y, hc.2.1, z, hc.2.2, Or.inr (by simp [linc, mirror, h0])⟩
  · intro c hc
    exact ⟨mirror_mem _ _ (by omega) hc.1, hc.2.1, hc.2.2⟩
  · intro c _
    simp [mirror_idem _ _ hNx]

/-- A pass that copies the whole face `iy = a` from the plane `iy = b`. -/
theorem yCopies_apply (sc : Scene) (L : List (Int × Int)) (a b : Int) (u : Int → ℚ)
    (ha : 0 ≤ a ∧ a < sc.Ny) (hb : 0 ≤ b ∧ b < sc.Ny) (hab : b ≠ a)
    (hmem : ∀ p, p ∈ L ↔ ∃ ix, (0 ≤ ix ∧ ix < sc.Nx) ∧ ∃ iz, (0 ≤ iz ∧ iz < sc.Nz) ∧
      p = (lin sc ix a iz, lin sc ix b iz))
    (c : Int × Int × Int) (hc : inGrid sc c) :
    applyCopies L u (linc sc c) = u (linc sc (c.1, if c.2.1 = a then b else c.2.1, c.2.2)) := by
  refine gridCopies_apply sc L (fun c => (c.1, if c.2.1 = a then b else c.2.1, c.2.2)) u
    ?_ ?_ ?_ ?_ c hc
  · intro p hp
    obtain ⟨ix, hx, iz, hz, h⟩ := (hmem p).mp hp
    refine ⟨(ix, a, iz), ⟨hx, ha, hz⟩, by simp [hab], ?_⟩
    simp [h, linc]
  · intro c hc hne
    obtain ⟨x, y, z⟩ := c
    have hy : y = a := by
      by_contra hya
      apply hne
      simp [hya]
    subst hy
    exact (hmem _).mpr ⟨x, hc.1, z, hc.2.2, by simp [linc]⟩
  · intro c hc
    refine ⟨hc.1, ?_, hc.2.2⟩
    show 0 ≤ (if c.2.1 = a then b else c.2.1) ∧ (if c.2.1 = a then b else c.2.1) < sc.Ny
    split_ifs
    · exact hb
    · exact hc.2.1
  · intro c _
    by_cases h : c.2.1 = a <;> simp [h, hab]

theorem haloYlo_apply (sc : Scene) (u : Int → ℚ) (hNy : 3 ≤ sc.Ny) (c : Int × Int × Int)
    (hc : inGrid sc c) :
    haloYlo sc u (linc sc c) = u (linc sc (c.1, if c.2.1 = 0 then 2 else c.2.1, c.2.2)) := by
  rw [haloYlo_eq]
  exact yCopies_apply sc _ 0 2 u (by omega) (by omega) (by omega) (mem_copiesYlo sc) c hc

theorem haloYhi_apply (sc : Scene) (u : Int → ℚ) (hNy : 3 ≤ sc.Ny) (c : Int × Int × Int)
    (hc : inGrid sc c) :
    haloYhi sc u (linc sc c)
      = u (linc sc (c.1, if c.2.1 = sc.Ny - 1 then sc.Ny - 3 else c.2.1, c.2.2)) := by
  rw [haloYhi_eq]
  exact yCopies_apply sc _ (sc.Ny - 1) (sc.Ny - 3) u (by omega) (by omega) (by omega)
    (mem_copiesYhi sc) c hc

theorem foldedCopy_apply (sc : Scene) (u : Int → ℚ) (hNy : 2 ≤ sc.Ny) (c : Int × Int × Int)
    (hc : inGrid sc c) :
    foldedCopy sc u (linc sc c)
      = u (linc sc (c.1, if c.2.1 = sc.Ny - 1 then sc.Ny - 2 else c.2.1, c.2.2)) := by
  rw [foldedCopy_eq]
  exact yCopies_apply sc _ (sc.Ny - 1) (sc.Ny - 2) u (by omega) (by omega) (by omega)
    (mem_copiesFold sc) c hc

/-! ## The halo patch in coordinates -/

theorem haloFlips_apply (sc : Scene) (u : Int → ℚ) (hf : sc.fcc_flag ≠ 2) (hNx : 4 ≤ sc.Nx)
    (hNy : 4 ≤ sc.Ny) (hNz : 4 ≤ sc.Nz) (ix iy iz : Int) (hx : 0 ≤ ix ∧ ix < sc.Nx)
    (hy : 0 ≤ iy ∧ iy < sc.Ny) (hz : 0 ≤ iz ∧ iz < sc.Nz) :
    haloFlips sc u (lin sc ix iy iz)
      = u (lin sc (mirror sc.Nx ix) (mirror sc.Ny iy) (mirror sc.Nz iz)) := by
  unfold haloFlips
  simp only [hf, ne_eq, not_false_eq_true, if_true]
  have hmx := mirror_mem sc.Nx ix (by omega) hx
  have e1 := haloX_apply sc (haloYhi sc (haloYlo sc (haloZ sc u))) hNx (ix, iy, iz) ⟨hx, hy, hz⟩
  have hy2 : 0 ≤ (if iy = sc.Ny - 1 then sc.Ny - 3 else iy)
      ∧ (if iy = sc.Ny - 1 then sc.Ny - 3 else iy) < sc.Ny := by
    split_ifs <;> omega
  have e2 := haloYhi_apply sc (haloYlo sc (haloZ sc u)) (by omega) (mirror sc.Nx ix, iy, iz)
    ⟨hmx, hy, hz⟩
  have e3 := haloYlo_apply sc (haloZ sc u) (by omega)
    (mirror sc.Nx ix, (if iy = sc.Ny - 1 then sc.Ny - 3 else iy), iz) ⟨hmx, hy2, hz⟩
  have hyy : (if (if iy = sc.Ny - 1 then sc.Ny - 3 else iy) = 0 then 2
      else (if iy = sc.Ny - 1 then sc.Ny - 3 else iy)) = mirror sc.Ny iy := by
    unfold mirror
    split_ifs <;> omega
  have hy3 := mirror_mem sc.Ny iy (by omega) hy
  have e4 := haloZ_apply sc u hNz (mirror sc.Nx ix, mirror sc.Ny iy, iz) ⟨hmx, hy3, hz⟩
  simp only [linc] at e1 e2 e3 e4
  rw [hyy] at e3
  rw [e1, e2, e3, e4]

theorem haloPatch_folded_apply (sc : Scene) (u : Int → ℚ) (hf : sc.fcc_flag = 2)
    (hNx : 4 ≤ sc.Nx) (hNy : 3 ≤ sc.Ny) (hNz : 4 ≤ sc.Nz) (ix iy iz : Int)
    (hx : 0 ≤ ix ∧ ix < sc.Nx) (hy : 0 ≤ iy ∧ iy < sc.Ny) (hz : 0 ≤ iz ∧ iz < sc.Nz) :
    haloPatch sc u (lin sc ix iy iz)
      = u (lin sc (mirror sc.Nx ix)
          (if iy = 0 then (if sc.Ny = 3 then 1 else 2)
            else if iy = sc.Ny - 1 then sc.Ny - 2 else iy)
          (mirror sc.Nz iz)) := by
  unfold haloPatch haloFlips
  simp only [hf, if_true, ne_eq, not_true_eq_false, if_false]
  have hmx := mirror_mem sc.Nx ix (by omega) hx
  have e1 := haloX_apply sc (haloYlo sc (haloZ sc (foldedCopy sc u))) hNx (ix, iy, iz)
    ⟨hx, hy, hz⟩
  have e2 := haloYlo_apply sc (haloZ sc (foldedCopy sc u)) hNy (mirror sc.Nx ix, iy, iz)
    ⟨hmx, hy, hz⟩
  have hy2 : 0 ≤ (if iy = 0 then 2 else iy) ∧ (if iy = 0 then 2 else iy) < sc.Ny := by
    split_ifs <;> omega
  have e3 := haloZ_apply sc (foldedCopy sc u) hNz
    (mirror sc.Nx ix, (if iy = 0 then 2 else iy), iz) ⟨hmx, hy2, hz⟩
  have e4 := foldedCopy_apply sc u (by omega)
    (mirror sc.Nx ix, (if iy = 0 then 2 else iy), mirror sc.Nz iz)
    ⟨hmx, hy2, mirror_mem sc.Nz iz (by omega) hz⟩
  have hyy : (if (if iy = 0 then 2 else iy) = sc.Ny - 1 then sc.Ny - 2
      else (if iy = 0 then 2 else iy))
      = (if iy = 0 then (if sc.Ny = 3 then 1 else 2)
          else if iy = sc.Ny - 1 then sc.Ny - 2 else iy) := by
    split_ifs <;> omega
  simp only [linc] at e1 e2 e3 e4
  rw [hyy] at e4
  rw [e1, e2, e3, e4]

theorem haloPatch_offring (sc : Scene) (u : Int → ℚ) (x y z : Int)
    (hx : 1 ≤ x ∧ x < sc.Nx - 1) (hy : 1 ≤ y ∧ y < sc.Ny - 1) (hz : 1 ≤ z ∧ z < sc.Nz - 1) :
    haloPatch sc u (lin sc x y z) = u (lin sc x y z) := by
  have hy' : 0 ≤ y ∧ y < sc.Ny := by omega
  have hz' : 0 ≤ z ∧ z < sc.Nz := by omega
  have fZ : ∀ v, haloZ sc v (lin sc x y z) = v (lin sc x y z) := by
    intro v
    rw [haloZ_eq]
    refine applyCopies_frame _ v _ ?_
    intro p hp he
    obtain ⟨ix, _, iy, hiy, h | h⟩ := (mem_copiesZ sc p).mp hp
    · rw [h] at he
      have := lin_inj sc ix iy 0 x y z hiy (by omega) hy' hz' he
      omega
    · rw [h] at he
      have := lin_inj sc ix iy (sc.Nz - 1) x y z hiy (by omega) hy' hz' he
      omega
  have fX : ∀ v, haloX sc v (lin sc x y z) = v (lin sc x y z) := by
    intro v
    rw [haloX_eq]
    refine applyCopies_frame _ v _ ?_
    intro p hp he
    obtain ⟨iy, hiy, iz, hiz, h | h⟩ := (mem_copiesX sc p).mp hp
    · rw [h] at he
      have := lin_inj sc 0 iy iz x y z hiy hiz hy' hz' he
      omega
    · rw [h] at he
      have := lin_inj sc (sc.Nx - 1) iy iz x y z hiy hiz hy' hz' he
      omega
  have fY : ∀ (L : List (Int × Int)) (a b : Int), (0 ≤ a ∧ a < sc.Ny) → (a = 0 ∨ a = sc.Ny - 1) →
      (∀ p, p ∈ L ↔ ∃ ix, (0 ≤ ix ∧ ix < sc.Nx) ∧ ∃ iz, (0 ≤ iz ∧ iz < sc.Nz) ∧
        p = (lin sc ix a iz, lin sc ix b iz)) →
      ∀ v, applyCopies L v (lin sc x y z) = v (lin sc x y z) := by
    intro L a b ha ha2 hmem v
    refine applyCopies_frame _ v _ ?_
    intro p hp he
    obtain ⟨ix, _, iz, hiz, h⟩ := (hmem p).mp hp
    rw [h] at he
    have := lin_inj sc ix a iz x y z ha hiz hy' hz' he
    omega
  have fYlo : ∀ v, haloYlo sc v (lin sc x y z) = v (lin sc x y z) := by
    intro v
    rw [haloYlo_eq]
    exact fY _ 0 2 (by omega) (Or.inl rfl) (mem_copiesYlo sc) v
  have fYhi : ∀ v, haloYhi sc v (lin sc x y z) = v (lin sc x y z) := by
    intro v
    rw [haloYhi_eq]
    exact fY _ (sc.Ny - 1) (sc.Ny - 3) (by omega) (Or.inr rfl) (mem_copiesYhi sc) v
  have fF : ∀ v, foldedCopy sc v (lin sc x y z) = v (lin sc x y z) := by
    intro v
    rw [foldedCopy_eq]
    exact fY _ (sc.Ny - 1) (sc.Ny - 2) (by omega) (Or.inr rfl) (mem_copiesFold sc) v
  unfold haloPatch haloFlips
  by_cases hf : sc.fcc_flag = 2
  · simp only [hf, if_true, ne_eq, not_true_eq_false, if_false]
    rw [fX, fYlo, fZ, fF]
  · simp only [hf, if_false, ne_eq, not_false_eq_true, if_true]
    rw [fX, fYhi, fYlo, fZ]

/-! ## Frame of the FD-boundary integrator -/

theorem forRange_ind {α : Type} (P : Int → α → Prop) (lo hi : Int) (B : Int → α → α) (x : α)
    (hlo : lo ≤ hi) (h0 : P lo x)
    (hs : ∀ i, lo ≤ i → i < hi → ∀ x, P i x → P (i + 1) (B i x)) :
    P hi (forRange lo hi B x) := by
  have key : ∀ k : Nat, lo + k ≤ hi → P (lo + k) (forRange lo (lo + k) B x) := by
    intro k
    induction k with
    | zero =>
      intro _
      simp only [Nat.cast_zero, add_zero]
      rw [forRange_empty lo lo B x le_rfl]
      exact h0
    | succ k ih =>
      intro hk
      have e : lo + ((k + 1 : Nat) : Int) = (lo + k) + 1 := by push_cast; ring
      rw [e, forRange_succ _ _ _ _ (by omega)]
      exact hs _ (by omega) (by omega) _ (ih (by omega))
  have := key (hi - lo).toNat (by omega)
  have e : lo + (((hi - lo).toNat : Nat) : Int) = hi := by omega
  rwa [e] at this

theorem fdStateAdvance_frame (sc : Scene) (vh1nb : Int → ℚ) (nb k : Int) (du : ℚ)
    (s : (Int → ℚ) × (Int → ℚ)) (idx : Int)
    (h : ∀ m, 0 ≤ m → m < sc.Mb k → nb * MMb + m ≠ idx) :
    (fdStateAdvance sc vh1nb nb k du s).1 idx = s.1 idx
      ∧ (fdStateAdvance sc vh1nb nb k du s).2 idx = s.2 idx := by
  unfold fdStateAdvance
  refine forRange_inv (fun w => w.1 idx = s.1 idx ∧ w.2 idx = s.2 idx) 0 (sc.Mb k) _ ?_ s
    ⟨rfl, rfl⟩
  intro m h1 h2 w hw
  have hne := h m h1 h2
  constructor
  · show Function.update w.1 (nb * MMb + m) _ idx = s.1 idx
    rw [Function.update_noteq (Ne.symm hne)]
    exact hw.1
  · show Function.update w.2 (nb * MMb + m) _ idx = s.2 idx
    rw [Function.update_noteq (Ne.symm hne)]
    exact hw.2

theorem fdNode_u0b_other (sc : Scene) (u2b : Int → ℚ) (j : Int) (s : FdBufs) (i : Int)
    (h : i ≠ j) : (fdNode sc u2b j s).u0b i = s.u0b i := by
  unfold fdNode
  exact Function.update_noteq h _ _

theorem fdNode_u0b_base (sc : Scene) (u2b : Int → ℚ) (j : Int) (s : FdBufs)
    (hM : sc.Mb (sc.mat_bnl j) ≤ 0) :
    (fdNode sc u2b j s).u0b j
      = (s.u0b j + sc.lo2 * sc.ssaf_bnl j * sc.mat_beta (sc.mat_bnl j) * u2b j)
        / (1 + sc.lo2 * sc.ssaf_bnl j * sc.mat_beta (sc.mat_bnl j)) := by
  unfold fdNode fdBranchCorrect
  simp only [Function.update_same]
  rw [forRange_empty _ _ _ _ hM]

theorem fdNode_aux_frame (sc : Scene) (u2b : Int → ℚ) (j : Int) (s : FdBufs) (idx : Int)
    (h : ∀ m, 0 ≤ m → m < sc.Mb (sc.mat_bnl j) → j * MMb + m ≠ idx) :
    (fdNode sc u2b j s).vh1 idx = s.vh1 idx ∧ (fdNode sc u2b j s).gh1 idx = s.gh1 idx := by
  unfold fdNode
  exact fdStateAdvance_frame sc _ j _ _ (s.vh1, s.gh1) idx h

/-! ## Air pass in coordinates -/

theorem foldl_product {α β γ : Type} (l1 : List α) (l2 : List β) (g : γ → α × β → γ) (x : γ) :
    (l1.product l2).foldl g x
      = l1.foldl (fun acc a => l2.foldl (fun acc b => g acc (a, b)) acc) x := by
  induction l1 generalizing x with
  | nil => rfl
  | cons a l ih =>
    have e : (a :: l).product l2 = List.map (fun b => (a, b)) l2 ++ l.product l2 :=
      List.product_cons a l l2
    rw [e, List.foldl_append, List.foldl_map, ih]
    rfl

theorem forRange3_eq_foldl {α : Type} (a b c d e f : Int) (body : Int × Int × Int → α → α)
    (x : α) :
    forRange a b (fun ix u => forRange c d (fun iy u => forRange e f (fun iz u =>
        body (ix, iy, iz) u) u) u) x
      = ((rangeInt a b).product ((rangeInt c d).product (rangeInt e f))).foldl
          (fun u cell => body cell u) x := by
  rw [foldl_product, forRange_eq_foldl]
  congr 1
  funext acc ix
  rw [foldl_product, forRange_eq_foldl]
  congr 1
  funext acc iy
  rw [forRange_eq_foldl]

theorem rangeInt_nodup (lo hi : Int) : (rangeInt lo hi).Nodup := by
  unfold rangeInt
  refine List.Nodup.map ?_ (List.nodup_range _)
  intro a b h
  simp only at h
  omega

theorem mem_interiorCells (sc : Scene) (c : Int × Int × Int) :
    c ∈ interiorCells sc ↔ interior sc c := by
  obtain ⟨x, y, z⟩ := c
  unfold interiorCells interior
  simp only [List.pair_mem_product, mem_rangeInt]

theorem interiorCells_nodup (sc : Scene) : (interiorCells sc).Nodup :=
  List.Nodup.product (rangeInt_nodup _ _)
    (List.Nodup.product (rangeInt_nodup _ _) (rangeInt_nodup _ _))

/-- A fold of steps `S i` that only touch their own cell `idx i`, over a duplicate-free
list with pairwise distinct cells, applies each step once to the original cell value. -/
theorem foldl_own_cell {ι : Type} (idx : ι → Int) (S : ι → (Int → ℚ) → (Int → ℚ))
    (V : ι → ℚ → ℚ)
    (hS1 : ∀ i u j, j ≠ idx i → S i u j = u j)
    (hS2 : ∀ i u, S i u (idx i) = V i (u (idx i))) (L : List ι) :
    ∀ (w : Int → ℚ), L.Nodup → (∀ a ∈ L, ∀ b ∈ L, idx a = idx b → a = b) →
      (∀ c ∈ L, (L.foldl (fun u i => S i u) w) (idx c) = V c (w (idx c)))
        ∧ (∀ j, (∀ c ∈ L, idx c ≠ j) → (L.foldl (fun u i => S i u) w) j = w j) := by
  induction L with
  | nil =>
    intro w _ _
    exact ⟨fun c hc => absurd hc (List.not_mem_nil _), fun j _ => rfl⟩
  | cons a L ih =>
    intro w hnd hinj
    have hnd' := (List.nodup_cons.mp hnd)
    have ih' := ih (S a w) hnd'.2
      (fun x hx y hy => hinj x (List.mem_cons_of_mem _ hx) y (List.mem_cons_of_mem _ hy))
    simp only [List.foldl_cons]
    constructor
    · intro c hc
      rcases List.mem_cons.mp hc with h | h
      · subst h
        rw [ih'.2 (idx c) (fun d hd he => by
          have := hinj d (List.mem_cons_of_mem _ hd) c (List.mem_cons_self _ _) he
          subst this
          exact hnd'.1 hd)]
        exact hS2 c w
      · rw [ih'.1 c h, hS1 a w (idx c) (fun he => by
          have := hinj c (List.mem_cons_of_mem _ h) a (List.mem_cons_self _ _) he
          subst this
          exact hnd'.1 h)]
    · intro j hj
      rw [ih'.2 j (fun c hc => hj c (List.mem_cons_of_mem _ hc)),
        hS1 a w j (Ne.symm (hj a (List.mem_cons_self _ _)))]

theorem airCart_eq_foldl (sc : Scene) (r w : Int → ℚ) :
    airCart sc r w
      = (interiorCells sc).foldl (fun u c => airCartCell sc r (linc sc c) u) w :=
  forRange3_eq_foldl 1 (sc.Nx - 1) 1 (sc.Ny - 1) 1 (sc.Nz - 1)
    (fun c u => airCartCell sc r (linc sc c) u) w

theorem interior_inGrid (sc : Scene) (c : Int × Int × Int) (h : interior sc c) : inGrid sc c := by
  unfold interior at h
  unfold inGrid
  omega

/-- The cartesian air pass: an interior cell whose mask bit is clear receives the
stencil value, every other cell of `u0` is left as it was. -/
theorem airCart_apply (sc : Scene) (r w : Int → ℚ) :
    (∀ c, interior sc c → airCart sc r w (linc sc c)
        = if maskClear sc (linc sc c) then airCartVal sc r w (linc sc c) else w (linc sc c))
      ∧ (∀ j, (∀ c, interior sc c → linc sc c ≠ j) → airCart sc r w j = w j) := by
  have h := foldl_own_cell (fun c => linc sc c) (fun c u => airCartCell sc r (linc sc c) u)
    (fun c v => if maskClear sc (linc sc c) then
        sc.a1 * r (linc sc c) - v + sc.a2 * r (linc sc c + sc.Nz * sc.Ny)
          + sc.a2 * r (linc sc c - sc.Nz * sc.Ny) + sc.a2 * r (linc sc c + sc.Nz)
          + sc.a2 * r (linc sc c - sc.Nz) + sc.a2 * r (linc sc c + 1)
          + sc.a2 * r (linc sc c - 1)
      else v)
    (by
      intro c u j hj
      simp only [airCartCell]
      split_ifs
      · exact Function.update_noteq hj _ _
      · rfl)
    (by
      intro c u
      simp only [airCartCell]
      split_ifs
      · simp only [Function.update_same]
      · rfl)
    (interiorCells sc) w (interiorCells_nodup sc)
    (fun a ha b hb he => linc_inj sc a b
      (interior_inGrid sc a ((mem_interiorCells sc a).mp ha))
      (interior_inGrid sc b ((mem_interiorCells sc b).mp hb)) he)
  rw [airCart_eq_foldl]
  constructor
  · intro c hc
    rw [h.1 c ((mem_interiorCells sc c).mpr hc)]
    rfl
  · intro j hj
    exact h.2 j (fun c hc => hj c ((mem_interiorCells sc c).mp hc))

theorem mirror_into_interior (N c : Int) (hN : 4 ≤ N) (h : 0 ≤ c ∧ c < N) :
    1 ≤ mirror N c ∧ mirror N c < N - 1 := by
  unfold mirror; split_ifs <;> omega

theorem GET_BIT_eq (v p : Nat) : GET_BIT v p = if v.testBit p then 1 else 0 := by
  unfold GET_BIT
  rw [Nat.and_one_is_mod]
  simp only [Nat.testBit, Nat.one_and_eq_mod_two]
  rcases Nat.mod_two_eq_zero_or_one (v >>> p) with h | h <;> simp [h]

/-- The air loops' test is the negation of bit `ii % 8` of the byte `bn_mask[ii >> 3]`. -/
theorem maskClear_eq (sc : Scene) (ii : Int) :
    maskClear sc ii = !(sc.bn_mask (ii >>> 3)).testBit (ii % 8).toNat := by
  unfold maskClear
  rw [GET_BIT_eq, show (256 : Nat) = 2 ^ 8 from rfl, Nat.testBit_mod_two_pow]
  have hp : (ii % 8).toNat < 8 := by omega
  simp only [hp, decide_True, Bool.true_and]
  cases (sc.bn_mask (ii >>> 3)).testBit (ii % 8).toNat <;> rfl

/-- The cartesian air pass leaves every index that is not an unmasked interior cell. -/
theorem airCart_frame (sc : Scene) (r w : Int → ℚ) (j : Int)
    (h : ∀ c, interior sc c → linc sc c = j → maskClear sc j = false) :
    airCart sc r w j = w j := by
  by_cases hex : ∃ c, interior sc c ∧ linc sc c = j
  · obtain ⟨c, hc, hj⟩ := hex
    have hm := h c hc hj
    rw [← hj] at hm ⊢
    rw [(airCart_apply sc r w).1 c hc, hm]
    rfl
  · exact (airCart_apply sc r w).2 j (fun c hc hj => hex ⟨c, hc, hj⟩)

/-! ## The FCC air pass in coordinates -/

theorem forRange_left {α : Type} (lo hi : Int) (B : Int → α → α) (x : α) (h : lo < hi) :
    forRange lo hi B x = forRange (lo + 1) hi B (B lo x) := by
  unfold forRange
  have e : (hi - lo).toNat = (hi - (lo + 1)).toNat + 1 := by omega
  rw [e, List.range_succ_eq_map, List.foldl_cons, List.foldl_map]
  simp only [Nat.cast_zero, add_zero]
  congr 1
  funext acc i
  congr 1
  push_cast
  ring

/-- A stride-one counting loop is a `for` loop. -/
theorem whileLt_one {σ : Type} (hi : Int) (body : Int → σ → σ) :
    ∀ (fuel : Nat) (iz : Int) (s : σ), (hi - iz).toNat ≤ fuel →
      whileLt fuel iz 1 hi body s = forRange iz hi body s := by
  intro fuel
  induction fuel with
  | zero =>
    intro iz s h
    rw [forRange_empty iz hi body s (by omega)]
    rfl
  | succ f ih =>
    intro iz s h
    by_cases hlt : iz < hi
    · rw [forRange_left iz hi body s hlt, ← ih (iz + 1) (body iz s) (by omega)]
      simp only [whileLt, hlt, if_true]
    · rw [forRange_empty iz hi body s (by omega)]
      simp only [whileLt, hlt, if_false]

/-- A stride-two counting loop from `a` is a `for` loop that skips the indices of the
other parity. -/
theorem whileLt_two {σ : Type} (hi : Int) (body : Int → σ → σ) :
    ∀ (fuel : Nat) (a : Int) (s : σ), (hi - a).toNat ≤ fuel →
      whileLt fuel a 2 hi body s
        = forRange a hi (fun iz s => if (iz - a) % 2 = 0 then body iz s else s) s := by
  intro fuel
  induction fuel with
  | zero =>
    intro a s h
    rw [forRange_empty a hi _ s (by omega)]
    rfl
  | succ f ih =>
    intro a s h
    by_cases hlt : a < hi
    · have e : whileLt (f + 1) a 2 hi body s = whileLt f (a + 2) 2 hi body (body a s) := by
        simp only [whileLt, hlt, if_true]
      rw [e, ih (a + 2) (body a s) (by omega), forRange_left a hi _ s hlt]
      simp only [sub_self, EuclideanDomain.zero_mod, if_true]
      by_cases hlt2 : a + 1 < hi
      · rw [forRange_left (a + 1) hi _ _ hlt2]
        have h1 : ¬ (a + 1 - a) % 2 = 0 := by omega
        simp only [h1, if_false]
        rw [show a + 1 + 1 = a + 2 by ring]
        refine (forRange_congr _ _ _ _ ?_ _).symm
        intro i _ _ x
        have : ((i - a) % 2 = 0) ↔ ((i - (a + 2)) % 2 = 0) := by omega
        simp only [this]
      · rw [forRange_empty (a + 1) hi _ _ (by omega), forRange_empty (a + 2) hi _ _ (by omega)]
    · rw [forRange_empty a hi _ s (by omega)]
      simp only [whileLt, hlt, if_false]

/-- The innermost FCC loop over `iz` as a `for` loop over all interior `iz` with the
checkerboard test made explicit. -/
theorem airFcc_inner (sc : Scene) (ix iy : Int) (body : Int → (Int → ℚ) → (Int → ℚ))
    (w : Int → ℚ) :
    whileLt (sc.Nz - 1 - (if sc.fcc_flag = 1 then 2 - (ix + iy) % 2 else 1)).toNat
        (if sc.fcc_flag = 1 then 2 - (ix + iy) % 2 else 1)
        (if sc.fcc_flag = 1 then 2 else 1) (sc.Nz - 1) body w
      = forRange 1 (sc.Nz - 1)
          (fun iz u => if fccActive sc (ix, iy, iz) then body iz u else u) w := by
  by_cases hf : sc.fcc_flag = 1
  · simp only [hf, if_true, fccActive, forall_true_left]
    rw [whileLt_two _ _ _ _ _ le_rfl]
    rcases Int.emod_two_eq_zero_or_one (ix + iy) with hp | hp
    · rw [hp]
      by_cases hlt : (1 : Int) < sc.Nz - 1
      · rw [forRange_left 1 _ _ _ hlt]
        have h1 : ¬ (ix + iy + 1) % 2 = 0 := by omega
        simp only [h1, if_false]
        refine forRange_congr _ _ _ _ ?_ _
        intro i _ _ x
        have : ((i - (2 - 0)) % 2 = 0) ↔ ((ix + iy + i) % 2 = 0) := by omega
        simp only [this]
      · rw [forRange_empty 1 _ _ _ (by omega), forRange_empty (2 - 0) _ _ _ (by omega)]
    · rw [hp]
      refine forRange_congr _ _ _ _ ?_ _
      intro i _ _ x
      have : ((i - (2 - 1)) % 2 = 0) ↔ ((ix + iy + i) % 2 = 0) := by omega
      simp only [this]
  · simp only [hf, if_false, fccActive, false_implies, if_true]
    exact whileLt_one _ _ _ _ _ le_rfl

theorem airFcc_eq_foldl (sc : Scene) (r w : Int → ℚ) :
    airFcc sc r w
      = (interiorCells sc).foldl
          (fun u c => if fccActive sc c then airFccCell sc r (linc sc c) u else u) w := by
  unfold airFcc
  simp only [airFcc_inner]
  exact forRange3_eq_foldl 1 (sc.Nx - 1) 1 (sc.Ny - 1) 1 (sc.Nz - 1)
    (fun c u => if fccActive sc c then airFccCell sc r (linc sc c) u else u) w

/-- The FCC air pass: a visited interior cell whose mask bit is clear receives the
stencil value, every other cell of `u0` is left as it was. -/
theorem airFcc_apply (sc : Scene) (r w : Int → ℚ) :
    (∀ c, interior sc c → airFcc sc r w (linc sc c)
        = if fccActive sc c ∧ maskClear sc (linc sc c) = true
          then airFccVal sc r w (linc sc c) else w (linc sc c))
      ∧ (∀ j, (∀ c, interior sc c → linc sc c ≠ j) → airFcc sc r w j = w j) := by
  have h := foldl_own_cell (fun c => linc sc c)
    (fun c u => if fccActive sc c then airFccCell sc r (linc sc c) u else u)
    (fun c v => if fccActive sc c ∧ maskClear sc (linc sc c) = true then
        airFccVal sc r (fun _ => v) (linc sc c)
      else v)
    (by
      intro c u j hj
      by_cases ha : fccActive sc c
      · simp only [ha, if_true, airFccCell]
        split_ifs
        · exact Function.update_noteq hj _ _
        · rfl
      · simp only [ha, if_false])
    (by
      intro c u
      by_cases ha : fccActive sc c
      · simp only [ha, if_true, airFccCell, true_and]
        split_ifs
        · simp only [Function.update_same, airFccVal]
          ring
        · rfl
      · simp only [ha, if_false, false_and])
    (interiorCells sc) w (interiorCells_nodup sc)
    (fun a ha b hb he => linc_inj sc a b
      (interior_inGrid sc a ((mem_interiorCells sc a).mp ha))
      (interior_inGrid sc b ((mem_interiorCells sc b).mp hb)) he)
  rw [airFcc_eq_foldl]
  constructor
  · intro c hc
    rw [h.1 c ((mem_interiorCells sc c).mpr hc)]
    rfl
  · intro j hj
    exact h.2 j (fun c hc => hj c ((mem_interiorCells sc c).mp hc))

/-- The FCC air pass leaves every index that is not a visited, unmasked interior cell. -/
theorem airFcc_frame (sc : Scene) (r w : Int → ℚ) (j : Int)
    (h : ∀ c, interior sc c → linc sc c = j → fccActive sc c → maskClear sc j = false) :
    airFcc sc r w j = w j := by
  by_cases hex : ∃ c, interior sc c ∧ linc sc c = j
  · obtain ⟨c, hc, hj⟩ := hex
    have hm := h c hc hj
    rw [← hj] at hm ⊢
    rw [(airFcc_apply sc r w).1 c hc]
    by_cases ha : fccActive sc c
    · rw [hm ha]
      simp
    · simp [ha]
  · exact (airFcc_apply sc r w).2 j (fun c hc hj => hex ⟨c, hc, hj⟩)

/-! ## Kernighan's loop counts the set bits -/

theorem GET_BIT_zero (v : Nat) : GET_BIT v 0 = v % 2 := by
  unfold GET_BIT
  rw [Nat.shiftRight_zero, Nat.and_one_is_mod]

theorem GET_BIT_succ (v j : Nat) : GET_BIT v (j + 1) = GET_BIT (v / 2) j := by
  unfold GET_BIT
  rw [Nat.shiftRight_succ_inside]

theorem GET_BIT_le_one (v j : Nat) : GET_BIT v j ≤ 1 := by
  unfold GET_BIT
  rw [Nat.and_one_is_mod]
  omega

theorem bitCount_zero (v : Nat) : bitCount 0 v = 0 := rfl

theorem bitCount_succ (n v : Nat) : bitCount (n + 1) v = v % 2 + bitCount n (v / 2) := by
  unfold bitCount
  rw [List.range_succ_eq_map, List.map_cons, List.sum_cons, List.map_map, GET_BIT_zero]
  congr 2
  refine List.map_congr_left ?_
  intro j _
  exact GET_BIT_succ v j

/-- Counting one more bit position adds that bit. -/
theorem bitCount_snoc (n v : Nat) : bitCount (n + 1) v = bitCount n v + GET_BIT v n := by
  unfold bitCount
  rw [List.range_succ, List.map_append, List.sum_append]
  simp

theorem bitCount_le (n v : Nat) : bitCount n v ≤ n := by
  induction n with
  | zero => exact le_of_eq (bitCount_zero v)
  | succ n ih =>
    rw [bitCount_snoc]
    have := GET_BIT_le_one v n
    omega

theorem land_pred_odd (m : Nat) : (2 * m + 1) &&& (2 * m + 1 - 1) = 2 * m := by
  have e1 : 2 * m + 1 = Nat.bit true m := by simp [Nat.bit_val]
  have e2 : 2 * m + 1 - 1 = Nat.bit false m := by simp [Nat.bit_val]
  rw [e2, e1, Nat.land_bit, Nat.and_self]
  simp [Nat.bit_val]

theorem land_pred_even (m : Nat) (hm : m ≠ 0) :
    (2 * m) &&& (2 * m - 1) = 2 * (m &&& (m - 1)) := by
  have e1 : 2 * m = Nat.bit false m := by simp [Nat.bit_val]
  have e2 : 2 * m - 1 = Nat.bit true (m - 1) := by
    simp only [Nat.bit_val, Bool.toNat_true]
    omega
  rw [e2, e1, Nat.land_bit]
  simp [Nat.bit_val]

/-- Clearing the lowest set bit of a non-zero `v` removes exactly one set bit. -/
theorem bitCount_clear_lowest (n : Nat) :
    ∀ v, v < 2 ^ n → v ≠ 0 → bitCount n (v &&& (v - 1)) + 1 = bitCount n v := by
  induction n with
  | zero =>
    intro v hv h0
    simp only [pow_zero, Nat.lt_one_iff] at hv
    exact absurd hv h0
  | succ n ih =>
    intro v hv h0
    rw [bitCount_succ, bitCount_succ]
    rcases Nat.mod_two_eq_zero_or_one v with hp | hp
    · have hm : v / 2 ≠ 0 := by omega
      have hv2 : v = 2 * (v / 2) := by omega
      have hlt : v / 2 < 2 ^ n := by
        rw [pow_succ] at hv
        omega
      have e : v &&& (v - 1) = 2 * (v / 2 &&& (v / 2 - 1)) := by
        conv_lhs => rw [hv2]
        exact land_pred_even _ hm
      rw [e, hp, Nat.mul_mod_right, Nat.mul_div_cancel_left _ (by decide : 0 < 2)]
      have := ih (v / 2) hlt hm
      omega
    · have hv2 : v = 2 * (v / 2) + 1 := by omega
      have e : v &&& (v - 1) = 2 * (v / 2) := by
        conv_lhs => rw [hv2]
        exact land_pred_odd _
      rw [e, hp, Nat.mul_mod_right, Nat.mul_div_cancel_left _ (by decide : 0 < 2)]
      omega

theorem bitCount_of_zero (n : Nat) : bitCount n 0 = 0 := by
  induction n with
  | zero => rfl
  | succ n ih => rw [bitCount_succ, Nat.zero_div, ih]

theorem popcountLoop_zero (k : Nat) : popcountLoop 0 k = k := by
  rw [popcountLoop]
  simp

theorem popcountLoop_step (v k : Nat) (h : v ≠ 0) :
    popcountLoop v k = popcountLoop (kernighanStep (v, k)).1 (kernighanStep (v, k)).2 := by
  rw [popcountLoop]
  simp only [h, dite_false, kernighanStep]

/-- Kernighan's loop adds the number of set bits of `v` to the counter. -/
theorem popcountLoop_eq (n : Nat) :
    ∀ (m v k : Nat), v ≤ m → v < 2 ^ n → popcountLoop v k = k + bitCount n v := by
  intro m
  induction m with
  | zero =>
    intro v k hv _
    have : v = 0 := by omega
    subst this
    rw [popcountLoop_zero, bitCount_of_zero]
    rfl
  | succ m ih =>
    intro v k hv hlt
    by_cases h0 : v = 0
    · subst h0
      rw [popcountLoop_zero, bitCount_of_zero]
      rfl
    · have hle : v &&& (v - 1) ≤ v - 1 := Nat.and_le_right
      rw [popcountLoop_step v k h0]
      simp only [kernighanStep]
      rw [ih (v &&& (v - 1)) (k + 1) (by omega) (by omega)]
      have := bitCount_clear_lowest n v hlt h0
      omega

theorem popcountLoop_bitCount (v : Nat) (hv : v < 65536) :
    popcountLoop v 0 = bitCount 16 v := by
  rw [popcountLoop_eq 16 v v 0 le_rfl hv, Nat.zero_add]

/-- The loop state after `bitCount n v` passes has `v = 0`, and not earlier. -/
theorem kernighan_iterate (n : Nat) :
    ∀ (m v k : Nat), v ≤ m → v < 2 ^ n →
      kernighanStep^[bitCount n v] (v, k) = (0, k + bitCount n v)
        ∧ ∀ i, i < bitCount n v → (kernighanStep^[i] (v, k)).1 ≠ 0 := by
  intro m
  induction m with
  | zero =>
    intro v k hv _
    have : v = 0 := by omega
    subst this
    rw [bitCount_of_zero]
    exact ⟨rfl, fun i hi => absurd hi (Nat.not_lt_zero i)⟩
  | succ m ih =>
    intro v k hv hlt
    by_cases h0 : v = 0
    · subst h0
      rw [bitCount_of_zero]
      exact ⟨rfl, fun i hi => absurd hi (Nat.not_lt_zero i)⟩
    · have hle : v &&& (v - 1) ≤ v - 1 := Nat.and_le_right
      have hc := bitCount_clear_lowest n v hlt h0
      have ih' := ih (v &&& (v - 1)) (k + 1) (by omega) (by omega)
      rw [← hc]
      constructor
      · rw [Function.iterate_succ_apply]
        show kernighanStep^[bitCount n (v &&& (v - 1))] (v &&& (v - 1), k + 1) = _
        rw [ih'.1]
        congr 1
        omega
      · intro i hi
        cases i with
        | zero => exact h0
        | succ i =>
          rw [Function.iterate_succ_apply]
          exact ih'.2 i (by omega)

/-! ## Single-cell passes over a node list -/

/-- A `for` loop of steps `S i` that only touch their own cell `idx i`, with pairwise
distinct cells, applies each step once to the original cell value. -/
theorem forRange_own_cell (lo hi : Int) (idx : Int → Int) (S : Int → (Int → ℚ) → (Int → ℚ))
    (V : Int → ℚ → ℚ)
    (hS1 : ∀ i u j, j ≠ idx i → S i u j = u j)
    (hS2 : ∀ i u, S i u (idx i) = V i (u (idx i))) (w : Int → ℚ)
    (hinj : ∀ a b, lo ≤ a → a < hi → lo ≤ b → b < hi → idx a = idx b → a = b) :
    (∀ c, lo ≤ c → c < hi → forRange lo hi S w (idx c) = V c (w (idx c)))
      ∧ (∀ j, (∀ c, lo ≤ c → c < hi → idx c ≠ j) → forRange lo hi S w j = w j) := by
  have h := foldl_own_cell idx S V hS1 hS2 (rangeInt lo hi) w (rangeInt_nodup lo hi)
    (fun a ha b hb he => hinj a b ((mem_rangeInt _ _ _).mp ha).1 ((mem_rangeInt _ _ _).mp ha).2
      ((mem_rangeInt _ _ _).mp hb).1 ((mem_rangeInt _ _ _).mp hb).2 he)
  rw [forRange_eq_foldl]
  constructor
  · intro c h1 h2
    exact h.1 c ((mem_rangeInt _ _ _).mpr ⟨h1, h2⟩)
  · intro j hj
    exact h.2 j (fun c hc => hj c ((mem_rangeInt _ _ _).mp hc).1 ((mem_rangeInt _ _ _).mp hc).2)

/-- The cartesian rigid pass at a node of a duplicate-free node list, and its frame. -/
theorem rigidCart_apply (sc : Scene) (r w : Int → ℚ)
    (hinj : ∀ a b, 0 ≤ a → a < sc.Nb → 0 ≤ b → b < sc.Nb →
      sc.bn_ixyz a = sc.bn_ixyz b → a = b) :
    (∀ nb, 0 ≤ nb → nb < sc.Nb → rigidCart sc r w (sc.bn_ixyz nb)
        = (2 - sc.sl2 * (popcountLoop (sc.adj_bn nb % 65536) 0 : ℚ)) * r (sc.bn_ixyz nb)
          - w (sc.bn_ixyz nb)
          + sc.a2 * ((GET_BIT (sc.adj_bn nb % 65536) 0 : ℚ) * r (sc.bn_ixyz nb + sc.Nz * sc.Ny)
            + (GET_BIT (sc.adj_bn nb % 65536) 1 : ℚ) * r (sc.bn_ixyz nb - sc.Nz * sc.Ny)
            + (GET_BIT (sc.adj_bn nb % 65536) 2 : ℚ) * r (sc.bn_ixyz nb + sc.Nz)
            + (GET_BIT (sc.adj_bn nb % 65536) 3 : ℚ) * r (sc.bn_ixyz nb - sc.Nz)
            + (GET_BIT (sc.adj_bn nb % 65536) 4 : ℚ) * r (sc.bn_ixyz nb + 1)
            + (GET_BIT (sc.adj_bn nb % 65536) 5 : ℚ) * r (sc.bn_ixyz nb - 1)))
      ∧ (∀ j, (∀ nb, 0 ≤ nb → nb < sc.Nb → sc.bn_ixyz nb ≠ j) → rigidCart sc r w j = w j) := by
  unfold rigidCart
  refine forRange_own_cell 0 sc.Nb sc.bn_ixyz _
    (fun nb v => (2 - sc.sl2 * (popcountLoop (sc.adj_bn nb % 65536) 0 : ℚ)) * r (sc.bn_ixyz nb)
          - v
          + sc.a2 * ((GET_BIT (sc.adj_bn nb % 65536) 0 : ℚ) * r (sc.bn_ixyz nb + sc.Nz * sc.Ny)
            + (GET_BIT (sc.adj_bn nb % 65536) 1 : ℚ) * r (sc.bn_ixyz nb - sc.Nz * sc.Ny)
            + (GET_BIT (sc.adj_bn nb % 65536) 2 : ℚ) * r (sc.bn_ixyz nb + sc.Nz)
            + (GET_BIT (sc.adj_bn nb % 65536) 3 : ℚ) * r (sc.bn_ixyz nb - sc.Nz)
            + (GET_BIT (sc.adj_bn nb % 65536) 4 : ℚ) * r (sc.bn_ixyz nb + 1)
            + (GET_BIT (sc.adj_bn nb % 65536) 5 : ℚ) * r (sc.bn_ixyz nb - 1)))
    (fun i u j hj => Function.update_noteq hj _ _)
    (fun i u => by
      simp only [Function.update_same]
      ring) w hinj

/-- The FCC rigid pass at a node of a duplicate-free node list, and its frame. -/
theorem rigidFcc_apply (sc : Scene) (r w : Int → ℚ)
    (hinj : ∀ a b, 0 ≤ a → a < sc.Nb → 0 ≤ b → b < sc.Nb →
      sc.bn_ixyz a = sc.bn_ixyz b → a = b) :
    (∀ nb, 0 ≤ nb → nb < sc.Nb → rigidFcc sc r w (sc.bn_ixyz nb)
        = (2 - sc.sl2 * (popcountLoop (sc.adj_bn nb % 65536) 0 : ℚ)) * r (sc.bn_ixyz nb)
          - w (sc.bn_ixyz nb)
          + sc.a2 * (
            (GET_BIT (sc.adj_bn nb % 65536) 0 : ℚ) * r (sc.bn_ixyz nb + sc.Nz * sc.Ny + sc.Nz)
            + (GET_BIT (sc.adj_bn nb % 65536) 1 : ℚ) * r (sc.bn_ixyz nb - sc.Nz * sc.Ny - sc.Nz)
            + (GET_BIT (sc.adj_bn nb % 65536) 2 : ℚ) * r (sc.bn_ixyz nb + sc.Nz + 1)
            + (GET_BIT (sc.adj_bn nb % 65536) 3 : ℚ) * r (sc.bn_ixyz nb - sc.Nz - 1)
            + (GET_BIT (sc.adj_bn nb % 65536) 4 : ℚ) * r (sc.bn_ixyz nb + sc.Nz * sc.Ny + 1)
            + (GET_BIT (sc.adj_bn nb % 65536) 5 : ℚ) * r (sc.bn_ixyz nb - sc.Nz * sc.Ny - 1)
            + (GET_BIT (sc.adj_bn nb % 65536) 6 : ℚ) * r (sc.bn_ixyz nb + sc.Nz * sc.Ny - sc.Nz)
            + (GET_BIT (sc.adj_bn nb % 65536) 7 : ℚ) * r (sc.bn_ixyz nb - sc.Nz * sc.Ny + sc.Nz)
            + (GET_BIT (sc.adj_bn nb % 65536) 8 : ℚ) * r (sc.bn_ixyz nb + sc.Nz - 1)
            + (GET_BIT (sc.adj_bn nb % 65536) 9 : ℚ) * r (sc.bn_ixyz nb - sc.Nz + 1)
            + (GET_BIT (sc.adj_bn nb % 65536) 10 : ℚ) * r (sc.bn_ixyz nb + sc.Nz * sc.Ny - 1)
            + (GET_BIT (sc.adj_bn nb % 65536) 11 : ℚ) * r (sc.bn_ixyz nb - sc.Nz * sc.Ny + 1)))
      ∧ (∀ j, (∀ nb, 0 ≤ nb → nb < sc.Nb → sc.bn_ixyz nb ≠ j) → rigidFcc sc r w j = w j) := by
  unfold rigidFcc
  refine forRange_own_cell 0 sc.Nb sc.bn_ixyz _
    (fun nb v => (2 - sc.sl2 * (popcountLoop (sc.adj_bn nb % 65536) 0 : ℚ)) * r (sc.bn_ixyz nb)
          - v
          + sc.a2 * (
            (GET_BIT (sc.adj_bn nb % 65536) 0 : ℚ) * r (sc.bn_ixyz nb + sc.Nz * sc.Ny + sc.Nz)
            + (GET_BIT (sc.adj_bn nb % 65536) 1 : ℚ) * r (sc.bn_ixyz nb - sc.Nz * sc.Ny - sc.Nz)
            + (GET_BIT (sc.adj_bn nb % 65536) 2 : ℚ) * r (sc.bn_ixyz nb + sc.Nz + 1)
            + (GET_BIT (sc.adj_bn nb % 65536) 3 : ℚ) * r (sc.bn_ixyz nb - sc.Nz - 1)
            + (GET_BIT (sc.adj_bn nb % 65536) 4 : ℚ) * r (sc.bn_ixyz nb + sc.Nz * sc.Ny + 1)
            + (GET_BIT (sc.adj_bn nb % 65536) 5 : ℚ) * r (sc.bn_ixyz nb - sc.Nz * sc.Ny - 1)
            + (GET_BIT (sc.adj_bn nb % 65536) 6 : ℚ) * r (sc.bn_ixyz nb + sc.Nz * sc.Ny - sc.Nz)
            + (GET_BIT (sc.adj_bn nb % 65536) 7 : ℚ) * r (sc.bn_ixyz nb - sc.Nz * sc.Ny + sc.Nz)
            + (GET_BIT (sc.adj_bn nb % 65536) 8 : ℚ) * r (sc.bn_ixyz nb + sc.Nz - 1)
            + (GET_BIT (sc.adj_bn nb % 65536) 9 : ℚ) * r (sc.bn_ixyz nb - sc.Nz + 1)
            + (GET_BIT (sc.adj_bn nb % 65536) 10 : ℚ) * r (sc.bn_ixyz nb + sc.Nz * sc.Ny - 1)
            + (GET_BIT (sc.adj_bn nb % 65536) 11 : ℚ) * r (sc.bn_ixyz nb - sc.Nz * sc.Ny + 1)))
    (fun i u j hj => Function.update_noteq hj _ _)
    (fun i u => by
      simp only [Function.update_same]
      ring) w hinj

/-- The ABC loss at a node of a duplicate-free node list, and its frame. -/
theorem abcLoss_apply (sc : Scene) (u2ba w : Int → ℚ)
    (hinj : ∀ a b, 0 ≤ a → a < sc.Nba → 0 ≤ b → b < sc.Nba →
      sc.bna_ixyz a = sc.bna_ixyz b → a = b) :
    (∀ nb, 0 ≤ nb → nb < sc.Nba → abcLoss sc u2ba w (sc.bna_ixyz nb)
        = (w (sc.bna_ixyz nb) + sc.l * (sc.Q_bna nb : ℚ) * u2ba nb)
          / (1 + sc.l * (sc.Q_bna nb : ℚ)))
      ∧ (∀ j, (∀ nb, 0 ≤ nb → nb < sc.Nba → sc.bna_ixyz nb ≠ j) → abcLoss sc u2ba w j = w j) := by
  unfold abcLoss
  refine forRange_own_cell 0 sc.Nba sc.bna_ixyz _
    (fun nb v => (v + sc.l * (sc.Q_bna nb : ℚ) * u2ba nb) / (1 + sc.l * (sc.Q_bna nb : ℚ)))
    (fun i u j hj => Function.update_noteq hj _ _)
    (fun i u => by simp only [Function.update_same]) w hinj

/-- The ABC loss leaves every cell that is not an ABC node (duplicates or not). -/
theorem abcLoss_frame (sc : Scene) (u2ba w : Int → ℚ) (j : Int)
    (h : ∀ nb, 0 ≤ nb → nb < sc.Nba → sc.bna_ixyz nb ≠ j) : abcLoss sc u2ba w j = w j :=
  forRange_update_frame 0 sc.Nba sc.bna_ixyz
    (fun nb u => (u (sc.bna_ixyz nb) + sc.l * (sc.Q_bna nb : ℚ) * u2ba nb)
      / (1 + sc.l * (sc.Q_bna nb : ℚ))) w j h

theorem kernighan_le (v k : Nat) (i : Nat) : (kernighanStep^[i] (v, k)).1 ≤ v := by
  induction i with
  | zero => exact le_rfl
  | succ i ih =>
    rw [Function.iterate_succ_apply']
    exact le_trans Nat.and_le_left ih

/-- The popcount loop started at `(v, k)` passes through the iterates of its body as long
as `v` has not become zero. -/
theorem popcountLoop_iterate (v k : Nat) (i : Nat)
    (h : ∀ j, j < i → (kernighanStep^[j] (v, k)).1 ≠ 0) :
    popcountLoop v k
      = popcountLoop (kernighanStep^[i] (v, k)).1 (kernighanStep^[i] (v, k)).2 := by
  induction i with
  | zero => rfl
  | succ i ih =>
    rw [ih (fun j hj => h j (Nat.lt_succ_of_lt hj)), Function.iterate_succ_apply',
      popcountLoop_step _ _ (h i (Nat.lt_succ_self i))]

/-- The air pass leaves a cell whose mask bit is set. -/
theorem airUpdate_masked (sc : Scene) (hf : sc.fcc_flag = 0) (r w : Int → ℚ) (j : Int)
    (hmask : (sc.bn_mask (j >>> 3)).testBit (j % 8).toNat = true) :
    airUpdate sc r w j = w j := by
  unfold airUpdate
  rw [if_pos hf]
  refine airCart_frame sc r w j ?_
  intro c _ _
  rw [maskClear_eq, hmask]
  rfl

/-- The ABC snapshot holds `u0[bna_ixyz[nb]]` at every ABC node `nb`. -/
theorem copyABC_apply (sc : Scene) (u0 u2ba : Int → ℚ) (nb : Int) (h1 : 0 ≤ nb)
    (h2 : nb < sc.Nba) : copyABC sc u0 u2ba nb = u0 (sc.bna_ixyz nb) := by
  unfold copyABC
  exact forRange_update_hit 0 sc.Nba (fun i => i) (fun i => u0 (sc.bna_ixyz i)) u2ba
    (fun _ _ _ _ _ _ h => h) nb h1 h2

/-! ## The FD integrator node by node -/

/-- The first branch loop: the corrected pressure and the local copy `vh1nb`. -/
theorem fdBranchCorrect_spec (sc : Scene) (vh1 gh1 : Int → ℚ) (nb k : Int) (fac u : ℚ)
    (v0 : Int → ℚ) :
    (fdBranchCorrect sc vh1 gh1 nb k fac (u, v0)).1
        = u - fac * (Finset.range (sc.Mb k).toNat).sum (fun (m : Nat) =>
            2 * (sc.mat_quads (k * MMb + (m : Int))).bDh * vh1 (nb * MMb + (m : Int))
              - (sc.mat_quads (k * MMb + (m : Int))).bFh * gh1 (nb * MMb + (m : Int)))
      ∧ ∀ m, 0 ≤ m → m < sc.Mb k →
          (fdBranchCorrect sc vh1 gh1 nb k fac (u, v0)).2 m = vh1 (nb * MMb + m) := by
  by_cases hM : 0 ≤ sc.Mb k
  · have key := forRange_ind
      (fun (i : Int) (x : ℚ × (Int → ℚ)) =>
        x.1 = u - fac * (Finset.range i.toNat).sum (fun (m : Nat) =>
            2 * (sc.mat_quads (k * MMb + (m : Int))).bDh * vh1 (nb * MMb + (m : Int))
              - (sc.mat_quads (k * MMb + (m : Int))).bFh * gh1 (nb * MMb + (m : Int)))
        ∧ ∀ m, 0 ≤ m → m < i → x.2 m = vh1 (nb * MMb + m))
      0 (sc.Mb k) (fun m s =>
        let nbm := nb * MMb + m
        let mbk := k * MMb + m
        let tm := sc.mat_quads mbk
        let vh1nb := Function.update s.2 m (vh1 nbm)
        (s.1 - fac * (2 * tm.bDh * vh1nb m - tm.bFh * gh1 nbm), vh1nb)) (u, v0) hM
      ⟨by simp, fun m h1 h2 => absurd h2 (not_lt.mpr h1)⟩
      (by
        intro i hi1 hi2 x hx
        obtain ⟨hx1, hx2⟩ := hx
        constructor
        · have e : (i + 1).toNat = i.toNat + 1 := by omega
          have ei : ((i.toNat : Nat) : Int) = i := Int.toNat_of_nonneg hi1
          rw [e, Finset.sum_range_succ, ei]
          simp only [Function.update_same]
          rw [hx1]
          ring
        · intro m hm1 hm2
          by_cases hmi : m = i
          · subst hmi
            simp only [Function.update_same]
          · simp only [Function.update_noteq hmi]
            exact hx2 m hm1 (by omega))
    exact key
  · have hle : sc.Mb k ≤ 0 := by omega
    have h0 : (sc.Mb k).toNat = 0 := by omega
    unfold fdBranchCorrect
    rw [forRange_empty _ _ _ _ hle, h0]
    exact ⟨by simp, fun m h1 h2 => absurd h2 (by omega)⟩

/-- The second branch loop: every branch state is advanced once, from its entry value. -/
theorem fdStateAdvance_spec (sc : Scene) (vh1nb : Int → ℚ) (nb k : Int) (du : ℚ)
    (s : (Int → ℚ) × (Int → ℚ)) (m : Int) (h1 : 0 ≤ m) (h2 : m < sc.Mb k) :
    (fdStateAdvance sc vh1nb nb k du s).1 (nb * MMb + m)
        = (sc.mat_quads (k * MMb + m)).b * du + (sc.mat_quads (k * MMb + m)).bd * vh1nb m
          - 2 * (sc.mat_quads (k * MMb + m)).bFh * s.2 (nb * MMb + m)
      ∧ (fdStateAdvance sc vh1nb nb k du s).2 (nb * MMb + m)
        = s.2 (nb * MMb + m)
          + ((sc.mat_quads (k * MMb + m)).b * du + (sc.mat_quads (k * MMb + m)).bd * vh1nb m
              - 2 * (sc.mat_quads (k * MMb + m)).bFh * s.2 (nb * MMb + m) + vh1nb m) / 2 := by
  have key := forRange_ind
    (fun (i : Int) (x : (Int → ℚ) × (Int → ℚ)) =>
      if i ≤ m then x.2 (nb * MMb + m) = s.2 (nb * MMb + m)
      else
        x.1 (nb * MMb + m)
            = (sc.mat_quads (k * MMb + m)).b * du + (sc.mat_quads (k * MMb + m)).bd * vh1nb m
              - 2 * (sc.mat_quads (k * MMb + m)).bFh * s.2 (nb * MMb + m)
          ∧ x.2 (nb * MMb + m)
            = s.2 (nb * MMb + m)
              + ((sc.mat_quads (k * MMb + m)).b * du
                  + (sc.mat_quads (k * MMb + m)).bd * vh1nb m
                  - 2 * (sc.mat_quads (k * MMb + m)).bFh * s.2 (nb * MMb + m) + vh1nb m) / 2)
    0 (sc.Mb k) (fun m s =>
      let nbm := nb * MMb + m
      let mbk := k * MMb + m
      let tm := sc.mat_quads mbk
      let vh0nbm := tm.b * du + tm.bd * vh1nb m - 2 * tm.bFh * s.2 nbm
      let gh1 := Function.update s.2 nbm (s.2 nbm + (vh0nbm + vh1nb m) / 2)
      (Function.update s.1 nbm vh0nbm, gh1)) s (by omega) (by simp only [h1, if_true])
    (by
      intro i hi1 hi2 x hx
      by_cases hlt : i < m
      · rw [if_pos (le_of_lt hlt)] at hx
        rw [if_pos (by omega)]
        have hne : nb * MMb + m ≠ nb * MMb + i := by omega
        simp only [Function.update_noteq hne]
        exact hx
      · by_cases heq : i = m
        · subst heq
          rw [if_pos le_rfl] at hx
          rw [if_neg (by omega)]
          simp only [Function.update_same, hx]
          exact ⟨trivial, trivial⟩
        · rw [if_neg (by omega)] at hx
          rw [if_neg (by omega)]
          have hne : nb * MMb + m ≠ nb * MMb + i := by omega
          simp only [Function.update_noteq hne]
          exact hx)
  simp only [show ¬ sc.Mb k ≤ m from by omega, if_false] at key
  unfold fdStateAdvance
  exact key

/-- One pass of the node loop at its own node, in the unfused form. -/
theorem fdNode_spec (sc : Scene) (u2b : Int → ℚ) (nb : Int) (s : FdBufs) :
    (fdNode sc u2b nb s).u0b nb = fdU0 sc u2b s nb
      ∧ ∀ m, 0 ≤ m → m < sc.Mb (sc.mat_bnl nb) →
          (fdNode sc u2b nb s).vh1 (nb * MMb + m) = fdVh sc u2b s nb m
          ∧ (fdNode sc u2b nb s).gh1 (nb * MMb + m) = fdGh sc u2b s nb m := by
  have hb := fdBranchCorrect_spec sc s.vh1 s.gh1 nb (sc.mat_bnl nb)
    (2 * sc.lo2 * sc.ssaf_bnl nb / (1 + sc.lo2 * sc.ssaf_bnl nb * sc.mat_beta (sc.mat_bnl nb)))
    ((s.u0b nb + sc.lo2 * sc.ssaf_bnl nb * sc.mat_beta (sc.mat_bnl nb) * u2b nb)
      / (1 + sc.lo2 * sc.ssaf_bnl nb * sc.mat_beta (sc.mat_bnl nb))) (fun _ => 0)
  have hu : (fdNode sc u2b nb s).u0b nb = fdU0 sc u2b s nb := by
    unfold fdNode fdU0 fdBranchSum
    simp only [Function.update_same]
    exact hb.1
  refine ⟨hu, ?_⟩
  intro m h1 h2
  obtain ⟨r, hr⟩ : ∃ r, r = fdBranchCorrect sc s.vh1 s.gh1 nb (sc.mat_bnl nb)
      (2 * sc.lo2 * sc.ssaf_bnl nb
        / (1 + sc.lo2 * sc.ssaf_bnl nb * sc.mat_beta (sc.mat_bnl nb)))
      ((s.u0b nb + sc.lo2 * sc.ssaf_bnl nb * sc.mat_beta (sc.mat_bnl nb) * u2b nb)
        / (1 + sc.lo2 * sc.ssaf_bnl nb * sc.mat_beta (sc.mat_bnl nb)), fun _ => 0) := ⟨_, rfl⟩
  rw [← hr] at hb
  have ha := fdStateAdvance_spec sc r.2 nb (sc.mat_bnl nb) (r.1 - u2b nb) (s.vh1, s.gh1) m h1 h2
  have hv : (fdNode sc u2b nb s).vh1
      = (fdStateAdvance sc r.2 nb (sc.mat_bnl nb) (r.1 - u2b nb) (s.vh1, s.gh1)).1 := by
    rw [hr]
    rfl
  have hg : (fdNode sc u2b nb s).gh1
      = (fdStateAdvance sc r.2 nb (sc.mat_bnl nb) (r.1 - u2b nb) (s.vh1, s.gh1)).2 := by
    rw [hr]
    rfl
  rw [hv, hg, ha.1, ha.2, hb.2 m h1 h2, hb.1]
  exact ⟨rfl, rfl⟩

theorem fdBranchSum_congr (sc : Scene) (v g v' g' : Int → ℚ) (nb : Int)
    (h : ∀ m, 0 ≤ m → m < sc.Mb (sc.mat_bnl nb) →
      v (nb * MMb + m) = v' (nb * MMb + m) ∧ g (nb * MMb + m) = g' (nb * MMb + m)) :
    fdBranchSum sc v g nb = fdBranchSum sc v' g' nb := by
  unfold fdBranchSum
  refine Finset.sum_congr rfl ?_
  intro m hm
  have hm' := Finset.mem_range.mp hm
  have hh := h (m : Int) (by omega) (by omega)
  rw [hh.1, hh.2]

/-- The unfused node update reads the buffers only at the node's own entries. -/
theorem fdU0_congr (sc : Scene) (u2b : Int → ℚ) (x s : FdBufs) (nb : Int)
    (hu : x.u0b nb = s.u0b nb)
    (h : ∀ m, 0 ≤ m → m < sc.Mb (sc.mat_bnl nb) →
      x.vh1 (nb * MMb + m) = s.vh1 (nb * MMb + m) ∧ x.gh1 (nb * MMb + m) = s.gh1 (nb * MMb + m)) :
    fdU0 sc u2b x nb = fdU0 sc u2b s nb := by
  unfold fdU0
  rw [hu, fdBranchSum_congr sc x.vh1 x.gh1 s.vh1 s.gh1 nb h]

theorem fdVh_congr (sc : Scene) (u2b : Int → ℚ) (x s : FdBufs) (nb : Int)
    (hu : x.u0b nb = s.u0b nb)
    (h : ∀ m, 0 ≤ m → m < sc.Mb (sc.mat_bnl nb) →
      x.vh1 (nb * MMb + m) = s.vh1 (nb * MMb + m) ∧ x.gh1 (nb * MMb + m) = s.gh1 (nb * MMb + m))
    (m : Int) (h1 : 0 ≤ m) (h2 : m < sc.Mb (sc.mat_bnl nb)) :
    fdVh sc u2b x nb m = fdVh sc u2b s nb m ∧ fdGh sc u2b x nb m = fdGh sc u2b s nb m := by
  have hv : fdVh sc u2b x nb m = fdVh sc u2b s nb m := by
    unfold fdVh
    rw [fdU0_congr sc u2b x s nb hu h, (h m h1 h2).1, (h m h1 h2).2]
  refine ⟨hv, ?_⟩
  unfold fdGh
  rw [hv, (h m h1 h2).1, (h m h1 h2).2]

/-- With at most `MMb` branches per node, the node loop updates every lossy node from the
entry values of the buffers. -/
theorem process_bnl_pts_fd_node (sc : Scene) (u2b : Int → ℚ) (s : FdBufs) (nb : Int)
    (h1 : 0 ≤ nb) (h2 : nb < sc.Nbl)
    (hMMb : ∀ j, 0 ≤ j → j < sc.Nbl → sc.Mb (sc.mat_bnl j) ≤ MMb) :
    (process_bnl_pts_fd sc u2b s).u0b nb = fdU0 sc u2b s nb
      ∧ ∀ m, 0 ≤ m → m < sc.Mb (sc.mat_bnl nb) →
          (process_bnl_pts_fd sc u2b s).vh1 (nb * MMb + m) = fdVh sc u2b s nb m
          ∧ (process_bnl_pts_fd sc u2b s).gh1 (nb * MMb + m) = fdGh sc u2b s nb m := by
  have hframe : ∀ i, 0 ≤ i → i < sc.Nbl → i ≠ nb → ∀ (x : FdBufs) (m : Int), 0 ≤ m → m < MMb →
      (fdNode sc u2b i x).vh1 (nb * MMb + m) = x.vh1 (nb * MMb + m)
        ∧ (fdNode sc u2b i x).gh1 (nb * MMb + m) = x.gh1 (nb * MMb + m) := by
    intro i hi1 hi2 hne x m hm1 hm2
    refine fdNode_aux_frame sc u2b i x (nb * MMb + m) ?_
    intro m' hm'1 hm'2
    have := hMMb i hi1 hi2
    unfold MMb at this hm2 ⊢
    omega
  have hM := hMMb nb h1 h2
  have key := forRange_ind
    (fun (i : Int) (x : FdBufs) =>
      if i ≤ nb then
        x.u0b nb = s.u0b nb
          ∧ ∀ m, 0 ≤ m → m < MMb →
            x.vh1 (nb * MMb + m) = s.vh1 (nb * MMb + m)
              ∧ x.gh1 (nb * MMb + m) = s.gh1 (nb * MMb + m)
      else
        x.u0b nb = fdU0 sc u2b s nb
          ∧ ∀ m, 0 ≤ m → m < sc.Mb (sc.mat_bnl nb) →
            x.vh1 (nb * MMb + m) = fdVh sc u2b s nb m
              ∧ x.gh1 (nb * MMb + m) = fdGh sc u2b s nb m)
    0 sc.Nbl (fdNode sc u2b) s (by omega)
    (by
      beta_reduce
      rw [if_pos h1]
      exact ⟨rfl, fun _ _ _ => ⟨rfl, rfl⟩⟩)
    (by
      intro i hi1 hi2 x hx
      by_cases hlt : i < nb
      · simp only [show i ≤ nb from le_of_lt hlt, if_true] at hx
        simp only [show i + 1 ≤ nb from by omega, if_true]
        refine ⟨?_, ?_⟩
        · rw [fdNode_u0b_other sc u2b i x nb (by omega)]
          exact hx.1
        · intro m hm1 hm2
          have hf := hframe i hi1 hi2 (by omega) x m hm1 hm2
          rw [hf.1, hf.2]
          exact hx.2 m hm1 hm2
      · by_cases heq : i = nb
        · subst heq
          simp only [le_refl, if_true] at hx
          simp only [show ¬ i + 1 ≤ i from by omega, if_false]
          have hx' : ∀ m, 0 ≤ m → m < sc.Mb (sc.mat_bnl i) →
              x.vh1 (i * MMb + m) = s.vh1 (i * MMb + m)
                ∧ x.gh1 (i * MMb + m) = s.gh1 (i * MMb + m) :=
            fun m hm1 hm2 => hx.2 m hm1 (lt_of_lt_of_le hm2 hM)
          have hs := fdNode_spec sc u2b i x
          refine ⟨?_, ?_⟩
          · rw [hs.1]
            exact fdU0_congr sc u2b x s i hx.1 hx'
          · intro m hm1 hm2
            have hc := fdVh_congr sc u2b x s i hx.1 hx' m hm1 hm2
            rw [(hs.2 m hm1 hm2).1, (hs.2 m hm1 hm2).2, hc.1, hc.2]
            exact ⟨rfl, rfl⟩
        · simp only [show ¬ i ≤ nb from by omega, if_false] at hx
          simp only [show ¬ i + 1 ≤ nb from by omega, if_false]
          refine ⟨?_, ?_⟩
          · rw [fdNode_u0b_other sc u2b i x nb (by omega)]
            exact hx.1
          · intro m hm1 hm2
            have hf := hframe i hi1 hi2 heq x m hm1 (lt_of_lt_of_le hm2 hM)
            rw [hf.1, hf.2]
            exact hx.2 m hm1 hm2)
  simp only [show ¬ sc.Nbl ≤ nb from by omega, if_false] at key
  exact key

/-! ## Frame of the auxiliary state over the run -/

/-- The node loop writes `vh1` and `gh1` only at the branch entries `nb * MMb + m`,
`nb < Nbl`, `m < Mb[mat_bnl[nb]]`. -/
theorem process_bnl_pts_fd_aux_frame (sc : Scene) (u2b : Int → ℚ) (s : FdBufs) (idx : Int)
    (h : ∀ nb m, 0 ≤ nb → nb < sc.Nbl → 0 ≤ m → m < sc.Mb (sc.mat_bnl nb) →
      nb * MMb + m ≠ idx) :
    (process_bnl_pts_fd sc u2b s).vh1 idx = s.vh1 idx
      ∧ (process_bnl_pts_fd sc u2b s).gh1 idx = s.gh1 idx := by
  unfold process_bnl_pts_fd
  refine forRange_inv (fun x => x.vh1 idx = s.vh1 idx ∧ x.gh1 idx = s.gh1 idx) 0 sc.Nbl
    (fdNode sc u2b) ?_ s ⟨rfl, rfl⟩
  intro i hi1 hi2 x hx
  have hf := fdNode_aux_frame sc u2b i x idx (fun m hm1 hm2 => h i m hi1 hi2 hm1 hm2)
  exact ⟨hf.1.trans hx.1, hf.2.trans hx.2⟩

theorem stateAt_aux (sc : Scene) (n : Nat) :
    (stateAt sc (n + 1)).vh1
        = (process_bnl_pts_fd sc (stateAt sc n).u2b (fdEntry sc (stateAt sc n))).vh1
      ∧ (stateAt sc (n + 1)).gh1
        = (process_bnl_pts_fd sc (stateAt sc n).u2b (fdEntry sc (stateAt sc n))).gh1 :=
  ⟨rfl, rfl⟩

/-- An auxiliary entry that is no branch entry of a lossy node is zero at every sample. -/
theorem stateAt_aux_zero (sc : Scene) (idx : Int)
    (h : ∀ nb m, 0 ≤ nb → nb < sc.Nbl → 0 ≤ m → m < sc.Mb (sc.mat_bnl nb) →
      nb * MMb + m ≠ idx) (n : Nat) :
    (stateAt sc n).vh1 idx = 0 ∧ (stateAt sc n).gh1 idx = 0 := by
  induction n with
  | zero => exact ⟨rfl, rfl⟩
  | succ n ih =>
    have hf := process_bnl_pts_fd_aux_frame sc (stateAt sc n).u2b (fdEntry sc (stateAt sc n))
      idx h
    rw [(stateAt_aux sc n).1, (stateAt_aux sc n).2, hf.1, hf.2]
    exact ih

/-! ## The lossy shadow buffers and causality -/

/-- The write-back stores `u0b[nb]` at the cell of a lossy node of a duplicate-free list. -/
theorem writeBnl_apply (sc : Scene) (u0b u0 : Int → ℚ)
    (hinj : ∀ a b, 0 ≤ a → a < sc.Nbl → 0 ≤ b → b < sc.Nbl →
      sc.bnl_ixyz a = sc.bnl_ixyz b → a = b)
    (nb : Int) (h1 : 0 ≤ nb) (h2 : nb < sc.Nbl) :
    writeBnl sc u0b u0 (sc.bnl_ixyz nb) = u0b nb := by
  unfold writeBnl
  exact forRange_update_hit 0 sc.Nbl sc.bnl_ixyz u0b u0 hinj nb h1 h2

/-- The source injection leaves every cell that is not a source cell. -/
theorem addInput_frame (sc : Scene) (g : Int → ℚ) (n : Int) (u : Int → ℚ) (j : Int)
    (h : ∀ ns, 0 ≤ ns → ns < sc.Ns → sc.in_ixyz ns ≠ j) : addInput sc g n u j = u j := by
  unfold addInput
  exact forRange_update_frame 0 sc.Ns sc.in_ixyz
    (fun ns u => u (sc.in_ixyz ns) + g (ns * sc.Nt + n)) u j h

theorem stepState_fields (sc : Scene) (g : Int → ℚ) (n : Int) (st : State) :
    (stepState sc g n st).u0 = haloPatch sc st.u1
      ∧ (stepState sc g n st).u1 = addInput sc g n (samplePasses sc st).u0
      ∧ (stepState sc g n st).u2b = st.u1b
      ∧ (stepState sc g n st).u1b = (samplePasses sc st).u0b
      ∧ (stepState sc g n st).u0b = st.u2b :=
  ⟨rfl, rfl, rfl, rfl, rfl⟩

/-- With the lossy cells pairwise distinct, off the outermost ring and free of sources, the
shadow slots `u2b`, `u1b` mirror the field buffers `u0`, `u1` at the lossy cells at the
start of every sample. -/
theorem shadow_invariant (sc : Scene)
    (hinj : ∀ a b, 0 ≤ a → a < sc.Nbl → 0 ≤ b → b < sc.Nbl →
      sc.bnl_ixyz a = sc.bnl_ixyz b → a = b)
    (hring : ∀ nb, 0 ≤ nb → nb < sc.Nbl → ∃ x y z, (1 ≤ x ∧ x < sc.Nx - 1)
      ∧ (1 ≤ y ∧ y < sc.Ny - 1) ∧ (1 ≤ z ∧ z < sc.Nz - 1)
      ∧ sc.bnl_ixyz nb = x * (sc.Nz * sc.Ny) + y * sc.Nz + z)
    (hsrc : ∀ nb ns, 0 ≤ nb → nb < sc.Nbl → 0 ≤ ns → ns < sc.Ns →
      sc.in_ixyz ns ≠ sc.bnl_ixyz nb)
    (g : Int → ℚ) (n : Int) (st : State)
    (hst : ∀ nb, 0 ≤ nb → nb < sc.Nbl →
      st.u2b nb = st.u0 (sc.bnl_ixyz nb) ∧ st.u1b nb = st.u1 (sc.bnl_ixyz nb)) :
    ∀ nb, 0 ≤ nb → nb < sc.Nbl →
      (stepState sc g n st).u2b nb = (stepState sc g n st).u0 (sc.bnl_ixyz nb)
        ∧ (stepState sc g n st).u1b nb = (stepState sc g n st).u1 (sc.bnl_ixyz nb) := by
  intro nb h1 h2
  obtain ⟨e0, e1, e2, e3, _⟩ := stepState_fields sc g n st
  rw [e0, e1, e2, e3]
  constructor
  · obtain ⟨x, y, z, hx, hy, hz, hl⟩ := hring nb h1 h2
    rw [(hst nb h1 h2).2, hl]
    exact (haloPatch_offring sc st.u1 x y z hx hy hz).symm
  · rw [addInput_frame sc g n _ _ (fun ns hn1 hn2 => hsrc nb ns h1 h2 hn1 hn2)]
    exact (writeBnl_apply sc (samplePasses sc st).u0b (afterRigid sc st) hinj nb h1 h2).symm

/-- The state at the start of sample `n` depends on the input samples before `n` only. -/
theorem stateAt_causal (sc : Scene) (g g' : Int → ℚ) (n : Nat)
    (h : ∀ ns m, 0 ≤ ns → ns < sc.Ns → 0 ≤ m → m < (n : Int) →
      g (ns * sc.Nt + m) = g' (ns * sc.Nt + m)) :
    stateAt (withSigs sc g) n = stateAt (withSigs sc g') n := by
  induction n with
  | zero => rfl
  | succ k ih =>
    have e : ∀ f, stateAt (withSigs sc f) (k + 1)
        = stepState sc f (k : Int) (stateAt (withSigs sc f) k) :=
      fun f => stepState_withSigs sc f f (k : Int) _
    rw [e g, e g', ih (fun ns m a b c d => h ns m a b c (by push_cast; omega))]
    exact stepState_congr sc g g' k k _
      (fun ns a b => h ns k a b (by omega) (by push_cast; omega))

/-! ## Index safety of the stencils -/

/-- The linear index of a grid cell lies in `[0, Nx * Ny * Nz)`. -/
theorem lin_range (sc : Scene) (x y z : Int) (h : inGrid sc (x, y, z)) :
    0 ≤ lin sc x y z ∧ lin sc x y z < sc.Nx * sc.Ny * sc.Nz := by
  obtain ⟨⟨hx0, hx1⟩, ⟨hy0, hy1⟩, ⟨hz0, hz1⟩⟩ := h
  simp only at hx0 hx1 hy0 hy1 hz0 hz1
  have hNy : 0 < sc.Ny := by omega
  have hNz : 0 < sc.Nz := by omega
  have e : lin sc x y z = (x * sc.Ny + y) * sc.Nz + z := by
    unfold lin
    ring
  have a0 : 0 ≤ x * sc.Ny + y := by positivity
  have a1 : x * sc.Ny + y + 1 ≤ sc.Nx * sc.Ny := by
    have : (x + 1) * sc.Ny ≤ sc.Nx * sc.Ny :=
      mul_le_mul_of_nonneg_right (by omega) (le_of_lt hNy)
    linarith
  have b1 : (x * sc.Ny + y + 1) * sc.Nz ≤ sc.Nx * sc.Ny * sc.Nz :=
    mul_le_mul_of_nonneg_right a1 (le_of_lt hNz)
  rw [e]
  constructor
  · positivity
  · linarith

theorem lin_add (sc : Scene) (x y z dx dy dz : Int) :
    lin sc x y z + lin sc dx dy dz = lin sc (x + dx) (y + dy) (z + dz) := by
  unfold lin
  ring

theorem cartOffsets_eq (sc : Scene) : cartOffsets sc = cartSteps.map (linc sc) := by
  simp only [cartOffsets, cartSteps, List.map, linc, lin]
  ring_nf

theorem fccOffsets_eq (sc : Scene) : fccOffsets sc = fccSteps.map (linc sc) := by
  simp only [fccOffsets, fccSteps, List.map, linc, lin]
  ring_nf

/-- A step of at most one in every coordinate keeps an interior cell in the grid. -/
theorem step_inGrid (sc : Scene) (ix iy iz : Int) (h : interior sc (ix, iy, iz))
    (d : Int × Int × Int) (hd : d ∈ cartSteps ++ fccSteps) :
    inGrid sc (ix + d.1, iy + d.2.1, iz + d.2.2) := by
  obtain ⟨⟨hx0, hx1⟩, ⟨hy0, hy1⟩, ⟨hz0, hz1⟩⟩ := h
  simp only at hx0 hx1 hy0 hy1 hz0 hz1
  simp only [cartSteps, fccSteps, List.cons_append, List.nil_append, List.mem_cons,
    List.mem_singleton, List.not_mem_nil, or_false] at hd
  unfold inGrid
  rcases hd with h | h | h | h | h | h | h | h | h | h | h | h | h | h | h | h | h | h <;>
    · subst h
      simp only
      omega

/-- On non-negative indices `ii >> 3` is `ii / 8`. -/
theorem shiftRight_three (ii : Int) (h : 0 ≤ ii) : ii >>> 3 = ii / 8 := by
  obtain ⟨m, rfl⟩ := Int.eq_ofNat_of_zero_le h
  rw [show (3 : Int) = ((3 : Nat) : Int) from rfl, Int.shiftRight_coe_nat,
    Nat.shiftRight_eq_div_pow]
  norm_num

/-- The mask byte of a cell index below `Npts` is one of the `DIV_CEIL(Npts, 8)` bytes. -/
theorem mask_index_range (ii Npts : Int) (h0 : 0 ≤ ii) (h1 : ii < Npts) :
    0 ≤ ii >>> 3 ∧ ii >>> 3 < DIV_CEIL Npts 8 := by
  unfold DIV_CEIL
  rw [shiftRight_three ii h0, Int.tdiv_eq_ediv (by omega) (by decide)]
  omega

/-- The cartesian air stencil at `ii` reads `u1` at `ii` and at `ii + o`, `o` in
`cartOffsets`, only. -/
theorem airCartCell_reads (sc : Scene) (u1 u1' u0 : Int → ℚ) (ii : Int)
    (h : ∀ o ∈ 0 :: cartOffsets sc, u1 (ii + o) = u1' (ii + o)) :
    airCartCell sc u1 ii u0 = airCartCell sc u1' ii u0 := by
  simp only [cartOffsets, List.mem_cons, List.mem_singleton, List.not_mem_nil, or_false,
    forall_eq_or_imp, forall_eq, add_zero, ← sub_eq_add_neg] at h
  obtain ⟨h0, h1, h2, h3, h4, h5, h6⟩ := h
  unfold airCartCell
  simp only [h0, h1, h2, h3, h4, h5, h6]

/-- The FCC air stencil at `ii` reads `u1` at `ii` and at `ii + o`, `o` in `fccOffsets`,
only. -/
theorem airFccCell_reads (sc : Scene) (u1 u1' u0 : Int → ℚ) (ii : Int)
    (h : ∀ o ∈ 0 :: fccOffsets sc, u1 (ii + o) = u1' (ii + o)) :
    airFccCell sc u1 ii u0 = airFccCell sc u1' ii u0 := by
  have h0 : u1 ii = u1' ii := by
    have := h 0 (List.mem_cons_self _ _)
    rwa [add_zero] at this
  have e1 : u1 (ii + sc.Nz * sc.Ny + sc.Nz) = u1' (ii + sc.Nz * sc.Ny + sc.Nz) := by
    have := h (sc.Nz * sc.Ny + sc.Nz) (by simp [fccOffsets])
    rwa [show ii + (sc.Nz * sc.Ny + sc.Nz) = ii + sc.Nz * sc.Ny + sc.Nz by ring] at this
  have e2 : u1 (ii - sc.Nz * sc.Ny - sc.Nz) = u1' (ii - sc.Nz * sc.Ny - sc.Nz) := by
    have := h (-(sc.Nz * sc.Ny) - sc.Nz) (by simp [fccOffsets])
    rwa [show ii + (-(sc.Nz * sc.Ny) - sc.Nz) = ii - sc.Nz * sc.Ny - sc.Nz by ring] at this
  have e3 : u1 (ii + sc.Nz + 1) = u1' (ii + sc.Nz + 1) := by
    have := h (sc.Nz + 1) (by simp [fccOffsets])
    rwa [show ii + (sc.Nz + 1) = ii + sc.Nz + 1 by ring] at this
  have e4 : u1 (ii - sc.Nz - 1) = u1' (ii - sc.Nz - 1) := by
    have := h (-sc.Nz - 1) (by simp [fccOffsets])
    rwa [show ii + (-sc.Nz - 1) = ii - sc.Nz - 1 by ring] at this
  have e5 : u1 (ii + sc.Nz * sc.Ny + 1) = u1' (ii + sc.Nz * sc.Ny + 1) := by
    have := h (sc.Nz * sc.Ny + 1) (by simp [fccOffsets])
    rwa [show ii + (sc.Nz * sc.Ny + 1) = ii + sc.Nz * sc.Ny + 1 by ring] at this
  have e6 : u1 (ii - sc.Nz * sc.Ny - 1) = u1' (ii - sc.Nz * sc.Ny - 1) := by
    have := h (-(sc.Nz * sc.Ny) - 1) (by simp [fccOffsets])
    rwa [show ii + (-(sc.Nz * sc.Ny) - 1) = ii - sc.Nz * sc.Ny - 1 by ring] at this
  have e7 : u1 (ii + sc.Nz * sc.Ny - sc.Nz) = u1' (ii + sc.Nz * sc.Ny - sc.Nz) := by
    have := h (sc.Nz * sc.Ny - sc.Nz) (by simp [fccOffsets])
    rwa [show ii + (sc.Nz * sc.Ny - sc.Nz) = ii + sc.Nz * sc.Ny - sc.Nz by ring] at this
  have e8 : u1 (ii - sc.Nz * sc.Ny + sc.Nz) = u1' (ii - sc.Nz * sc.Ny + sc.Nz) := by
    have := h (-(sc.Nz * sc.Ny) + sc.Nz) (by simp [fccOffsets])
    rwa [show ii + (-(sc.Nz * sc.Ny) + sc.Nz) = ii - sc.Nz * sc.Ny + sc.Nz by ring] at this
  have e9 : u1 (ii + sc.Nz - 1) = u1' (ii + sc.Nz - 1) := by
    have := h (sc.Nz - 1) (by simp [fccOffsets])
    rwa [show ii + (sc.Nz - 1) = ii + sc.Nz - 1 by ring] at this
  have e10 : u1 (ii - sc.Nz + 1) = u1' (ii - sc.Nz + 1) := by
    have := h (-sc.Nz + 1) (by simp [fccOffsets])
    rwa [show ii + (-sc.Nz + 1) = ii - sc.Nz + 1 by ring] at this
  have e11 : u1 (ii + sc.Nz * sc.Ny - 1) = u1' (ii + sc.Nz * sc.Ny - 1) := by
    have := h (sc.Nz * sc.Ny - 1) (by simp [fccOffsets])
    rwa [show ii + (sc.Nz * sc.Ny - 1) = ii + sc.Nz * sc.Ny - 1 by ring] at this
  have e12 : u1 (ii - sc.Nz * sc.Ny + 1) = u1' (ii - sc.Nz * sc.Ny + 1) := by
    have := h (-(sc.Nz * sc.Ny) + 1) (by simp [fccOffsets])
    rwa [show ii + (-(sc.Nz * sc.Ny) + 1) = ii - sc.Nz * sc.Ny + 1 by ring] at this
  unfold airFccCell
  simp only [h0, e1, e2, e3, e4, e5, e6, e7, e8, e9, e10, e11, e12]

/-- The cartesian rigid pass reads `u1` at the rigid cells and at their `cartOffsets`
neighbours only. -/
theorem rigidCart_reads (sc : Scene) (u1 u1' u0 : Int → ℚ)
    (h : ∀ nb, 0 ≤ nb → nb < sc.Nb → ∀ o ∈ 0 :: cartOffsets sc,
      u1 (sc.bn_ixyz nb + o) = u1' (sc.bn_ixyz nb + o)) :
    rigidCart sc u1 u0 = rigidCart sc u1' u0 := by
  unfold rigidCart
  refine forRange_congr _ _ _ _ ?_ _
  intro nb hn1 hn2 w
  have hh := h nb hn1 hn2
  simp only [cartOffsets, List.mem_cons, List.mem_singleton, List.not_mem_nil, or_false,
    forall_eq_or_imp, forall_eq, add_zero, ← sub_eq_add_neg] at hh
  obtain ⟨h0, h1, h2, h3, h4, h5, h6⟩ := hh
  simp only [h0, h1, h2, h3, h4, h5, h6]

/-- The FCC rigid pass reads `u1` at the rigid cells and at their `fccOffsets` neighbours
only. -/
theorem rigidFcc_reads (sc : Scene) (u1 u1' u0 : Int → ℚ)
    (h : ∀ nb, 0 ≤ nb → nb < sc.Nb → ∀ o ∈ 0 :: fccOffsets sc,
      u1 (sc.bn_ixyz nb + o) = u1' (sc.bn_ixyz nb + o)) :
    rigidFcc sc u1 u0 = rigidFcc sc u1' u0 := by
  unfold rigidFcc
  refine forRange_congr _ _ _ _ ?_ _
  intro nb hn1 hn2 w
  have h := h nb hn1 hn2
  have h0 : u1 (sc.bn_ixyz nb) = u1' (sc.bn_ixyz nb) := by
    have := h 0 (List.mem_cons_self _ _)
    rwa [add_zero] at this
  have e1 : u1 (sc.bn_ixyz nb + sc.Nz * sc.Ny + sc.Nz) = u1' (sc.bn_ixyz nb + sc.Nz * sc.Ny + sc.Nz) := by
    have := h (sc.Nz * sc.Ny + sc.Nz) (by simp [fccOffsets])
    rwa [show sc.bn_ixyz nb + (sc.Nz * sc.Ny + sc.Nz) = sc.bn_ixyz nb + sc.Nz * sc.Ny + sc.Nz by ring] at this
  have e2 : u1 (sc.bn_ixyz nb - sc.Nz * sc.Ny - sc.Nz) = u1' (sc.bn_ixyz nb - sc.Nz * sc.Ny - sc.Nz) := by
    have := h (-(sc.Nz * sc.Ny) - sc.Nz) (by simp [fccOffsets])
    rwa [show sc.bn_ixyz nb + (-(sc.Nz * sc.Ny) - sc.Nz) = sc.bn_ixyz nb - sc.Nz * sc.Ny - sc.Nz by ring] at this
  have e3 : u1 (sc.bn_ixyz nb + sc.Nz + 1) = u1' (sc.bn_ixyz nb + sc.Nz + 1) := by
    have := h (sc.Nz + 1) (by simp [fccOffsets])
    rwa [show sc.bn_ixyz nb + (sc.Nz + 1) = sc.bn_ixyz nb + sc.Nz + 1 by ring] at this
  have e4 : u1 (sc.bn_ixyz nb - sc.Nz - 1) = u1' (sc.bn_ixyz nb - sc.Nz - 1) := by
    have := h (-sc.Nz - 1) (by simp [fccOffsets])
    rwa [show sc.bn_ixyz nb + (-sc.Nz - 1) = sc.bn_ixyz nb - sc.Nz - 1 by ring] at this
  have e5 : u1 (sc.bn_ixyz nb + sc.Nz * sc.Ny + 1) = u1' (sc.bn_ixyz nb + sc.Nz * sc.Ny + 1) := by
    have := h (sc.Nz * sc.Ny + 1) (by simp [fccOffsets])
    rwa [show sc.bn_ixyz nb + (sc.Nz * sc.Ny + 1) = sc.bn_ixyz nb + sc.Nz * sc.Ny + 1 by ring] at this
  have e6 : u1 (sc.bn_ixyz nb - sc.Nz * sc.Ny - 1) = u1' (sc.bn_ixyz nb - sc.Nz * sc.Ny - 1) := by
    have := h (-(sc.Nz * sc.Ny) - 1) (by simp [fccOffsets])
    rwa [show sc.bn_ixyz nb + (-(sc.Nz * sc.Ny) - 1) = sc.bn_ixyz nb - sc.Nz * sc.Ny - 1 by ring] at this
  have e7 : u1 (sc.bn_ixyz nb + sc.Nz * sc.Ny - sc.Nz) = u1' (sc.bn_ixyz nb + sc.Nz * sc.Ny - sc.Nz) := by
    have := h (sc.Nz * sc.Ny - sc.Nz) (by simp [fccOffsets])
    rwa [show sc.bn_ixyz nb + (sc.Nz * sc.Ny - sc.Nz) = sc.bn_ixyz nb + sc.Nz * sc.Ny - sc.Nz by ring] at this
  have e8 : u1 (sc.bn_ixyz nb - sc.Nz * sc.Ny + sc.Nz) = u1' (sc.bn_ixyz nb - sc.Nz * sc.Ny + sc.Nz) := by
    have := h (-(sc.Nz * sc.Ny) + sc.Nz) (by simp [fccOffsets])
    rwa [show sc.bn_ixyz nb + (-(sc.Nz * sc.Ny) + sc.Nz) = sc.bn_ixyz nb - sc.Nz * sc.Ny + sc.Nz by ring] at this
  have e9 : u1 (sc.bn_ixyz nb + sc.Nz - 1) = u1' (sc.bn_ixyz nb + sc.Nz - 1) := by
    have := h (sc.Nz - 1) (by simp [fccOffsets])
    rwa [show sc.bn_ixyz nb + (sc.Nz - 1) = sc.bn_ixyz nb + sc.Nz - 1 by ring] at this
  have e10 : u1 (sc.bn_ixyz nb - sc.Nz + 1) = u1' (sc.bn_ixyz nb - sc.Nz + 1) := by
    have := h (-sc.Nz + 1) (by simp [fccOffsets])
    rwa [show sc.bn_ixyz nb + (-sc.Nz + 1) = sc.bn_ixyz nb - sc.Nz + 1 by ring] at this
  have e11 : u1 (sc.bn_ixyz nb + sc.Nz * sc.Ny - 1) = u1' (sc.bn_ixyz nb + sc.Nz * sc.Ny - 1) := by
    have := h (sc.Nz * sc.Ny - 1) (by simp [fccOffsets])
    rwa [show sc.bn_ixyz nb + (sc.Nz * sc.Ny - 1) = sc.bn_ixyz nb + sc.Nz * sc.Ny - 1 by ring] at this
  have e12 : u1 (sc.bn_ixyz nb - sc.Nz * sc.Ny + 1) = u1' (sc.bn_ixyz nb - sc.Nz * sc.Ny + 1) := by
    have := h (-(sc.Nz * sc.Ny) + 1) (by simp [fccOffsets])
    rwa [show sc.bn_ixyz nb + (-(sc.Nz * sc.Ny) + 1) = sc.bn_ixyz nb - sc.Nz * sc.Ny + 1 by ring] at this
  simp only [h0, e1, e2, e3, e4, e5, e6, e7, e8, e9, e10, e11, e12]

/-! ## Sorting with keys -/

/-- A loop that stores `f i` at every index `i` of `[lo, hi)`. -/
theorem forRange_fill {α : Type} (lo hi : Int) (f : Int → α) (a0 : Int → α) (j : Int) :
    forRange lo hi (fun i a => Function.update a i (f i)) a0 j
      = if lo ≤ j ∧ j < hi then f j else a0 j := by
  by_cases hle : lo ≤ hi
  · have key := forRange_ind
      (fun (k : Int) (a : Int → α) => ∀ j, a j = if lo ≤ j ∧ j < k then f j else a0 j)
      lo hi (fun i a => Function.update a i (f i)) a0 hle
      (by
        intro j
        rw [if_neg (by omega)])
      (by
        intro i hi1 hi2 a ha j
        by_cases hji : j = i
        · subst hji
          rw [if_pos ⟨hi1, by omega⟩]
          exact Function.update_same _ _ _
        · have e : Function.update a i (f i) j = a j := Function.update_noteq hji _ _
          show Function.update a i (f i) j = _
          rw [e, ha j]
          by_cases hc : lo ≤ j ∧ j < i
          · rw [if_pos hc, if_pos ⟨hc.1, by omega⟩]
          · rw [if_neg hc, if_neg (by omega)])
    exact key j
  · rw [forRange_empty _ _ _ _ (by omega), if_neg (by omega)]

/-- A loop that stores `f i` and `g i` at every index `i` of `[lo, hi)` of two arrays. -/
theorem forRange_fill_pair {α β : Type} (lo hi : Int) (f : Int → α) (g : Int → β)
    (a0 : Int → α) (b0 : Int → β) (j : Int) :
    (forRange lo hi (fun i (s : (Int → α) × (Int → β)) =>
        (Function.update s.1 i (f i), Function.update s.2 i (g i))) (a0, b0)).1 j
        = (if lo ≤ j ∧ j < hi then f j else a0 j)
      ∧ (forRange lo hi (fun i (s : (Int → α) × (Int → β)) =>
        (Function.update s.1 i (f i), Function.update s.2 i (g i))) (a0, b0)).2 j
        = (if lo ≤ j ∧ j < hi then g j else b0 j) := by
  have h := forRange_rel3
    (fun (s : (Int → α) × (Int → β)) (a : Int → α) (b : Int → β) => s.1 = a ∧ s.2 = b)
    lo hi
    (fun i (s : (Int → α) × (Int → β)) =>
      (Function.update s.1 i (f i), Function.update s.2 i (g i)))
    (fun i a => Function.update a i (f i)) (fun i b => Function.update b i (g i))
    (by
      intro i _ _ s a b hs
      exact ⟨by rw [← hs.1], by rw [← hs.2]⟩)
    (a0, b0) a0 b0 ⟨rfl, rfl⟩
  rw [h.1, h.2, forRange_fill, forRange_fill]
  exact ⟨rfl, rfl⟩

theorem prefixList_congr {α : Type} (N : Int) (a b : Int → α)
    (h : ∀ i, 0 ≤ i → i < N → a i = b i) : prefixList N a = prefixList N b := by
  unfold prefixList
  refine List.map_congr_left ?_
  intro i hi
  have := (mem_rangeInt 0 N i).mp hi
  exact h i this.1 this.2

theorem mem_prefixList {α : Type} (N : Int) (a : Int → α) (x : α) :
    x ∈ prefixList N a ↔ ∃ i, (0 ≤ i ∧ i < N) ∧ a i = x := by
  unfold prefixList
  simp only [List.mem_map, mem_rangeInt]

theorem prefixList_map {α β : Type} (N : Int) (a : Int → α) (f : α → β) :
    (prefixList N a).map f = prefixList N (fun i => f (a i)) := by
  unfold prefixList
  rw [List.map_map]
  rfl

theorem prefixList_id (N : Int) : prefixList N (fun i => i) = rangeInt 0 N := by
  unfold prefixList
  exact List.map_id _

theorem prefixList_length {α : Type} (N : Int) (a : Int → α) :
    (prefixList N a).length = N.toNat := by
  unfold prefixList rangeInt
  simp

/-- A pairwise relation on the first `N` elements, read by position. -/
theorem prefixList_pairwise {α : Type} (N : Int) (a : Int → α) (R : α → α → Prop)
    (h : (prefixList N a).Pairwise R) (i j : Int) (hi : 0 ≤ i) (hij : i < j) (hj : j < N) :
    R (a i) (a j) := by
  unfold prefixList rangeInt at h
  rw [List.map_map, List.pairwise_map] at h
  have h2 := List.pairwise_iff_getElem.mp h i.toNat j.toNat
    (by simp only [List.length_range]; omega) (by simp only [List.length_range]; omega)
    (by omega)
  simp only [List.getElem_range, Function.comp] at h2
  have ei : (0 : Int) + ((i.toNat : Nat) : Int) = i := by omega
  have ej : (0 : Int) + ((j.toNat : Nat) : Int) = j := by omega
  rw [ei, ej] at h2
  exact h2

theorem cmpfunc_int64_keys_le (x y : sort_int64_struct) :
    cmpfunc_int64_keys x y ≤ 0 ↔ x.val ≤ y.val := by
  unfold cmpfunc_int64_keys
  split_ifs <;> omega

/-- Reading a list of length `N` back from the array that holds it gives the list. -/
theorem prefixList_getD {α : Type} (N : Int) (l : List α) (d : Int → α)
    (hl : l.length = N.toNat) :
    prefixList N (fun i => l.getD i.toNat (d i)) = l := by
  refine List.ext_getElem ?_ ?_
  · rw [prefixList_length, hl]
  · intro p h1 h2
    unfold prefixList rangeInt
    simp only [List.getElem_map, List.getElem_range]
    have e : ((0 : Int) + (p : Int)).toNat = p := by omega
    rw [e, List.getD_eq_getElem l _ h2]

/-- Insertion sort of the array prefix meets the contract of `qsort` for the comparator
`cmpfunc_int64_keys`. -/
theorem insertionQsort_spec : QsortSpec insertionQsort cmpfunc_int64_keys := by
  intro a N hN
  have hlen : ((prefixList N a).insertionSort
      (fun x y => cmpfunc_int64_keys x y ≤ 0)).length = N.toNat := by
    rw [(List.perm_insertionSort _ _).length_eq, prefixList_length]
  have e : prefixList N (insertionQsort a N cmpfunc_int64_keys)
      = (prefixList N a).insertionSort (fun x y => cmpfunc_int64_keys x y ≤ 0) := by
    rw [← prefixList_getD N _ a hlen]
    refine prefixList_congr N _ _ ?_
    intro i h1 h2
    unfold insertionQsort
    rw [if_pos ⟨h1, h2⟩]
  rw [e]
  refine ⟨List.perm_insertionSort _ _, ?_⟩
  haveI : IsTotal sort_int64_struct (fun x y => cmpfunc_int64_keys x y ≤ 0) :=
    ⟨fun x y => by
      rw [cmpfunc_int64_keys_le, cmpfunc_int64_keys_le]
      exact le_total _ _⟩
  haveI : IsTrans sort_int64_struct (fun x y => cmpfunc_int64_keys x y ≤ 0) :=
    ⟨fun x y z => by
      rw [cmpfunc_int64_keys_le, cmpfunc_int64_keys_le, cmpfunc_int64_keys_le]
      exact le_trans⟩
  exact (List.sorted_insertionSort (fun x y => cmpfunc_int64_keys x y ≤ 0) _).chain'

/-- The array of records handed to `qsort` holds `(val_arr[i], i)` at every `i < N`. -/
theorem qsort_keys_input (junk : Int → sort_int64_struct) (v : Int → Int) (N : Int) :
    prefixList N (forRange 0 N (fun i sa =>
        Function.update sa i ({ val := v i, idx := i } : sort_int64_struct)) junk)
      = (rangeInt 0 N).map (fun i => ({ val := v i, idx := i } : sort_int64_struct)) := by
  unfold prefixList
  refine List.map_congr_left ?_
  intro i hi
  have := (mem_rangeInt 0 N i).mp hi
  rw [forRange_fill, if_pos this]

/-- With the allocation successful, `qsort_keys` returns the arrays written by its second
loop. -/
theorem qsort_keys_some
    (qsort : (Int → sort_int64_struct) → Int → (sort_int64_struct → sort_int64_struct → Int)
      → (Int → sort_int64_struct))
    (mem : Int → sort_int64_struct) (v key_arr : Int → Int) (N : Int) :
    qsort_keys qsort (some mem) v key_arr N
      = some (forRange 0 N (fun i s =>
          (Function.update s.1 i
              (qsort (forRange 0 N (fun i sa =>
                Function.update sa i ({ val := v i, idx := i } : sort_int64_struct)) mem)
                N cmpfunc_int64_keys i).val,
            Function.update s.2 i
              (qsort (forRange 0 N (fun i sa =>
                Function.update sa i ({ val := v i, idx := i } : sort_int64_struct)) mem)
                N cmpfunc_int64_keys i).idx))
          (v, key_arr)) := rfl

/-! ## Agreement of the two embeddings -/

theorem fin_div_zero (x : Ieee.Val) : x / Ieee.Val.fin 0 = Ieee.Val.nan := by
  show Ieee.Val.div x (some 0) = none
  cases x <;> simp [Ieee.Val.div]

theorem fin_inj (a b : ℚ) (h : Ieee.Val.fin a = Ieee.Val.fin b) : a = b := by
  cases h
  rfl

theorem mirrorY_into_interior (sc : Scene) (hN : 4 ≤ sc.Ny) (y : Int) (h : 0 ≤ y ∧ y < sc.Ny) :
    1 ≤ mirrorY sc y ∧ mirrorY sc y < sc.Ny - 1 := by
  unfold mirrorY mirror
  split_ifs <;> omega

theorem neighbour_interior (sc : Scene) (hNx : 4 ≤ sc.Nx) (hNy : 4 ≤ sc.Ny) (hNz : 4 ≤ sc.Nz)
    (x y z : Int) (hc : interior sc (x, y, z)) (dx dy dz : Int)
    (hx : -1 ≤ dx ∧ dx ≤ 1) (hy : -1 ≤ dy ∧ dy ≤ 1) (hz : -1 ≤ dz ∧ dz ≤ 1) :
    interior sc (neighbour sc (x, y, z) (dx, dy, dz)) := by
  obtain ⟨⟨hx0, hx1⟩, ⟨hy0, hy1⟩, ⟨hz0, hz1⟩⟩ := hc
  simp only at hx0 hx1 hy0 hy1 hz0 hz1
  exact ⟨mirror_into_interior sc.Nx (x + dx) hNx (by omega),
    mirrorY_into_interior sc hNy (y + dy) (by omega),
    mirror_into_interior sc.Nz (z + dz) hNz (by omega)⟩

/-- C2: linearity of `run` in the input signals over exact arithmetic: for scenes that
share geometry, index lists, materials and coefficients, the scene driven by
`α * g1 + β * g2` yields `u_out = α * u_out1 + β * u_out2` at every `nr < Nr`, `n < Nt`. -/
theorem run_linear (sc : Scene) (g1 g2 : Int → ℚ) (α β : ℚ) (nr n : Int)
    (h1 : 0 ≤ nr) (h2 : nr < sc.Nr) (hn : 0 ≤ n) (hnt : n < sc.Nt) :
    (run (withSigs sc (fun i => α * g1 i + β * g2 i))).u_out (nr * sc.Nt + n)
      = α * (run (withSigs sc g1)).u_out (nr * sc.Nt + n)
        + β * (run (withSigs sc g2)).u_out (nr * sc.Nt + n) := by
  have e : ∀ g, (run (withSigs sc g)).u_out (nr * sc.Nt + n)
      = haloPatch sc (stateAt (withSigs sc g) n.toNat).u1 (sc.out_ixyz nr) := by
    intro g
    have := run_u_out (withSigs sc g) nr n h1 h2 hn hnt
    rw [haloPatch_withSigs] at this
    exact this
  have hc : (fun i => α * g1 i + β * g2 i) = comb α β g1 g2 := rfl
  rw [e, e, e, hc, stateAt_lin]
  show haloPatch sc (comb α β _ _) _ = _
  rw [haloPatch_lin]
  rfl

theorem run_linear_witness :
    ((0 : Int) ≤ 0 ∧ (0 : Int) < exScene.Nr ∧ (0 : Int) ≤ 1 ∧ (1 : Int) < exScene.Nt)
      ∧ (run (withSigs exScene (fun i => 2 * impulse0 i + 3 * impulse1 i))).u_out
          (0 * exScene.Nt + 1)
        = 2 * (run (withSigs exScene impulse0)).u_out (0 * exScene.Nt + 1)
          + 3 * (run (withSigs exScene impulse1)).u_out (0 * exScene.Nt + 1) :=
  ⟨⟨by decide, by decide, by decide, by decide⟩,
    run_linear exScene impulse0 impulse1 2 3 0 1 (by decide) (by decide) (by decide)
      (by decide)⟩

/-! ## C3: Time invariance -/

/-- C5 (as stated, refuted): in `exScene` the entry `u_out[0 * Nt + 1]` is `1`, whereas
the `U_curr` value produced by the passes of sample 1 at the receiver cell is `1/2`. -/
theorem readout_not_U_curr :
    ((0 : Int) ≤ 0 ∧ (0 : Int) < exScene.Nr ∧ (0 : Int) ≤ 1 ∧ (1 : Int) < exScene.Nt)
      ∧ (run exScene).u_out (0 * exScene.Nt + 1)
        ≠ (samplePasses exScene (stateAt exScene 1)).u0 (exScene.out_ixyz 0) := by
  decide!

/-- C5 (amended): for every receiver `nr < Nr` and sample `n < Nt`, the value recorded in
`u_out[nr * Nt + n]` is the value at `out_ixyz[nr]` of `U_prev` (the buffer `u1`) as it
stands after the passes of sample `n`, which is the halo patch of the field carried over
from sample `n - 1`. -/
theorem readout_is_U_prev (sc : Scene) (nr n : Int) (h1 : 0 ≤ nr) (h2 : nr < sc.Nr)
    (hn : 0 ≤ n) (hnt : n < sc.Nt) :
    (run sc).u_out (nr * sc.Nt + n)
        = (samplePasses sc (stateAt sc n.toNat)).u1 (sc.out_ixyz nr)
      ∧ (samplePasses sc (stateAt sc n.toNat)).u1 = haloPatch sc (stateAt sc n.toNat).u1 :=
  ⟨run_u_out sc nr n h1 h2 hn hnt, rfl⟩

theorem readout_is_U_prev_witness :
    ((0 : Int) ≤ 0 ∧ (0 : Int) < exScene.Nr ∧ (0 : Int) ≤ 1 ∧ (1 : Int) < exScene.Nt)
      ∧ ((run exScene).u_out (0 * exScene.Nt + 1)
          = (samplePasses exScene (stateAt exScene (1 : Int).toNat)).u1 (exScene.out_ixyz 0)
        ∧ (samplePasses exScene (stateAt exScene (1 : Int).toNat)).u1
          = haloPatch exScene (stateAt exScene (1 : Int).toNat).u1) :=
  ⟨⟨by decide, by decide, by decide, by decide⟩,
    readout_is_U_prev exScene 0 1 (by decide) (by decide) (by decide) (by decide)⟩

/-! ## C6: Receiver readout -/

/-- C6: for every receiver `nr` whose cell is off the outermost cell ring and every
sample `1 ≤ n < Nt`, `u_out[nr * Nt + n]` equals the value `U_curr` held at
`out_ixyz[nr]` at the end of sample `n - 1` after that sample's source injection, and the
halo patch of sample `n` does not alter that cell. -/
theorem readout_reads_prev (sc : Scene) (nr n : Int) (h1 : 0 ≤ nr) (h2 : nr < sc.Nr)
    (hn : 1 ≤ n) (hnt : n < sc.Nt) (ix iy iz : Int) (hx : 1 ≤ ix ∧ ix < sc.Nx - 1)
    (hy : 1 ≤ iy ∧ iy < sc.Ny - 1) (hz : 1 ≤ iz ∧ iz < sc.Nz - 1)
    (hout : sc.out_ixyz nr = ix * (sc.Nz * sc.Ny) + iy * sc.Nz + iz) :
    (run sc).u_out (nr * sc.Nt + n)
        = addInput sc sc.in_sigs (n - 1) (samplePasses sc (stateAt sc (n - 1).toNat)).u0
            (sc.out_ixyz nr)
      ∧ haloPatch sc (stateAt sc n.toNat).u1 (sc.out_ixyz nr)
        = (stateAt sc n.toNat).u1 (sc.out_ixyz nr) := by
  have hfr : haloPatch sc (stateAt sc n.toNat).u1 (sc.out_ixyz nr)
      = (stateAt sc n.toNat).u1 (sc.out_ixyz nr) := by
    rw [hout]
    exact haloPatch_offring sc _ ix iy iz hx hy hz
  refine ⟨?_, hfr⟩
  rw [run_u_out sc nr n h1 h2 (by omega) hnt, hfr]
  have e : n.toNat = (n - 1).toNat + 1 := by omega
  have e2 : (((n - 1).toNat : Nat) : Int) = n - 1 := by omega
  rw [e]
  show (stepState sc sc.in_sigs (((n - 1).toNat : Nat) : Int) (stateAt sc (n - 1).toNat)).u1 _ = _
  rw [e2]
  rfl

theorem readout_reads_prev_witness :
    ((0 : Int) ≤ 0 ∧ (0 : Int) < exScene.Nr ∧ (1 : Int) ≤ 1 ∧ (1 : Int) < exScene.Nt
        ∧ ((1 : Int) ≤ 1 ∧ (1 : Int) < exScene.Nx - 1)
        ∧ ((1 : Int) ≤ 1 ∧ (1 : Int) < exScene.Ny - 1)
        ∧ ((1 : Int) ≤ 1 ∧ (1 : Int) < exScene.Nz - 1)
        ∧ exScene.out_ixyz 0 = 1 * (exScene.Nz * exScene.Ny) + 1 * exScene.Nz + 1)
      ∧ ((run exScene).u_out (0 * exScene.Nt + 1)
          = addInput exScene exScene.in_sigs (1 - 1)
              (samplePasses exScene (stateAt exScene ((1 : Int) - 1).toNat)).u0
              (exScene.out_ixyz 0)
        ∧ haloPatch exScene (stateAt exScene (1 : Int).toNat).u1 (exScene.out_ixyz 0)
          = (stateAt exScene (1 : Int).toNat).u1 (exScene.out_ixyz 0)) :=
  ⟨⟨by decide, by decide, by decide, by decide, by decide, by decide, by decide, by decide⟩,
    readout_reads_prev exScene 0 1 (by decide) (by decide) (by decide) (by decide) 1 1 1
      (by decide) (by decide) (by decide) (by decide)⟩

/-! ## C7: Empty run -/

/-- C7: with `Nt = 0` the sample loop executes zero iterations: `u_out` is returned as
it was and every working buffer still holds its initial (zero) contents. -/
theorem run_Nt_zero (sc : Scene) (h : sc.Nt = 0) :
    run sc = { st := State.init, u_out := sc.u_out } := by
  unfold run
  rw [h]
  exact forRange_empty 0 0 _ _ le_rfl

theorem run_Nt_zero_witness :
    (withNt0 exScene).Nt = 0
      ∧ run (withNt0 exScene) = { st := State.init, u_out := (withNt0 exScene).u_out } :=
  ⟨rfl, run_Nt_zero (withNt0 exScene) rfl⟩

/-! ## C8: FD boundary without branches -/

/-- C8: for every lossy node `nb` whose material `k = mat_bnl[nb]` has `Mb[k] = 0`
(all nodes respecting `Mb ≤ MMb`), `process_bnl_pts_fd` sets `u0b[nb]` to exactly the
base correction `(u0b[nb] + lo2Kb * u2b[nb]) / (1 + lo2Kb)` with
`lo2Kb = lo2 * ssaf_bnl[nb] * mat_beta[k]`, and leaves every entry `nb * MMb + m`,
`m < MMb`, of `vh1` and `gh1` unchanged. -/
theorem fd_no_branch_base_correction (sc : Scene) (u2b : Int → ℚ) (s : FdBufs) (nb : Int)
    (h1 : 0 ≤ nb) (h2 : nb < sc.Nbl) (hM : sc.Mb (sc.mat_bnl nb) = 0)
    (hMMb : ∀ j, 0 ≤ j → j < sc.Nbl → sc.Mb (sc.mat_bnl j) ≤ MMb) :
    (process_bnl_pts_fd sc u2b s).u0b nb
        = (s.u0b nb + sc.lo2 * sc.ssaf_bnl nb * sc.mat_beta (sc.mat_bnl nb) * u2b nb)
          / (1 + sc.lo2 * sc.ssaf_bnl nb * sc.mat_beta (sc.mat_bnl nb))
      ∧ ∀ m, 0 ≤ m → m < MMb →
          (process_bnl_pts_fd sc u2b s).vh1 (nb * MMb + m) = s.vh1 (nb * MMb + m)
          ∧ (process_bnl_pts_fd sc u2b s).gh1 (nb * MMb + m) = s.gh1 (nb * MMb + m) := by
  have key := forRange_ind
    (fun (i : Int) (x : FdBufs) =>
      (∀ m, 0 ≤ m → m < MMb →
        x.vh1 (nb * MMb + m) = s.vh1 (nb * MMb + m) ∧ x.gh1 (nb * MMb + m) = s.gh1 (nb * MMb + m))
      ∧ x.u0b nb = if i ≤ nb then s.u0b nb
          else (s.u0b nb + sc.lo2 * sc.ssaf_bnl nb * sc.mat_beta (sc.mat_bnl nb) * u2b nb)
            / (1 + sc.lo2 * sc.ssaf_bnl nb * sc.mat_beta (sc.mat_bnl nb)))
    0 sc.Nbl (fdNode sc u2b) s (by omega)
    ⟨fun _ _ _ => ⟨rfl, rfl⟩, by rw [if_pos h1]⟩
    (by
      intro i hi1 hi2 x hx
      obtain ⟨hx1, hx2⟩ := hx
      constructor
      · intro m hm1 hm2
        have hfr := fdNode_aux_frame sc u2b i x (nb * MMb + m) (by
          intro m' hm'1 hm'2
          by_cases hin : i = nb
          · subst hin
            omega
          · have := hMMb i hi1 hi2
            unfold MMb at this hm2 ⊢
            omega)
        rw [hfr.1, hfr.2]
        exact hx1 m hm1 hm2
      · by_cases hin : i = nb
        · subst hin
          rw [fdNode_u0b_base sc u2b i x (by omega), if_neg (by omega), hx2, if_pos le_rfl]
        · rw [fdNode_u0b_other sc u2b i x nb (Ne.symm hin), hx2]
          by_cases hlt : i ≤ nb
          · rw [if_pos hlt, if_pos (by omega)]
          · rw [if_neg hlt, if_neg (by omega)])
  obtain ⟨k1, k2⟩ := key
  rw [if_neg (by omega)] at k2
  exact ⟨k2, k1⟩

theorem fd_no_branch_base_correction_witness :
    ((0 : Int) ≤ 0 ∧ (0 : Int) < exFd.Nbl ∧ exFd.Mb (exFd.mat_bnl 0) = 0
        ∧ (∀ j, 0 ≤ j → j < exFd.Nbl → exFd.Mb (exFd.mat_bnl j) ≤ MMb))
      ∧ ((process_bnl_pts_fd exFd rampBuf rampFd).u0b 0
          = (rampFd.u0b 0 + exFd.lo2 * exFd.ssaf_bnl 0 * exFd.mat_beta (exFd.mat_bnl 0)
              * rampBuf 0)
            / (1 + exFd.lo2 * exFd.ssaf_bnl 0 * exFd.mat_beta (exFd.mat_bnl 0))
        ∧ ∀ m, 0 ≤ m → m < MMb →
            (process_bnl_pts_fd exFd rampBuf rampFd).vh1 (0 * MMb + m) = rampFd.vh1 (0 * MMb + m)
            ∧ (process_bnl_pts_fd exFd rampBuf rampFd).gh1 (0 * MMb + m)
              = rampFd.gh1 (0 * MMb + m)) :=
  have hM : ∀ j, 0 ≤ j → j < exFd.Nbl → exFd.Mb (exFd.mat_bnl j) ≤ MMb := by
    intro j _ _
    show (if (if j = 1 then (1 : Int) else 0) = 1 then (1 : Int) else 0) ≤ 12
    split_ifs <;> omega
  ⟨⟨by decide, by decide, by decide, hM⟩,
    fd_no_branch_base_correction exFd rampBuf rampFd 0 (by decide) (by decide) (by decide) hM⟩

/-! ## C9: Halo patch, non-folded -/

/-- C9: halo patch, non-folded schemes (`fcc_flag ≠ 2`), `Nx, Ny, Nz ≥ 4`: after the
mirroring passes every cell `(ix, iy, iz)` of `U_prev` holds the pre-patch value of the
cell `(r ix, r iy, r iz)`, where `r = mirror N` maps `0` to `2`, `N-1` to `N-3` and every
other coordinate to itself; hence the six face equalities hold at once (edges and corners
included) and no interior cell is changed. -/
theorem halo_patch_mirror (sc : Scene) (u : Int → ℚ) (hf : sc.fcc_flag ≠ 2)
    (hNx : 4 ≤ sc.Nx) (hNy : 4 ≤ sc.Ny) (hNz : 4 ≤ sc.Nz) :
    (∀ ix iy iz, 0 ≤ ix → ix < sc.Nx → 0 ≤ iy → iy < sc.Ny → 0 ≤ iz → iz < sc.Nz →
        haloPatch sc u (ix * (sc.Nz * sc.Ny) + iy * sc.Nz + iz)
          = u (mirror sc.Nx ix * (sc.Nz * sc.Ny) + mirror sc.Ny iy * sc.Nz + mirror sc.Nz iz))
      ∧ (∀ ix iy, 0 ≤ ix → ix < sc.Nx → 0 ≤ iy → iy < sc.Ny →
          haloPatch sc u (lin sc ix iy 0) = haloPatch sc u (lin sc ix iy 2)
          ∧ haloPatch sc u (lin sc ix iy (sc.Nz - 1)) = haloPatch sc u (lin sc ix iy (sc.Nz - 3)))
      ∧ (∀ ix iz, 0 ≤ ix → ix < sc.Nx → 0 ≤ iz → iz < sc.Nz →
          haloPatch sc u (lin sc ix 0 iz) = haloPatch sc u (lin sc ix 2 iz)
          ∧ haloPatch sc u (lin sc ix (sc.Ny - 1) iz) = haloPatch sc u (lin sc ix (sc.Ny - 3) iz))
      ∧ (∀ iy iz, 0 ≤ iy → iy < sc.Ny → 0 ≤ iz → iz < sc.Nz →
          haloPatch sc u (lin sc 0 iy iz) = haloPatch sc u (lin sc 2 iy iz)
          ∧ haloPatch sc u (lin sc (sc.Nx - 1) iy iz) = haloPatch sc u (lin sc (sc.Nx - 3) iy iz))
      ∧ (∀ ix iy iz, 1 ≤ ix → ix < sc.Nx - 1 → 1 ≤ iy → iy < sc.Ny - 1 → 1 ≤ iz →
          iz < sc.Nz - 1 → haloPatch sc u (lin sc ix iy iz) = u (lin sc ix iy iz)) := by
  have main : ∀ ix iy iz, 0 ≤ ix → ix < sc.Nx → 0 ≤ iy → iy < sc.Ny → 0 ≤ iz → iz < sc.Nz →
      haloPatch sc u (lin sc ix iy iz)
        = u (lin sc (mirror sc.Nx ix) (mirror sc.Ny iy) (mirror sc.Nz iz)) := by
    intro ix iy iz a b c d e f
    have hp : haloPatch sc u = haloFlips sc u := by
      unfold haloPatch
      rw [if_neg hf]
    rw [hp]
    exact haloFlips_apply sc u hf hNx hNy hNz ix iy iz ⟨a, b⟩ ⟨c, d⟩ ⟨e, f⟩
  have m0 : ∀ N : Int, 4 ≤ N → mirror N 0 = mirror N 2 := by
    intro N hN; unfold mirror; split_ifs <;> omega
  have m1 : ∀ N : Int, 4 ≤ N → mirror N (N - 1) = mirror N (N - 3) := by
    intro N hN; unfold mirror; split_ifs <;> omega
  have mi : ∀ N c : Int, 1 ≤ c → c < N - 1 → mirror N c = c := by
    intro N c h1 h2; unfold mirror; split_ifs <;> omega
  refine ⟨main, ?_, ?_, ?_, ?_⟩
  · intro ix iy a b c d
    constructor
    · rw [main ix iy 0 a b c d le_rfl (by omega), main ix iy 2 a b c d (by omega) (by omega),
        m0 sc.Nz hNz]
    · rw [main ix iy (sc.Nz - 1) a b c d (by omega) (by omega),
        main ix iy (sc.Nz - 3) a b c d (by omega) (by omega), m1 sc.Nz hNz]
  · intro ix iz a b c d
    constructor
    · rw [main ix 0 iz a b le_rfl (by omega) c d, main ix 2 iz a b (by omega) (by omega) c d,
        m0 sc.Ny hNy]
    · rw [main ix (sc.Ny - 1) iz a b (by omega) (by omega) c d,
        main ix (sc.Ny - 3) iz a b (by omega) (by omega) c d, m1 sc.Ny hNy]
  · intro iy iz a b c d
    constructor
    · rw [main 0 iy iz le_rfl (by omega) a b c d, main 2 iy iz (by omega) (by omega) a b c d,
        m0 sc.Nx hNx]
    · rw [main (sc.Nx - 1) iy iz (by omega) (by omega) a b c d,
        main (sc.Nx - 3) iy iz (by omega) (by omega) a b c d, m1 sc.Nx hNx]
  · intro ix iy iz a b c d e f
    rw [main ix iy iz (by omega) (by omega) (by omega) (by omega) (by omega) (by omega),
      mi _ _ a b, mi _ _ c d, mi _ _ e f]

theorem halo_patch_mirror_witness :
    (ex4.fcc_flag ≠ 2 ∧ 4 ≤ ex4.Nx ∧ 4 ≤ ex4.Ny ∧ 4 ≤ ex4.Nz
        ∧ (0 : Int) ≤ 0 ∧ (0 : Int) < ex4.Nx ∧ (0 : Int) ≤ 3 ∧ (3 : Int) < ex4.Ny
        ∧ (0 : Int) ≤ 1 ∧ (1 : Int) < ex4.Nz)
      ∧ haloPatch ex4 rampBuf (0 * (ex4.Nz * ex4.Ny) + 3 * ex4.Nz + 1)
        = rampBuf (mirror ex4.Nx 0 * (ex4.Nz * ex4.Ny) + mirror ex4.Ny 3 * ex4.Nz
            + mirror ex4.Nz 1) :=
  ⟨⟨by decide, by decide, by decide, by decide, by decide, by decide, by decide, by decide,
      by decide, by decide⟩,
    (halo_patch_mirror ex4 rampBuf (by decide) (by decide) (by decide) (by decide)).1 0 3 1
      (by decide) (by decide) (by decide) (by decide) (by decide) (by decide)⟩

/-! ## C10: Halo patch, folded -/

/-- C10: halo patch, folded FCC scheme (`fcc_flag = 2`), `Nx, Nz ≥ 4`, `Ny ≥ 3`: the
`iy = Ny-1` face is copied from `iy = Ny-2` before the `iz` mirroring and the
`iy = Ny-1 ← Ny-3` pass is not executed; after the whole patch
`U_prev[ix, Ny-1, iz] = U_prev[ix, Ny-2, iz]` for every `ix`, `iz`, while the `iz = 0`,
`iz = Nz-1`, `iy = 0`, `ix = 0` and `ix = Nx-1` faces equal their distance-2 cells. -/
theorem halo_patch_folded (sc : Scene) (u : Int → ℚ) (hf : sc.fcc_flag = 2)
    (hNx : 4 ≤ sc.Nx) (hNy : 3 ≤ sc.Ny) (hNz : 4 ≤ sc.Nz) :
    haloPatch sc u = haloX sc (haloYlo sc (haloZ sc (foldedCopy sc u)))
      ∧ (∀ ix iz, 0 ≤ ix → ix < sc.Nx → 0 ≤ iz → iz < sc.Nz →
          haloPatch sc u (lin sc ix (sc.Ny - 1) iz) = haloPatch sc u (lin sc ix (sc.Ny - 2) iz)
          ∧ haloPatch sc u (lin sc ix 0 iz) = haloPatch sc u (lin sc ix 2 iz))
      ∧ (∀ ix iy, 0 ≤ ix → ix < sc.Nx → 0 ≤ iy → iy < sc.Ny →
          haloPatch sc u (lin sc ix iy 0) = haloPatch sc u (lin sc ix iy 2)
          ∧ haloPatch sc u (lin sc ix iy (sc.Nz - 1)) = haloPatch sc u (lin sc ix iy (sc.Nz - 3)))
      ∧ (∀ iy iz, 0 ≤ iy → iy < sc.Ny → 0 ≤ iz → iz < sc.Nz →
          haloPatch sc u (lin sc 0 iy iz) = haloPatch sc u (lin sc 2 iy iz)
          ∧ haloPatch sc u (lin sc (sc.Nx - 1) iy iz)
            = haloPatch sc u (lin sc (sc.Nx - 3) iy iz)) := by
  have main := haloPatch_folded_apply sc u hf hNx hNy hNz
  have m0 : ∀ N : Int, 4 ≤ N → mirror N 0 = mirror N 2 := by
    intro N hN; unfold mirror; split_ifs <;> omega
  have m1 : ∀ N : Int, 4 ≤ N → mirror N (N - 1) = mirror N (N - 3) := by
    intro N hN; unfold mirror; split_ifs <;> omega
  refine ⟨?_, ?_, ?_, ?_⟩
  · unfold haloPatch haloFlips
    simp only [hf, if_true, ne_eq, not_true_eq_false, if_false]
  · intro ix iz a b c d
    constructor
    · rw [main ix (sc.Ny - 1) iz ⟨a, b⟩ (by omega) ⟨c, d⟩,
        main ix (sc.Ny - 2) iz ⟨a, b⟩ (by omega) ⟨c, d⟩]
      congr 2
      split_ifs <;> omega
    · rw [main ix 0 iz ⟨a, b⟩ (by omega) ⟨c, d⟩, main ix 2 iz ⟨a, b⟩ (by omega) ⟨c, d⟩]
      congr 2
      split_ifs <;> omega
  · intro ix iy a b c d
    constructor
    · rw [main ix iy 0 ⟨a, b⟩ ⟨c, d⟩ (by omega), main ix iy 2 ⟨a, b⟩ ⟨c, d⟩ (by omega),
        m0 sc.Nz hNz]
    · rw [main ix iy (sc.Nz - 1) ⟨a, b⟩ ⟨c, d⟩ (by omega),
        main ix iy (sc.Nz - 3) ⟨a, b⟩ ⟨c, d⟩ (by omega), m1 sc.Nz hNz]
  · intro iy iz a b c d
    constructor
    · rw [main 0 iy iz (by omega) ⟨a, b⟩ ⟨c, d⟩, main 2 iy iz (by omega) ⟨a, b⟩ ⟨c, d⟩,
        m0 sc.Nx hNx]
    · rw [main (sc.Nx - 1) iy iz (by omega) ⟨a, b⟩ ⟨c, d⟩,
        main (sc.Nx - 3) iy iz (by omega) ⟨a, b⟩ ⟨c, d⟩, m1 sc.Nx hNx]

theorem halo_patch_folded_witness :
    (ex4f.fcc_flag = 2 ∧ 4 ≤ ex4f.Nx ∧ 3 ≤ ex4f.Ny ∧ 4 ≤ ex4f.Nz
        ∧ (0 : Int) ≤ 1 ∧ (1 : Int) < ex4f.Nx ∧ (0 : Int) ≤ 2 ∧ (2 : Int) < ex4f.Nz)
      ∧ (haloPatch ex4f rampBuf (lin ex4f 1 (ex4f.Ny - 1) 2)
          = haloPatch ex4f rampBuf (lin ex4f 1 (ex4f.Ny - 2) 2)
        ∧ haloPatch ex4f rampBuf (lin ex4f 1 0 2) = haloPatch ex4f rampBuf (lin ex4f 1 2 2)) :=
  ⟨⟨by decide, by decide, by decide, by decide, by decide, by decide, by decide, by decide⟩,
    (halo_patch_folded ex4f rampBuf (by decide) (by decide) (by decide) (by decide)).2.1 1 2
      (by decide) (by decide) (by decide) (by decide)⟩

/-! ## C11: Cartesian air stencil -/

/-- C11: cartesian air stencil (`fcc_flag = 0`): after the air pass every interior cell
`ii = ix * (Nz * Ny) + iy * Nz + iz` whose bit `ii % 8` of `bn_mask[ii >> 3]` is clear
holds `a1 * U_prev[ii] - U_curr_old[ii] + a2 * (sum of U_prev at ii ± NzNy, ii ± Nz, ii ± 1)`;
every other cell of `U_curr` (ring cells, cells whose mask bit is set) is left unchanged,
and `U_prev` stays as the halo patch left it. -/
theorem air_cart_stencil (sc : Scene) (hf : sc.fcc_flag = 0) (u1 u0 : Int → ℚ) :
    (∀ ix iy iz ii, 1 ≤ ix → ix < sc.Nx - 1 → 1 ≤ iy → iy < sc.Ny - 1 → 1 ≤ iz →
        iz < sc.Nz - 1 → ii = ix * (sc.Nz * sc.Ny) + iy * sc.Nz + iz →
        (sc.bn_mask (ii >>> 3)).testBit (ii % 8).toNat = false →
        airUpdate sc u1 u0 ii
          = sc.a1 * u1 ii - u0 ii
            + sc.a2 * (u1 (ii + sc.Nz * sc.Ny) + u1 (ii - sc.Nz * sc.Ny) + u1 (ii + sc.Nz)
              + u1 (ii - sc.Nz) + u1 (ii + 1) + u1 (ii - 1)))
      ∧ (∀ j, (∀ ix iy iz, 1 ≤ ix → ix < sc.Nx - 1 → 1 ≤ iy → iy < sc.Ny - 1 → 1 ≤ iz →
            iz < sc.Nz - 1 → j = ix * (sc.Nz * sc.Ny) + iy * sc.Nz + iz →
            (sc.bn_mask (j >>> 3)).testBit (j % 8).toNat = true) →
          airUpdate sc u1 u0 j = u0 j)
      ∧ (∀ st, (samplePasses sc st).u1 = haloPatch sc st.u1) := by
  have hA : airUpdate sc u1 u0 = airCart sc u1 u0 := by
    unfold airUpdate
    rw [if_pos hf]
  refine ⟨?_, ?_, fun _ => rfl⟩
  · intro ix iy iz ii a b c d e f hii hbit
    rw [hA]
    have hc : interior sc (ix, iy, iz) := ⟨⟨a, b⟩, ⟨c, d⟩, ⟨e, f⟩⟩
    have hl : linc sc (ix, iy, iz) = ii := hii.symm
    have hm : maskClear sc ii = true := by
      rw [maskClear_eq, hbit]
      rfl
    have := (airCart_apply sc u1 u0).1 (ix, iy, iz) hc
    rw [hl, hm, if_pos rfl] at this
    rw [this]
    unfold airCartVal
    ring
  · intro j hj
    rw [hA]
    refine airCart_frame sc u1 u0 j ?_
    intro c hc hcj
    rw [maskClear_eq, hj c.1 c.2.1 c.2.2 hc.1.1 hc.1.2 hc.2.1.1 hc.2.1.2 hc.2.2.1 hc.2.2.2
      hcj.symm]
    rfl

theorem air_cart_stencil_witness :
    (ex4.fcc_flag = 0
        ∧ (1 : Int) ≤ 1 ∧ (1 : Int) < ex4.Nx - 1 ∧ (1 : Int) ≤ 1 ∧ (1 : Int) < ex4.Ny - 1
        ∧ (1 : Int) ≤ 1 ∧ (1 : Int) < ex4.Nz - 1
        ∧ (21 : Int) = 1 * (ex4.Nz * ex4.Ny) + 1 * ex4.Nz + 1
        ∧ (ex4.bn_mask ((21 : Int) >>> 3)).testBit ((21 : Int) % 8).toNat = false)
      ∧ airUpdate ex4 rampBuf zeroBuf 21
        = ex4.a1 * rampBuf 21 - zeroBuf 21
          + ex4.a2 * (rampBuf (21 + ex4.Nz * ex4.Ny) + rampBuf (21 - ex4.Nz * ex4.Ny)
            + rampBuf (21 + ex4.Nz) + rampBuf (21 - ex4.Nz) + rampBuf (21 + 1)
            + rampBuf (21 - 1)) :=
  ⟨⟨by decide, by decide, by decide, by decide, by decide, by decide, by decide, by decide,
      by decide⟩,
    (air_cart_stencil ex4 (by decide) rampBuf zeroBuf).1 1 1 1 21 (by decide) (by decide)
      (by decide) (by decide) (by decide) (by decide) (by decide) (by decide)⟩

/-! ## C12: FCC air stencil -/

/-- C12: FCC air stencil. With `fcc_flag = 1` the air pass stores
`a1 * U_prev[ii] - U_curr_old[ii] + a2 * (sum of U_prev over the 12 FCC offsets)` at every
interior cell with `ix + iy + iz` even whose mask bit is clear, it leaves every index that
is not such a cell unchanged, and in particular leaves every interior cell with
`ix + iy + iz` odd unchanged; with `fcc_flag = 2` every interior cell whose mask bit is
clear receives the stencil value. -/
theorem air_fcc_stencil (sc : Scene) (u1 u0 : Int → ℚ) :
    (sc.fcc_flag = 1 →
        (∀ ix iy iz ii, 1 ≤ ix → ix < sc.Nx - 1 → 1 ≤ iy → iy < sc.Ny - 1 → 1 ≤ iz →
          iz < sc.Nz - 1 → ii = ix * (sc.Nz * sc.Ny) + iy * sc.Nz + iz →
          (ix + iy + iz) % 2 = 0 →
          (sc.bn_mask (ii >>> 3)).testBit (ii % 8).toNat = false →
          airUpdate sc u1 u0 ii = airFccVal sc u1 u0 ii)
        ∧ (∀ j, (∀ ix iy iz, 1 ≤ ix → ix < sc.Nx - 1 → 1 ≤ iy → iy < sc.Ny - 1 → 1 ≤ iz →
              iz < sc.Nz - 1 → j = ix * (sc.Nz * sc.Ny) + iy * sc.Nz + iz →
              (ix + iy + iz) % 2 = 0 →
              (sc.bn_mask (j >>> 3)).testBit (j % 8).toNat = true) →
            airUpdate sc u1 u0 j = u0 j)
        ∧ (∀ ix iy iz, 1 ≤ ix → ix < sc.Nx - 1 → 1 ≤ iy → iy < sc.Ny - 1 → 1 ≤ iz →
            iz < sc.Nz - 1 → (ix + iy + iz) % 2 = 1 →
            airUpdate sc u1 u0 (ix * (sc.Nz * sc.Ny) + iy * sc.Nz + iz)
              = u0 (ix * (sc.Nz * sc.Ny) + iy * sc.Nz + iz)))
      ∧ (sc.fcc_flag = 2 →
        ∀ ix iy iz ii, 1 ≤ ix → ix < sc.Nx - 1 → 1 ≤ iy → iy < sc.Ny - 1 → 1 ≤ iz →
          iz < sc.Nz - 1 → ii = ix * (sc.Nz * sc.Ny) + iy * sc.Nz + iz →
          (sc.bn_mask (ii >>> 3)).testBit (ii % 8).toNat = false →
          airUpdate sc u1 u0 ii = airFccVal sc u1 u0 ii) := by
  have hA : 0 < sc.fcc_flag → airUpdate sc u1 u0 = airFcc sc u1 u0 := by
    intro h
    unfold airUpdate
    rw [if_neg (by omega), if_pos h]
  have hval : ∀ ix iy iz ii, 1 ≤ ix → ix < sc.Nx - 1 → 1 ≤ iy → iy < sc.Ny - 1 → 1 ≤ iz →
      iz < sc.Nz - 1 → ii = ix * (sc.Nz * sc.Ny) + iy * sc.Nz + iz →
      fccActive sc (ix, iy, iz) →
      (sc.bn_mask (ii >>> 3)).testBit (ii % 8).toNat = false →
      airFcc sc u1 u0 ii = airFccVal sc u1 u0 ii := by
    intro ix iy iz ii a b c d e f hii hact hbit
    have hc : interior sc (ix, iy, iz) := ⟨⟨a, b⟩, ⟨c, d⟩, ⟨e, f⟩⟩
    have hl : linc sc (ix, iy, iz) = ii := hii.symm
    have hm : maskClear sc ii = true := by
      rw [maskClear_eq, hbit]
      rfl
    have := (airFcc_apply sc u1 u0).1 (ix, iy, iz) hc
    rw [hl, if_pos ⟨hact, hm⟩] at this
    exact this
  constructor
  · intro hf
    rw [hA (by omega)]
    refine ⟨?_, ?_, ?_⟩
    · intro ix iy iz ii a b c d e f hii hpar hbit
      exact hval ix iy iz ii a b c d e f hii (fun _ => hpar) hbit
    · intro j hj
      refine airFcc_frame sc u1 u0 j ?_
      intro c hc hcj hact
      rw [maskClear_eq, hj c.1 c.2.1 c.2.2 hc.1.1 hc.1.2 hc.2.1.1 hc.2.1.2 hc.2.2.1 hc.2.2.2
        hcj.symm (hact hf)]
      rfl
    · intro ix iy iz a b c d e f hpar
      refine airFcc_frame sc u1 u0 _ ?_
      intro c' hc' hcj hact
      have hc : interior sc (ix, iy, iz) := ⟨⟨a, b⟩, ⟨c, d⟩, ⟨e, f⟩⟩
      have := linc_inj sc c' (ix, iy, iz) (interior_inGrid sc c' hc')
        (interior_inGrid sc _ hc) hcj
      subst this
      have := hact hf
      simp only at this
      omega
  · intro hf ix iy iz ii a b c d e f hii hbit
    rw [hA (by omega)]
    exact hval ix iy iz ii a b c d e f hii (fun h => by omega) hbit

theorem air_fcc_stencil_witness :
    (ex4c.fcc_flag = 1
        ∧ (1 : Int) ≤ 1 ∧ (1 : Int) < ex4c.Nx - 1 ∧ (1 : Int) ≤ 1 ∧ (1 : Int) < ex4c.Ny - 1
        ∧ (1 : Int) ≤ 2 ∧ (2 : Int) < ex4c.Nz - 1
        ∧ (22 : Int) = 1 * (ex4c.Nz * ex4c.Ny) + 1 * ex4c.Nz + 2
        ∧ ((1 : Int) + 1 + 2) % 2 = 0
        ∧ (ex4c.bn_mask ((22 : Int) >>> 3)).testBit ((22 : Int) % 8).toNat = false)
      ∧ airUpdate ex4c rampBuf zeroBuf 22 = airFccVal ex4c rampBuf zeroBuf 22
      ∧ (ex4f.fcc_flag = 2
        ∧ (21 : Int) = 1 * (ex4f.Nz * ex4f.Ny) + 1 * ex4f.Nz + 1
        ∧ (ex4f.bn_mask ((21 : Int) >>> 3)).testBit ((21 : Int) % 8).toNat = false)
      ∧ airUpdate ex4f rampBuf zeroBuf 21 = airFccVal ex4f rampBuf zeroBuf 21 :=
  ⟨⟨by decide, by decide, by decide, by decide, by decide, by decide, by decide, by decide,
      by decide, by decide⟩,
    ((air_fcc_stencil ex4c rampBuf zeroBuf).1 (by decide)).1 1 1 2 22 (by decide) (by decide)
      (by decide) (by decide) (by decide) (by decide) (by decide) (by decide) (by decide),
    ⟨by decide, by decide, by decide⟩,
    (air_fcc_stencil ex4f rampBuf zeroBuf).2 (by decide) 1 1 1 21 (by decide) (by decide)
      (by decide) (by decide) (by decide) (by decide) (by decide) (by decide)⟩

/-! ## C13: Cartesian rigid-boundary stencil -/

/-- C13: cartesian rigid-boundary stencil within a sample. For a rigid node `nb` whose
cell `ii = bn_ixyz[nb]` lies off the outermost ring, has its `bn_mask` bit set and is not
an ABC node, and with `bn_ixyz` free of duplicates, the value of `U_curr[ii]` after the
rigid pass is `(2 - sl2 * K) * U_prev[ii] - U0[ii] + a2 * (sum over j = 0..5 of
bit(adj, j) * U_prev[ii + offset_j])` with `U0` the buffer `U_curr` at the start of the
sample, `U_prev` the halo-patched previous field (equal to the stored one at `ii`),
`K` the number of set bits of the 16-bit word `adj_bn[nb]`, and offsets `+NzNy, -NzNy,
+Nz, -Nz, +1, -1` in bit order. -/
theorem rigid_cart_stencil (sc : Scene) (hf : sc.fcc_flag = 0) (st : State)
    (nb ix iy iz : Int) (hnb : 0 ≤ nb ∧ nb < sc.Nb)
    (hx : 1 ≤ ix ∧ ix < sc.Nx - 1) (hy : 1 ≤ iy ∧ iy < sc.Ny - 1)
    (hz : 1 ≤ iz ∧ iz < sc.Nz - 1)
    (hii : sc.bn_ixyz nb = ix * (sc.Nz * sc.Ny) + iy * sc.Nz + iz)
    (hmask : (sc.bn_mask (sc.bn_ixyz nb >>> 3)).testBit (sc.bn_ixyz nb % 8).toNat = true)
    (habc : ∀ na, 0 ≤ na → na < sc.Nba → sc.bna_ixyz na ≠ sc.bn_ixyz nb)
    (hinj : ∀ a b, 0 ≤ a → a < sc.Nb → 0 ≤ b → b < sc.Nb →
      sc.bn_ixyz a = sc.bn_ixyz b → a = b) :
    afterRigid sc st (sc.bn_ixyz nb)
        = (2 - sc.sl2 * (bitCount 16 (sc.adj_bn nb % 65536) : ℚ))
            * haloPatch sc st.u1 (sc.bn_ixyz nb)
          - st.u0 (sc.bn_ixyz nb)
          + sc.a2 * (
            (GET_BIT (sc.adj_bn nb % 65536) 0 : ℚ)
                * haloPatch sc st.u1 (sc.bn_ixyz nb + sc.Nz * sc.Ny)
              + (GET_BIT (sc.adj_bn nb % 65536) 1 : ℚ)
                * haloPatch sc st.u1 (sc.bn_ixyz nb - sc.Nz * sc.Ny)
              + (GET_BIT (sc.adj_bn nb % 65536) 2 : ℚ)
                * haloPatch sc st.u1 (sc.bn_ixyz nb + sc.Nz)
              + (GET_BIT (sc.adj_bn nb % 65536) 3 : ℚ)
                * haloPatch sc st.u1 (sc.bn_ixyz nb - sc.Nz)
              + (GET_BIT (sc.adj_bn nb % 65536) 4 : ℚ)
                * haloPatch sc st.u1 (sc.bn_ixyz nb + 1)
              + (GET_BIT (sc.adj_bn nb % 65536) 5 : ℚ)
                * haloPatch sc st.u1 (sc.bn_ixyz nb - 1))
      ∧ haloPatch sc st.u1 (sc.bn_ixyz nb) = st.u1 (sc.bn_ixyz nb)
      ∧ (samplePasses sc st).u0
          = writeBnl sc (samplePasses sc st).u0b (afterRigid sc st) := by
  refine ⟨?_, ?_, rfl⟩
  · have hR : afterRigid sc st = rigidCart sc (haloPatch sc st.u1) (afterABC sc st) := by
      unfold afterRigid rigidUpdate
      rw [if_pos hf]
    rw [hR, (rigidCart_apply sc _ _ hinj).1 nb hnb.1 hnb.2,
      popcountLoop_bitCount _ (Nat.mod_lt _ (by decide))]
    have h0 : afterABC sc st (sc.bn_ixyz nb) = st.u0 (sc.bn_ixyz nb) := by
      unfold afterABC
      rw [abcLoss_frame sc _ _ _ habc]
      unfold afterAir
      exact airUpdate_masked sc hf _ _ _ hmask
    rw [h0]
  · rw [hii]
    exact haloPatch_offring sc st.u1 ix iy iz hx hy hz

theorem rigid_cart_stencil_witness :
    (exRigid.fcc_flag = 0 ∧ ((0 : Int) ≤ 0 ∧ (0 : Int) < exRigid.Nb)
        ∧ ((1 : Int) ≤ 1 ∧ (1 : Int) < exRigid.Nx - 1)
        ∧ ((1 : Int) ≤ 1 ∧ (1 : Int) < exRigid.Ny - 1)
        ∧ ((1 : Int) ≤ 1 ∧ (1 : Int) < exRigid.Nz - 1)
        ∧ exRigid.bn_ixyz 0 = 1 * (exRigid.Nz * exRigid.Ny) + 1 * exRigid.Nz + 1
        ∧ (exRigid.bn_mask (exRigid.bn_ixyz 0 >>> 3)).testBit (exRigid.bn_ixyz 0 % 8).toNat
            = true
        ∧ (∀ na, 0 ≤ na → na < exRigid.Nba → exRigid.bna_ixyz na ≠ exRigid.bn_ixyz 0)
        ∧ (∀ a b, 0 ≤ a → a < exRigid.Nb → 0 ≤ b → b < exRigid.Nb →
            exRigid.bn_ixyz a = exRigid.bn_ixyz b → a = b))
      ∧ afterRigid exRigid rampState (exRigid.bn_ixyz 0)
        = (2 - exRigid.sl2 * (bitCount 16 (exRigid.adj_bn 0 % 65536) : ℚ))
            * haloPatch exRigid rampState.u1 (exRigid.bn_ixyz 0)
          - rampState.u0 (exRigid.bn_ixyz 0)
          + exRigid.a2 * (
            (GET_BIT (exRigid.adj_bn 0 % 65536) 0 : ℚ)
                * haloPatch exRigid rampState.u1 (exRigid.bn_ixyz 0 + exRigid.Nz * exRigid.Ny)
              + (GET_BIT (exRigid.adj_bn 0 % 65536) 1 : ℚ)
                * haloPatch exRigid rampState.u1 (exRigid.bn_ixyz 0 - exRigid.Nz * exRigid.Ny)
              + (GET_BIT (exRigid.adj_bn 0 % 65536) 2 : ℚ)
                * haloPatch exRigid rampState.u1 (exRigid.bn_ixyz 0 + exRigid.Nz)
              + (GET_BIT (exRigid.adj_bn 0 % 65536) 3 : ℚ)
                * haloPatch exRigid rampState.u1 (exRigid.bn_ixyz 0 - exRigid.Nz)
              + (GET_BIT (exRigid.adj_bn 0 % 65536) 4 : ℚ)
                * haloPatch exRigid rampState.u1 (exRigid.bn_ixyz 0 + 1)
              + (GET_BIT (exRigid.adj_bn 0 % 65536) 5 : ℚ)
                * haloPatch exRigid rampState.u1 (exRigid.bn_ixyz 0 - 1)) :=
  have habc : ∀ na, 0 ≤ na → na < exRigid.Nba → exRigid.bna_ixyz na ≠ exRigid.bn_ixyz 0 := by
    intro na h1 h2
    have : exRigid.Nba = 0 := rfl
    omega
  have hinj : ∀ a b, 0 ≤ a → a < exRigid.Nb → 0 ≤ b → b < exRigid.Nb →
      exRigid.bn_ixyz a = exRigid.bn_ixyz b → a = b := by
    intro a b h1 h2 h3 h4 _
    have : exRigid.Nb = 1 := rfl
    omega
  ⟨⟨by decide, ⟨by decide, by decide⟩, ⟨by decide, by decide⟩, ⟨by decide, by decide⟩,
      ⟨by decide, by decide⟩, by decide, by decide, habc, hinj⟩,
    (rigid_cart_stencil exRigid (by decide) rampState 0 1 1 1 ⟨by decide, by decide⟩
      ⟨by decide, by decide⟩ ⟨by decide, by decide⟩ ⟨by decide, by decide⟩ (by decide)
      (by decide) habc hinj).1⟩

/-! ## C14: coefficient of the FCC rigid-boundary stencil -/

/-- C14, counterexample: for the adjacency word `4096` (only bit 12 set) the FCC rigid
pass uses `K = 1`, while none of the neighbour bits `0..11` is set: the stored value is
not the one built from the 12-bit count. -/
theorem rigid_fcc_K_counts_high_bits :
    0 < exRigidF.fcc_flag
      ∧ bitCount 12 (exRigidF.adj_bn 0 % 65536) = 0
      ∧ popcountLoop (exRigidF.adj_bn 0 % 65536) 0 = 1
      ∧ rigidUpdate exRigidF rampBuf zeroBuf (exRigidF.bn_ixyz 0)
          = rigidFccVal exRigidF rampBuf zeroBuf 0 1
      ∧ rigidUpdate exRigidF rampBuf zeroBuf (exRigidF.bn_ixyz 0)
          ≠ rigidFccVal exRigidF rampBuf zeroBuf 0
              (bitCount 12 (exRigidF.adj_bn 0 % 65536) : ℚ) := by
  have hinj : ∀ a b, 0 ≤ a → a < exRigidF.Nb → 0 ≤ b → b < exRigidF.Nb →
      exRigidF.bn_ixyz a = exRigidF.bn_ixyz b → a = b := by
    intro a b h1 h2 h3 h4 _
    have : exRigidF.Nb = 1 := rfl
    omega
  have hK : popcountLoop (exRigidF.adj_bn 0 % 65536) 0 = 1 := by
    rw [popcountLoop_bitCount _ (by decide)]
    decide
  have hR : rigidUpdate exRigidF rampBuf zeroBuf = rigidFcc exRigidF rampBuf zeroBuf := by
    unfold rigidUpdate
    rw [if_neg (by decide), if_pos (by decide)]
  have hv : rigidUpdate exRigidF rampBuf zeroBuf (exRigidF.bn_ixyz 0)
      = rigidFccVal exRigidF rampBuf zeroBuf 0 1 := by
    rw [hR, (rigidFcc_apply exRigidF rampBuf zeroBuf hinj).1 0 (by decide) (by decide), hK]
    unfold rigidFccVal
    norm_num
  refine ⟨by decide, by decide, hK, hv, ?_⟩
  rw [hv]
  decide!

/-- C14, amended: the FCC rigid pass (`fcc_flag > 0`) is the loop over the rigid nodes that
stores the stencil value built with `b1 = 2 - sl2 * K`, where `K` is the number of set
bits among all 16 bits of `adj_bn[nb]`; this `K` exceeds the number of set neighbour bits
`0..11` by the bits `12..15`, and equals it when those four bits are clear. -/
theorem rigid_fcc_K_popcount16 (sc : Scene) (hf : 0 < sc.fcc_flag) (u1 u0 : Int → ℚ) :
    rigidUpdate sc u1 u0
        = forRange 0 sc.Nb (fun nb w => Function.update w (sc.bn_ixyz nb)
            (rigidFccVal sc u1 w nb (bitCount 16 (sc.adj_bn nb % 65536) : ℚ))) u0
      ∧ ∀ nb, bitCount 16 (sc.adj_bn nb % 65536)
            = bitCount 12 (sc.adj_bn nb % 65536) + GET_BIT (sc.adj_bn nb % 65536) 12
              + GET_BIT (sc.adj_bn nb % 65536) 13 + GET_BIT (sc.adj_bn nb % 65536) 14
              + GET_BIT (sc.adj_bn nb % 65536) 15
          ∧ (sc.adj_bn nb % 65536 < 4096 →
            bitCount 16 (sc.adj_bn nb % 65536) = bitCount 12 (sc.adj_bn nb % 65536)) := by
  constructor
  · have hR : rigidUpdate sc u1 u0 = rigidFcc sc u1 u0 := by
      unfold rigidUpdate
      rw [if_neg (by omega), if_pos hf]
    rw [hR]
    unfold rigidFcc
    refine forRange_congr _ _ _ _ ?_ _
    intro nb _ _ w
    have hK := popcountLoop_bitCount (sc.adj_bn nb % 65536) (Nat.mod_lt _ (by decide))
    simp only [hK, rigidFccVal]
    ring_nf
  · intro nb
    have hs : bitCount 16 (sc.adj_bn nb % 65536)
        = bitCount 12 (sc.adj_bn nb % 65536) + GET_BIT (sc.adj_bn nb % 65536) 12
          + GET_BIT (sc.adj_bn nb % 65536) 13 + GET_BIT (sc.adj_bn nb % 65536) 14
          + GET_BIT (sc.adj_bn nb % 65536) 15 := by
      rw [bitCount_snoc 15, bitCount_snoc 14, bitCount_snoc 13, bitCount_snoc 12]
    refine ⟨hs, ?_⟩
    intro hlt
    have hz : ∀ j, 12 ≤ j → GET_BIT (sc.adj_bn nb % 65536) j = 0 := by
      intro j hj
      unfold GET_BIT
      rw [Nat.shiftRight_eq_div_pow, Nat.div_eq_of_lt]
      · rfl
      · exact lt_of_lt_of_le hlt (by
          calc 4096 = 2 ^ 12 := by norm_num
            _ ≤ 2 ^ j := Nat.pow_le_pow_right (by decide) hj)
    rw [hs, hz 12 le_rfl, hz 13 (by decide), hz 14 (by decide), hz 15 (by decide)]
    rfl

theorem rigid_fcc_K_popcount16_witness :
    0 < exRigidF.fcc_flag
      ∧ rigidUpdate exRigidF rampBuf zeroBuf
        = forRange 0 exRigidF.Nb (fun nb w => Function.update w (exRigidF.bn_ixyz nb)
            (rigidFccVal exRigidF rampBuf w nb
              (bitCount 16 (exRigidF.adj_bn nb % 65536) : ℚ))) zeroBuf :=
  ⟨by decide, (rigid_fcc_K_popcount16 exRigidF (by decide) rampBuf zeroBuf).1⟩

/-! ## C15: Kernighan's bit-clear loop -/

/-- C15: for every 16-bit word `v`, Kernighan's loop `Kint = 0; while v != 0: v &= v - 1;
Kint++` returns the number of set bits of `v`, which is at most 16; the loop body is
executed exactly that many times (after that many passes `v` is zero, and not before),
the loop runs through the iterates of its body, and every intermediate `v` fits the
16-bit variable. -/
theorem kernighan_popcount (v : Nat) (hv : v < 65536) :
    popcountLoop v 0 = bitCount 16 v
      ∧ bitCount 16 v ≤ 16
      ∧ kernighanStep^[bitCount 16 v] (v, 0) = (0, bitCount 16 v)
      ∧ (∀ i, i < bitCount 16 v → (kernighanStep^[i] (v, 0)).1 ≠ 0)
      ∧ (∀ i, i ≤ bitCount 16 v →
          popcountLoop v 0
            = popcountLoop (kernighanStep^[i] (v, 0)).1 (kernighanStep^[i] (v, 0)).2)
      ∧ (∀ i, (kernighanStep^[i] (v, 0)).1 < 65536) := by
  have hit := kernighan_iterate 16 v v 0 le_rfl hv
  refine ⟨popcountLoop_bitCount v hv, bitCount_le 16 v, ?_, hit.2, ?_, ?_⟩
  · rw [hit.1, Nat.zero_add]
  · intro i hi
    exact popcountLoop_iterate v 0 i (fun j hj => hit.2 j (lt_of_lt_of_le hj hi))
  · intro i
    exact lt_of_le_of_lt (kernighan_le v 0 i) hv

theorem kernighan_popcount_witness :
    (4661 : Nat) < 65536
      ∧ popcountLoop 4661 0 = bitCount 16 4661
      ∧ bitCount 16 4661 = 6 :=
  ⟨by decide, (kernighan_popcount 4661 (by decide)).1, by decide⟩

/-! ## C16: ABC terminator -/

/-- C16: ABC terminator within a sample, `bna_ixyz` free of duplicates. For every ABC node
`nb` with `ib = bna_ixyz[nb]`, the snapshot `u2ba[nb]` taken in step 1 is the value
`U_curr[ib]` held at the start of the sample, and after the ABC step
`U_curr[ib] = (A + lQ * S) / (1 + lQ)` with `lQ = l * Q_bna[nb]`, `S = u2ba[nb]` and `A` the
value of `U_curr[ib]` after the air pass; cells that are not ABC nodes are left unchanged
by the ABC step. -/
theorem abc_terminator (sc : Scene) (st : State)
    (hinj : ∀ a b, 0 ≤ a → a < sc.Nba → 0 ≤ b → b < sc.Nba →
      sc.bna_ixyz a = sc.bna_ixyz b → a = b) :
    (∀ nb, 0 ≤ nb → nb < sc.Nba →
        (samplePasses sc st).u2ba nb = st.u0 (sc.bna_ixyz nb)
        ∧ afterABC sc st (sc.bna_ixyz nb)
          = (afterAir sc st (sc.bna_ixyz nb)
              + sc.l * (sc.Q_bna nb : ℚ) * (samplePasses sc st).u2ba nb)
            / (1 + sc.l * (sc.Q_bna nb : ℚ)))
      ∧ (∀ j, (∀ nb, 0 ≤ nb → nb < sc.Nba → sc.bna_ixyz nb ≠ j) →
          afterABC sc st j = afterAir sc st j) := by
  constructor
  · intro nb h1 h2
    refine ⟨copyABC_apply sc st.u0 st.u2ba nb h1 h2, ?_⟩
    exact (abcLoss_apply sc (copyABC sc st.u0 st.u2ba) (afterAir sc st) hinj).1 nb h1 h2
  · intro j hj
    exact abcLoss_frame sc _ _ j hj

theorem abc_terminator_witness :
    (∀ a b, 0 ≤ a → a < exAbc.Nba → 0 ≤ b → b < exAbc.Nba →
        exAbc.bna_ixyz a = exAbc.bna_ixyz b → a = b)
      ∧ ((samplePasses exAbc rampState).u2ba 0 = rampState.u0 (exAbc.bna_ixyz 0)
        ∧ afterABC exAbc rampState (exAbc.bna_ixyz 0)
          = (afterAir exAbc rampState (exAbc.bna_ixyz 0)
              + exAbc.l * (exAbc.Q_bna 0 : ℚ) * (samplePasses exAbc rampState).u2ba 0)
            / (1 + exAbc.l * (exAbc.Q_bna 0 : ℚ))) :=
  have hinj : ∀ a b, 0 ≤ a → a < exAbc.Nba → 0 ≤ b → b < exAbc.Nba →
      exAbc.bna_ixyz a = exAbc.bna_ixyz b → a = b := by
    intro a b h1 h2 h3 h4 _
    have : exAbc.Nba = 1 := rfl
    omega
  ⟨hinj, (abc_terminator exAbc rampState hinj).1 0 (by decide) (by decide)⟩

/-! ## C17: the FD-boundary integrator in unfused form -/

/-- C17: the FD-boundary integrator equals the unfused three-step definition. With at most
`MMb` branches per node, for every lossy node `nb` with `k = mat_bnl[nb]`, `M = Mb[k]`,
`c = lo2 * ssaf_bnl[nb] * mat_beta[k]`, `fac = 2 * lo2 * ssaf_bnl[nb] / (1 + c)`,
`u2 = u2b[nb]` and `vh_m`, `gh_m` the entry values of `vh1[nb*MMb+m]`, `gh1[nb*MMb+m]`,
`process_bnl_pts_fd` leaves
`u0b[nb] = (u0b_old[nb] + c * u2) / (1 + c) - fac * sum over m < M of
(2 * bDh_m * vh_m - bFh_m * gh_m)`, and for every `m < M`
`vh1[nb*MMb+m] = b_m * du + bd_m * vh_m - 2 * bFh_m * gh_m` and
`gh1[nb*MMb+m] = gh_m + (vh1_new + vh_m) / 2` with `du = u0b_new[nb] - u2`. -/
theorem fd_integrator_unfused (sc : Scene) (u2b : Int → ℚ) (s : FdBufs) (nb : Int)
    (h1 : 0 ≤ nb) (h2 : nb < sc.Nbl)
    (hMMb : ∀ j, 0 ≤ j → j < sc.Nbl → sc.Mb (sc.mat_bnl j) ≤ MMb) :
    (process_bnl_pts_fd sc u2b s).u0b nb
        = (s.u0b nb + sc.lo2 * sc.ssaf_bnl nb * sc.mat_beta (sc.mat_bnl nb) * u2b nb)
            / (1 + sc.lo2 * sc.ssaf_bnl nb * sc.mat_beta (sc.mat_bnl nb))
          - 2 * sc.lo2 * sc.ssaf_bnl nb
              / (1 + sc.lo2 * sc.ssaf_bnl nb * sc.mat_beta (sc.mat_bnl nb))
            * (Finset.range (sc.Mb (sc.mat_bnl nb)).toNat).sum (fun (m : Nat) =>
                2 * (sc.mat_quads (sc.mat_bnl nb * MMb + (m : Int))).bDh
                    * s.vh1 (nb * MMb + (m : Int))
                  - (sc.mat_quads (sc.mat_bnl nb * MMb + (m : Int))).bFh
                    * s.gh1 (nb * MMb + (m : Int)))
      ∧ ∀ m, 0 ≤ m → m < sc.Mb (sc.mat_bnl nb) →
          (process_bnl_pts_fd sc u2b s).vh1 (nb * MMb + m)
              = (sc.mat_quads (sc.mat_bnl nb * MMb + m)).b
                    * ((process_bnl_pts_fd sc u2b s).u0b nb - u2b nb)
                  + (sc.mat_quads (sc.mat_bnl nb * MMb + m)).bd * s.vh1 (nb * MMb + m)
                  - 2 * (sc.mat_quads (sc.mat_bnl nb * MMb + m)).bFh * s.gh1 (nb * MMb + m)
            ∧ (process_bnl_pts_fd sc u2b s).gh1 (nb * MMb + m)
              = s.gh1 (nb * MMb + m)
                + ((process_bnl_pts_fd sc u2b s).vh1 (nb * MMb + m) + s.vh1 (nb * MMb + m)) / 2 := by
  have h := process_bnl_pts_fd_node sc u2b s nb h1 h2 hMMb
  refine ⟨h.1, ?_⟩
  intro m hm1 hm2
  rw [(h.2 m hm1 hm2).1, (h.2 m hm1 hm2).2, h.1]
  exact ⟨rfl, rfl⟩

theorem fd_integrator_unfused_witness :
    ((0 : Int) ≤ 1 ∧ (1 : Int) < exFd.Nbl
        ∧ (∀ j, 0 ≤ j → j < exFd.Nbl → exFd.Mb (exFd.mat_bnl j) ≤ MMb))
      ∧ (process_bnl_pts_fd exFd rampBuf rampFd).u0b 1
        = (rampFd.u0b 1 + exFd.lo2 * exFd.ssaf_bnl 1 * exFd.mat_beta (exFd.mat_bnl 1) * rampBuf 1)
            / (1 + exFd.lo2 * exFd.ssaf_bnl 1 * exFd.mat_beta (exFd.mat_bnl 1))
          - 2 * exFd.lo2 * exFd.ssaf_bnl 1
              / (1 + exFd.lo2 * exFd.ssaf_bnl 1 * exFd.mat_beta (exFd.mat_bnl 1))
            * (Finset.range (exFd.Mb (exFd.mat_bnl 1)).toNat).sum (fun (m : Nat) =>
                2 * (exFd.mat_quads (exFd.mat_bnl 1 * MMb + (m : Int))).bDh
                    * rampFd.vh1 (1 * MMb + (m : Int))
                  - (exFd.mat_quads (exFd.mat_bnl 1 * MMb + (m : Int))).bFh
                    * rampFd.gh1 (1 * MMb + (m : Int))) :=
  have hM : ∀ j, 0 ≤ j → j < exFd.Nbl → exFd.Mb (exFd.mat_bnl j) ≤ MMb := by
    intro j _ _
    show (if (if j = 1 then (1 : Int) else 0) = 1 then (1 : Int) else 0) ≤ 12
    split_ifs <;> omega
  ⟨⟨by decide, by decide, hM⟩,
    (fd_integrator_unfused exFd rampBuf rampFd 1 (by decide) (by decide) hM).1⟩

/-! ## C18: frame of the auxiliary state -/

/-- C18: auxiliary-state frame. Within a sample `vh1` and `gh1` are handed unchanged to
`process_bnl_pts_fd` and leave the sample as that function returns them; the function
writes them only at entries `nb * MMb + m` with `nb < Nbl` and `m < Mb[mat_bnl[nb]]`;
every other entry is zero at every sample and at the end of the run, in particular (with
at most `MMb` branches per node) the entries `nb * MMb + m` with
`Mb[mat_bnl[nb]] <= m < MMb`; and the fields produced by the halo, air, ABC and rigid
passes do not depend on `vh1` or `gh1`. -/
theorem aux_state_frame (sc : Scene) :
    (∀ st g n,
        (fdEntry sc st).vh1 = st.vh1 ∧ (fdEntry sc st).gh1 = st.gh1
        ∧ (samplePasses sc st).vh1 = (process_bnl_pts_fd sc st.u2b (fdEntry sc st)).vh1
        ∧ (samplePasses sc st).gh1 = (process_bnl_pts_fd sc st.u2b (fdEntry sc st)).gh1
        ∧ (stepState sc g n st).vh1 = (samplePasses sc st).vh1
        ∧ (stepState sc g n st).gh1 = (samplePasses sc st).gh1)
      ∧ (∀ u2b s idx,
          (∀ nb m, 0 ≤ nb → nb < sc.Nbl → 0 ≤ m → m < sc.Mb (sc.mat_bnl nb) →
            nb * MMb + m ≠ idx) →
          (process_bnl_pts_fd sc u2b s).vh1 idx = s.vh1 idx
            ∧ (process_bnl_pts_fd sc u2b s).gh1 idx = s.gh1 idx)
      ∧ (∀ idx,
          (∀ nb m, 0 ≤ nb → nb < sc.Nbl → 0 ≤ m → m < sc.Mb (sc.mat_bnl nb) →
            nb * MMb + m ≠ idx) →
          (∀ n, (stateAt sc n).vh1 idx = 0 ∧ (stateAt sc n).gh1 idx = 0)
            ∧ (run sc).st.vh1 idx = 0 ∧ (run sc).st.gh1 idx = 0)
      ∧ ((∀ j, 0 ≤ j → j < sc.Nbl → sc.Mb (sc.mat_bnl j) ≤ MMb) →
          ∀ nb m, 0 ≤ nb → nb < sc.Nbl → 0 ≤ m → sc.Mb (sc.mat_bnl nb) ≤ m → m < MMb →
            (∀ n, (stateAt sc n).vh1 (nb * MMb + m) = 0 ∧ (stateAt sc n).gh1 (nb * MMb + m) = 0)
              ∧ (run sc).st.vh1 (nb * MMb + m) = 0 ∧ (run sc).st.gh1 (nb * MMb + m) = 0)
      ∧ (∀ (st : State) (v g : Int → ℚ),
          afterRigid sc { st with vh1 := v, gh1 := g } = afterRigid sc st
            ∧ (samplePasses sc { st with vh1 := v, gh1 := g }).u1 = (samplePasses sc st).u1
            ∧ (samplePasses sc { st with vh1 := v, gh1 := g }).u2ba
                = (samplePasses sc st).u2ba) := by
  have hz : ∀ idx,
      (∀ nb m, 0 ≤ nb → nb < sc.Nbl → 0 ≤ m → m < sc.Mb (sc.mat_bnl nb) →
        nb * MMb + m ≠ idx) →
      (∀ n, (stateAt sc n).vh1 idx = 0 ∧ (stateAt sc n).gh1 idx = 0)
        ∧ (run sc).st.vh1 idx = 0 ∧ (run sc).st.gh1 idx = 0 := by
    intro idx h
    refine ⟨stateAt_aux_zero sc idx h, ?_⟩
    rw [run_st]
    exact stateAt_aux_zero sc idx h _
  refine ⟨fun _ _ _ => ⟨rfl, rfl, rfl, rfl, rfl, rfl⟩,
    fun u2b s idx h => process_bnl_pts_fd_aux_frame sc u2b s idx h, hz, ?_,
    fun _ _ _ => ⟨rfl, rfl, rfl⟩⟩
  intro hMMb nb m h1 h2 hm0 hm1 hm2
  refine hz (nb * MMb + m) ?_
  intro nb' m' h1' h2' hm0' hm1'
  have := hMMb nb' h1' h2'
  unfold MMb at this hm2 ⊢
  by_cases he : nb' = nb
  · subst he
    omega
  · omega

theorem aux_state_frame_witness :
    (∀ nb m, 0 ≤ nb → nb < exFd.Nbl → 0 ≤ m → m < exFd.Mb (exFd.mat_bnl nb) →
        nb * MMb + m ≠ 5)
      ∧ (∀ n, (stateAt exFd n).vh1 5 = 0 ∧ (stateAt exFd n).gh1 5 = 0)
      ∧ (run exFd).st.vh1 5 = 0 ∧ (run exFd).st.gh1 5 = 0 :=
  have h : ∀ nb m, 0 ≤ nb → nb < exFd.Nbl → 0 ≤ m → m < exFd.Mb (exFd.mat_bnl nb) →
      nb * MMb + m ≠ 5 := by
    intro nb m h1 h2 h3 h4
    have hN : exFd.Nbl = 2 := rfl
    have hM : exFd.Mb (exFd.mat_bnl nb)
        = if (if nb = 1 then (1 : Int) else 0) = 1 then (1 : Int) else 0 := rfl
    rw [hM] at h4
    unfold MMb
    split_ifs at h4 <;> omega
  ⟨h, (aux_state_frame exFd).2.2.1 5 h⟩

/-! ## C19: the lossy shadow buffer `u2b` -/

/-- C19: if `bnl_ixyz` has no duplicates, contains no cell of the outermost ring and no
source cell, then at the start of every sample `n` of the run, and so at the call of
`process_bnl_pts_fd` in that sample, `u2b[nb]` equals `U_curr[bnl_ixyz[nb]]` as held at the
start of the sample, for every `nb < Nbl`. -/
theorem lossy_shadow_redundant (sc : Scene)
    (hinj : ∀ a b, 0 ≤ a → a < sc.Nbl → 0 ≤ b → b < sc.Nbl →
      sc.bnl_ixyz a = sc.bnl_ixyz b → a = b)
    (hring : ∀ nb, 0 ≤ nb → nb < sc.Nbl → ∃ x y z, (1 ≤ x ∧ x < sc.Nx - 1)
      ∧ (1 ≤ y ∧ y < sc.Ny - 1) ∧ (1 ≤ z ∧ z < sc.Nz - 1)
      ∧ sc.bnl_ixyz nb = x * (sc.Nz * sc.Ny) + y * sc.Nz + z)
    (hsrc : ∀ nb ns, 0 ≤ nb → nb < sc.Nbl → 0 ≤ ns → ns < sc.Ns →
      sc.in_ixyz ns ≠ sc.bnl_ixyz nb)
    (n : Nat) (nb : Int) (h1 : 0 ≤ nb) (h2 : nb < sc.Nbl) :
    (forRange 0 (n : Int) (sampleStep sc) { st := State.init, u_out := sc.u_out }).st
        = stateAt sc n
      ∧ (samplePasses sc (stateAt sc n)).u0b
        = (process_bnl_pts_fd sc (stateAt sc n).u2b (fdEntry sc (stateAt sc n))).u0b
      ∧ (stateAt sc n).u2b nb = (stateAt sc n).u0 (sc.bnl_ixyz nb) := by
  refine ⟨loop_st sc n, rfl, ?_⟩
  have hall : ∀ k : Nat, ∀ j, 0 ≤ j → j < sc.Nbl →
      (stateAt sc k).u2b j = (stateAt sc k).u0 (sc.bnl_ixyz j)
        ∧ (stateAt sc k).u1b j = (stateAt sc k).u1 (sc.bnl_ixyz j) := by
    intro k
    induction k with
    | zero => exact fun _ _ _ => ⟨rfl, rfl⟩
    | succ k ih =>
      exact shadow_invariant sc hinj hring hsrc sc.in_sigs (k : Int) (stateAt sc k) ih
  exact (hall n nb h1 h2).1

theorem lossy_shadow_redundant_witness :
    ((∀ a b, 0 ≤ a → a < exShadow.Nbl → 0 ≤ b → b < exShadow.Nbl →
          exShadow.bnl_ixyz a = exShadow.bnl_ixyz b → a = b)
        ∧ (∀ nb, 0 ≤ nb → nb < exShadow.Nbl → ∃ x y z, (1 ≤ x ∧ x < exShadow.Nx - 1)
            ∧ (1 ≤ y ∧ y < exShadow.Ny - 1) ∧ (1 ≤ z ∧ z < exShadow.Nz - 1)
            ∧ exShadow.bnl_ixyz nb = x * (exShadow.Nz * exShadow.Ny) + y * exShadow.Nz + z)
        ∧ (∀ nb ns, 0 ≤ nb → nb < exShadow.Nbl → 0 ≤ ns → ns < exShadow.Ns →
            exShadow.in_ixyz ns ≠ exShadow.bnl_ixyz nb)
        ∧ (0 : Int) ≤ 0 ∧ (0 : Int) < exShadow.Nbl)
      ∧ (stateAt exShadow 1).u2b 0 = (stateAt exShadow 1).u0 (exShadow.bnl_ixyz 0) :=
  have hinj : ∀ a b, 0 ≤ a → a < exShadow.Nbl → 0 ≤ b → b < exShadow.Nbl →
      exShadow.bnl_ixyz a = exShadow.bnl_ixyz b → a = b := by
    intro a b h1 h2 h3 h4 _
    have : exShadow.Nbl = 1 := rfl
    omega
  have hring : ∀ nb, 0 ≤ nb → nb < exShadow.Nbl → ∃ x y z, (1 ≤ x ∧ x < exShadow.Nx - 1)
      ∧ (1 ≤ y ∧ y < exShadow.Ny - 1) ∧ (1 ≤ z ∧ z < exShadow.Nz - 1)
      ∧ exShadow.bnl_ixyz nb = x * (exShadow.Nz * exShadow.Ny) + y * exShadow.Nz + z :=
    fun _ _ _ => ⟨1, 1, 2, ⟨by decide, by decide⟩, ⟨by decide, by decide⟩,
      ⟨by decide, by decide⟩, rfl⟩
  have hsrc : ∀ nb ns, 0 ≤ nb → nb < exShadow.Nbl → 0 ≤ ns → ns < exShadow.Ns →
      exShadow.in_ixyz ns ≠ exShadow.bnl_ixyz nb := by
    intro nb ns _ _ _ _
    show (21 : Int) ≠ 22
    decide
  ⟨⟨hinj, hring, hsrc, by decide, by decide⟩,
    (lossy_shadow_redundant exShadow hinj hring hsrc 1 0 (by decide) (by decide)).2.2⟩

/-! ## C20: causality with one sample of latency -/

/-- C20: for two scenes that differ in `in_sigs` only, if the input signals agree at all
sample indices `m < n` of every source, then the receiver outputs agree at all sample
indices `j <= n`; and `u_out[nr * Nt + 0] = 0` for every scene and every receiver. -/
theorem causality_one_sample_latency (sc : Scene) :
    (∀ (g g' : Int → ℚ) (n : Int),
        (∀ ns m, 0 ≤ ns → ns < sc.Ns → 0 ≤ m → m < n →
          g (ns * sc.Nt + m) = g' (ns * sc.Nt + m)) →
        ∀ nr j, 0 ≤ nr → nr < sc.Nr → 0 ≤ j → j ≤ n → j < sc.Nt →
          (run (withSigs sc g)).u_out (nr * sc.Nt + j)
            = (run (withSigs sc g')).u_out (nr * sc.Nt + j))
      ∧ (∀ nr, 0 ≤ nr → nr < sc.Nr → 0 < sc.Nt → (run sc).u_out (nr * sc.Nt + 0) = 0) := by
  constructor
  · intro g g' n h nr j h1 h2 hj0 hjn hjt
    have e : ∀ f, (run (withSigs sc f)).u_out (nr * sc.Nt + j)
        = haloPatch sc (stateAt (withSigs sc f) j.toNat).u1 (sc.out_ixyz nr) := by
      intro f
      have := run_u_out (withSigs sc f) nr j h1 h2 hj0 hjt
      rw [haloPatch_withSigs] at this
      exact this
    rw [e g, e g', stateAt_causal sc g g' j.toNat
      (fun ns m a b c d => h ns m a b c (by omega))]
  · intro nr h1 h2 hnt
    rw [run_u_out sc nr 0 h1 h2 le_rfl hnt]
    show haloPatch sc (fun _ => 0) (sc.out_ixyz nr) = 0
    rw [haloPatch_zero]

theorem causality_one_sample_latency_witness :
    ((∀ ns m, 0 ≤ ns → ns < ex5.Ns → 0 ≤ m → m < (1 : Int) →
          impulse0 (ns * ex5.Nt + m) = impulse0Tail (ns * ex5.Nt + m))
        ∧ (0 : Int) ≤ 0 ∧ (0 : Int) < ex5.Nr ∧ (0 : Int) ≤ 1 ∧ (1 : Int) ≤ 1 ∧ (1 : Int) < ex5.Nt)
      ∧ (run (withSigs ex5 impulse0)).u_out (0 * ex5.Nt + 1)
        = (run (withSigs ex5 impulse0Tail)).u_out (0 * ex5.Nt + 1) :=
  have h : ∀ ns m, 0 ≤ ns → ns < ex5.Ns → 0 ≤ m → m < (1 : Int) →
      impulse0 (ns * ex5.Nt + m) = impulse0Tail (ns * ex5.Nt + m) := by
    intro ns m h1 h2 h3 h4
    have hN : ex5.Ns = 1 := rfl
    have hT : ex5.Nt = 3 := rfl
    have hz : ns * ex5.Nt + m = 0 := by
      rw [hT]
      omega
    rw [hz]
    rfl
  ⟨⟨h, by decide, by decide, by decide, by decide, by decide⟩,
    (causality_one_sample_latency ex5).1 impulse0 impulse0Tail 1 h
      0 1 (by decide) (by decide) (by decide) (by decide) (by decide)⟩

/-! ## C21: index safety of the stencils -/

/-- C21: stencil index safety. For every interior cell `(ix, iy, iz)` (`1 <= ix < Nx-1`,
`1 <= iy < Ny-1`, `1 <= iz < Nz-1`, which needs `Nx, Ny, Nz >= 3`) with
`ii = ix*Ny*Nz + iy*Nz + iz`: `ii` lies in `[0, Nx*Ny*Nz)`; for each of the 6 cartesian and
12 FCC neighbour steps `d`, the index `ii + offset(d)` is the linear index of the grid cell
`(ix + dx, iy + dy, iz + dz)` and lies in `[0, Nx*Ny*Nz)`; the offsets the stencils add to
`ii` are exactly the offsets of these steps; `ii >> 3` is an index into a mask of
`DIV_CEIL(Npts, 8)` bytes when `Npts = Nx*Ny*Nz`; and the air and rigid stencils read
`U_prev` at `ii` and at these neighbour indices only. -/
theorem stencil_index_safe (sc : Scene) (ix iy iz : Int)
    (hx : 1 ≤ ix ∧ ix < sc.Nx - 1) (hy : 1 ≤ iy ∧ iy < sc.Ny - 1)
    (hz : 1 ≤ iz ∧ iz < sc.Nz - 1) :
    (3 ≤ sc.Nx ∧ 3 ≤ sc.Ny ∧ 3 ≤ sc.Nz)
      ∧ lin sc ix iy iz = ix * sc.Ny * sc.Nz + iy * sc.Nz + iz
      ∧ (0 ≤ lin sc ix iy iz ∧ lin sc ix iy iz < sc.Nx * sc.Ny * sc.Nz)
      ∧ (∀ d ∈ cartSteps ++ fccSteps,
          lin sc ix iy iz + linc sc d = lin sc (ix + d.1) (iy + d.2.1) (iz + d.2.2)
            ∧ inGrid sc (ix + d.1, iy + d.2.1, iz + d.2.2)
            ∧ 0 ≤ lin sc ix iy iz + linc sc d
            ∧ lin sc ix iy iz + linc sc d < sc.Nx * sc.Ny * sc.Nz)
      ∧ (cartOffsets sc = cartSteps.map (linc sc) ∧ fccOffsets sc = fccSteps.map (linc sc))
      ∧ (∀ o ∈ cartOffsets sc ++ fccOffsets sc,
          0 ≤ lin sc ix iy iz + o ∧ lin sc ix iy iz + o < sc.Nx * sc.Ny * sc.Nz)
      ∧ (sc.Npts = sc.Nx * sc.Ny * sc.Nz →
          0 ≤ lin sc ix iy iz >>> 3 ∧ lin sc ix iy iz >>> 3 < DIV_CEIL sc.Npts 8)
      ∧ (∀ u1 u1' u0 : Int → ℚ,
          ((∀ o ∈ 0 :: cartOffsets sc, u1 (lin sc ix iy iz + o) = u1' (lin sc ix iy iz + o)) →
            airCartCell sc u1 (lin sc ix iy iz) u0 = airCartCell sc u1' (lin sc ix iy iz) u0)
          ∧ ((∀ o ∈ 0 :: fccOffsets sc, u1 (lin sc ix iy iz + o) = u1' (lin sc ix iy iz + o)) →
            airFccCell sc u1 (lin sc ix iy iz) u0 = airFccCell sc u1' (lin sc ix iy iz) u0)
          ∧ ((∀ nb, 0 ≤ nb → nb < sc.Nb → ∀ o ∈ 0 :: cartOffsets sc,
                u1 (sc.bn_ixyz nb + o) = u1' (sc.bn_ixyz nb + o)) →
            rigidCart sc u1 u0 = rigidCart sc u1' u0)
          ∧ ((∀ nb, 0 ≤ nb → nb < sc.Nb → ∀ o ∈ 0 :: fccOffsets sc,
                u1 (sc.bn_ixyz nb + o) = u1' (sc.bn_ixyz nb + o)) →
            rigidFcc sc u1 u0 = rigidFcc sc u1' u0)) := by
  have hint : interior sc (ix, iy, iz) := ⟨hx, hy, hz⟩
  have hr := lin_range sc ix iy iz (interior_inGrid sc _ hint)
  have hsteps : ∀ d ∈ cartSteps ++ fccSteps,
      lin sc ix iy iz + linc sc d = lin sc (ix + d.1) (iy + d.2.1) (iz + d.2.2)
        ∧ inGrid sc (ix + d.1, iy + d.2.1, iz + d.2.2)
        ∧ 0 ≤ lin sc ix iy iz + linc sc d
        ∧ lin sc ix iy iz + linc sc d < sc.Nx * sc.Ny * sc.Nz := by
    intro d hd
    have hg := step_inGrid sc ix iy iz hint d hd
    have he : lin sc ix iy iz + linc sc d = lin sc (ix + d.1) (iy + d.2.1) (iz + d.2.2) :=
      lin_add sc ix iy iz d.1 d.2.1 d.2.2
    have hb := lin_range sc _ _ _ hg
    rw [he]
    exact ⟨rfl, hg, hb.1, hb.2⟩
  refine ⟨⟨by omega, by omega, by omega⟩, ?_, hr, hsteps,
    ⟨cartOffsets_eq sc, fccOffsets_eq sc⟩, ?_, ?_, ?_⟩
  · unfold lin
    ring
  · intro o ho
    rw [cartOffsets_eq, fccOffsets_eq, ← List.map_append] at ho
    obtain ⟨d, hd, rfl⟩ := List.mem_map.mp ho
    exact (hsteps d hd).2.2
  · intro hN
    rw [hN]
    exact mask_index_range _ _ hr.1 hr.2
  · intro u1 u1' u0
    exact ⟨airCartCell_reads sc u1 u1' u0 _, airFccCell_reads sc u1 u1' u0 _,
      rigidCart_reads sc u1 u1' u0, rigidFcc_reads sc u1 u1' u0⟩

theorem stencil_index_safe_witness :
    (((1 : Int) ≤ 1 ∧ (1 : Int) < ex4.Nx - 1) ∧ ((1 : Int) ≤ 2 ∧ (2 : Int) < ex4.Ny - 1)
        ∧ ((1 : Int) ≤ 1 ∧ (1 : Int) < ex4.Nz - 1))
      ∧ (0 ≤ lin ex4 1 2 1 ∧ lin ex4 1 2 1 < ex4.Nx * ex4.Ny * ex4.Nz)
      ∧ (∀ o ∈ cartOffsets ex4 ++ fccOffsets ex4,
          0 ≤ lin ex4 1 2 1 + o ∧ lin ex4 1 2 1 + o < ex4.Nx * ex4.Ny * ex4.Nz)
      ∧ (ex4.Npts = ex4.Nx * ex4.Ny * ex4.Nz →
          0 ≤ lin ex4 1 2 1 >>> 3 ∧ lin ex4 1 2 1 >>> 3 < DIV_CEIL ex4.Npts 8) :=
  have h := stencil_index_safe ex4 1 2 1 ⟨by decide, by decide⟩ ⟨by decide, by decide⟩
    ⟨by decide, by decide⟩
  ⟨⟨⟨by decide, by decide⟩, ⟨by decide, by decide⟩, ⟨by decide, by decide⟩⟩,
    h.2.2.1, h.2.2.2.2.2.1, h.2.2.2.2.2.2.1⟩

/-! ## C22: `qsort_keys` sorts and returns indices -/

/-- C22: `qsort_keys` sorts and returns indices. With a library `qsort` that meets its
contract for `cmpfunc_int64_keys` and a successful allocation, for every `N >= 0` and input
array `v` the call `qsort_keys(val_arr, key_arr, N)` returns, and afterwards: `val_arr` is
in non-decreasing order on `[0, N)`; `key_arr[0..N)` is a permutation of `0..N-1`;
`val_arr[i] = v[key_arr[i]]` for every `i < N`; `val_arr[0..N)` is a permutation of
`v[0..N)`; and both arrays are untouched outside `[0, N)`. -/
theorem qsort_keys_sorts
    (qsort : (Int → sort_int64_struct) → Int → (sort_int64_struct → sort_int64_struct → Int)
      → (Int → sort_int64_struct))
    (hq : QsortSpec qsort cmpfunc_int64_keys)
    (mem : Int → sort_int64_struct) (v key_arr : Int → Int) (N : Int) (hN : 0 ≤ N) :
    ∃ r, qsort_keys qsort (some mem) v key_arr N = some r
      ∧ (∀ i j, 0 ≤ i → i ≤ j → j < N → r.1 i ≤ r.1 j)
      ∧ (prefixList N r.2).Perm (rangeInt 0 N)
      ∧ (∀ i, 0 ≤ i → i < N → 0 ≤ r.2 i ∧ r.2 i < N ∧ r.1 i = v (r.2 i))
      ∧ (prefixList N r.1).Perm (prefixList N v)
      ∧ (∀ i, ¬ (0 ≤ i ∧ i < N) → r.1 i = v i ∧ r.2 i = key_arr i) := by
  obtain ⟨sa, hsa⟩ : ∃ sa, sa = qsort (forRange 0 N (fun i sa =>
      Function.update sa i ({ val := v i, idx := i } : sort_int64_struct)) mem)
      N cmpfunc_int64_keys := ⟨_, rfl⟩
  refine ⟨_, qsort_keys_some qsort mem v key_arr N, ?_⟩
  rw [← hsa]
  obtain ⟨r, hr⟩ : ∃ r, r = forRange 0 N (fun i (s : (Int → Int) × (Int → Int)) =>
      (Function.update s.1 i (sa i).val, Function.update s.2 i (sa i).idx)) (v, key_arr) :=
    ⟨_, rfl⟩
  rw [← hr]
  have hout : ∀ j, r.1 j = (if 0 ≤ j ∧ j < N then (sa j).val else v j)
      ∧ r.2 j = (if 0 ≤ j ∧ j < N then (sa j).idx else key_arr j) := by
    intro j
    rw [hr]
    exact forRange_fill_pair 0 N (fun i => (sa i).val) (fun i => (sa i).idx) v key_arr j
  have hin : ∀ j, 0 ≤ j → j < N → r.1 j = (sa j).val ∧ r.2 j = (sa j).idx := by
    intro j h1 h2
    have := hout j
    rw [if_pos ⟨h1, h2⟩, if_pos ⟨h1, h2⟩] at this
    exact this
  have hspec := hq (forRange 0 N (fun i sa =>
      Function.update sa i ({ val := v i, idx := i } : sort_int64_struct)) mem) N hN
  rw [← hsa, qsort_keys_input] at hspec
  obtain ⟨hperm, hchain⟩ := hspec
  have hval : prefixList N r.1 = (prefixList N sa).map (fun s => s.val) := by
    rw [prefixList_map]
    exact prefixList_congr N _ _ (fun i h1 h2 => (hin i h1 h2).1)
  have hkey : prefixList N r.2 = (prefixList N sa).map (fun s => s.idx) := by
    rw [prefixList_map]
    exact prefixList_congr N _ _ (fun i h1 h2 => (hin i h1 h2).2)
  have hmem : ∀ i, 0 ≤ i → i < N → (0 ≤ (sa i).idx ∧ (sa i).idx < N)
      ∧ (sa i).val = v (sa i).idx := by
    intro i h1 h2
    have h3 : sa i ∈ prefixList N sa := (mem_prefixList N sa _).mpr ⟨i, ⟨h1, h2⟩, rfl⟩
    have h4 := hperm.mem_iff.mp h3
    obtain ⟨k, hk, hk2⟩ := List.mem_map.mp h4
    rw [← hk2]
    exact ⟨(mem_rangeInt 0 N k).mp hk, rfl⟩
  refine ⟨?_, ?_, ?_, ?_, ?_⟩
  · intro i j h1 h2 h3
    rw [(hin i h1 (by omega)).1, (hin j (by omega) h3).1]
    rcases eq_or_lt_of_le h2 with h | h
    · rw [h]
    · haveI : IsTrans sort_int64_struct (fun x y => cmpfunc_int64_keys x y ≤ 0) :=
        ⟨fun x y z => by
          rw [cmpfunc_int64_keys_le, cmpfunc_int64_keys_le, cmpfunc_int64_keys_le]
          exact le_trans⟩
      have hp := List.chain'_iff_pairwise.mp hchain
      exact (cmpfunc_int64_keys_le _ _).mp (prefixList_pairwise N sa _ hp i j h1 h h3)
  · rw [hkey]
    have := hperm.map (fun s => s.idx)
    rw [List.map_map] at this
    exact this.trans (List.Perm.of_eq (List.map_id _))
  · intro i h1 h2
    rw [(hin i h1 h2).1, (hin i h1 h2).2]
    exact ⟨(hmem i h1 h2).1.1, (hmem i h1 h2).1.2, (hmem i h1 h2).2⟩
  · rw [hval]
    have := hperm.map (fun s => s.val)
    rw [List.map_map] at this
    exact this
  · intro i hi
    have := hout i
    rw [if_neg hi, if_neg hi] at this
    exact this

theorem qsort_keys_sorts_witness :
    (QsortSpec insertionQsort cmpfunc_int64_keys ∧ (0 : Int) ≤ 4)
      ∧ (∃ r, qsort_keys insertionQsort (some zeroStructs) exVals (fun _ => 0) 4 = some r
          ∧ (∀ i j, 0 ≤ i → i ≤ j → j < 4 → r.1 i ≤ r.1 j)
          ∧ (prefixList 4 r.2).Perm (rangeInt 0 4)
          ∧ (∀ i, 0 ≤ i → i < 4 → 0 ≤ r.2 i ∧ r.2 i < 4 ∧ r.1 i = exVals (r.2 i))
          ∧ (prefixList 4 r.1).Perm (prefixList 4 exVals)
          ∧ (∀ i, ¬ (0 ≤ i ∧ i < 4) → r.1 i = exVals i ∧ r.2 i = (fun _ => 0) i))
      ∧ (qsort_keys insertionQsort (some zeroStructs) exVals (fun _ => 0) 4).map
          (fun r => (prefixList 4 r.1, prefixList 4 r.2))
        = some ([1, 1, 2, 3], [1, 3, 2, 0]) :=
  ⟨⟨insertionQsort_spec, by decide⟩,
    qsort_keys_sorts insertionQsort insertionQsort_spec zeroStructs exVals (fun _ => 0) 4
      (by decide),
    by decide⟩

end Pffdtd
